import Mathlib

/-!
Shallow embedding of goetf, a codec for the Erlang External Term Format.

The Go package `goetf` (files `goetf.go`, `decoder.go`, `encoder.go`) is embedded
as pure functions over an explicit decoder / encoder state.

* Go `byte` is `UInt8`; a Go `string` is a sequence of bytes (`GoString`).
* `int32` / `int64` values are integers, with the conversions of the source
  (`int32(x)`, wrapping `int64` arithmetic) written as explicit reductions.
* `io.Reader` behind `bufio.Reader` is a `Source`: the bytes still to come plus a
  schedule saying how many bytes each of the next `Read` calls hands over, so that
  short reads are part of the model.
* The scratch slice `dec.buf` is a backing array `bufArr` (its length is the capacity)
  together with the slice length `bufLen`.
* Out-parameters (`output *string`, `dst *int32`, ...) are passed in as the prior
  content of the destination and come back as the `val` of the returned record.
-/

namespace Goetf

/-- A Go `string`: an immutable sequence of bytes. -/
abbrev GoString := List UInt8

/-- Bytes of an ASCII string literal of the source. -/
def goStr (s : String) : GoString := s.toList.map (fun c => UInt8.ofNat c.toNat)

/-! ## goetf.go: term tags -/

/-- Erlang external term tags (`type TermTag byte`). -/
abbrev TermTag := UInt8

def ETTSmallAtomUTF8 : TermTag := 119
def ETTAtomUTF8 : TermTag := 118
def ETTFun : TermTag := 117
def ETTMap : TermTag := 116
def ETTSmallAtom : TermTag := 115
def ETTNewRef : TermTag := 114
def ETTExport : TermTag := 113
def ETTNewFun : TermTag := 112
def ETTLargeBig : TermTag := 111
def ETTSmallBig : TermTag := 110
def ETTBinary : TermTag := 109
def ETTList : TermTag := 108
def ETTString : TermTag := 107
def ETTNil : TermTag := 106
def ETTLargeTuple : TermTag := 105
def ETTSmallTuple : TermTag := 104
def ETTPid : TermTag := 103
def ETTPort : TermTag := 102
def ETTRef : TermTag := 101
def ETTAtom : TermTag := 100
def ETTFloat : TermTag := 99
def ETTInteger : TermTag := 98
def ETTSmallInteger : TermTag := 97
def ETTCacheRef : TermTag := 82
def ETTNewCache : TermTag := 78
def ETTBitBinary : TermTag := 77
def ETTNewFloat : TermTag := 70
def ETTCachedAtom : TermTag := 67

/-! ## Errors -/

/-- The struct `InvalidTermTagError` of `decoder.go`. -/
structure InvalidTermTagError where
  FieldStack : List GoString
  Tag : TermTag
  Caller : String
  Cursor : Nat
  deriving DecidableEq, Repr

/-- Error values that flow through the decoder and the encoder. -/
inductive Err where
  /-- `io.EOF`, reported by the buffered reader when the stream is exhausted. -/
  | EOF
  /-- A `*InvalidTermTagError`. -/
  | InvalidTermTag (e : InvalidTermTagError)
  /-- The value `errors.New("Cannot convert big int into int64, too big")`. -/
  | TooBig
  /-- The error `fmt.Sscanf` returns in `ReadAnyFloat64`, where the operand cannot be
  scanned into. -/
  | ScanType
  /-- A failed `Write` of the underlying `io.Writer`. -/
  | WriteFailed
  /-- Any other error, for instance one made up by a callback. -/
  | Other (msg : String)
  deriving DecidableEq, Repr

/-! ## The byte source (`bufio.Reader` around an `io.Reader`) -/

/-- The stream behind `dec.bufReader`. `data` are the bytes not yet consumed.
`sched` bounds the next `Read` calls: its head `c` makes the next `Read` hand over
at most `max 1 c` bytes; once the schedule is empty every `Read` hands over all
the bytes asked for that the stream still has. -/
structure Source where
  data : List UInt8
  sched : List Nat
  deriving DecidableEq, Repr

/-- A source that never delivers fewer bytes than requested while bytes remain. -/
def Source.noShortReads (s : Source) : Prop := s.sched = []

instance (s : Source) : Decidable s.noShortReads := by
  unfold Source.noShortReads; infer_instance

/-- Method `bufio.Reader.ReadByte`: the next byte, or `(0, io.EOF)`. -/
def Source.ReadByte (s : Source) : UInt8 × Option Err × Source :=
  match s.data with
  | [] => (0, some Err.EOF, s)
  | b :: rest => (b, none, { s with data := rest })

/-- Number of bytes the next `Read` into a slice of length `k` hands over. -/
def Source.readCount (s : Source) (k : Nat) : Nat :=
  match s.sched with
  | [] => min k s.data.length
  | c :: _ => min (min k (max 1 c)) s.data.length

/-- Method `bufio.Reader.Read(p)` with `len(p) = k`: the bytes copied to the front
of `p`, the error, and the source afterwards. A read of a non-empty slice from an
exhausted stream gives `(0, io.EOF)`; otherwise at least one byte is delivered. -/
def Source.Read (s : Source) (k : Nat) : List UInt8 × Option Err × Source :=
  if k = 0 then ([], none, s)
  else if s.data = [] then ([], some Err.EOF, s)
  else
    let n := s.readCount k
    (s.data.take n, none, { data := s.data.drop n, sched := s.sched.tail })

/-! ## goetf.go: tag names, and decoder.go: rendering of the invalid-tag error -/

/-- Method `TermTag.String`: the cases of its `switch`, in source order. -/
def TermTag.String (t : TermTag) : GoString :=
  if t = ETTAtom then goStr "ETTAtom"
  else if t = ETTAtomUTF8 then goStr "ETTAtomUTF8"
  else if t = ETTBinary then goStr "ETTBinary"
  else if t = ETTBitBinary then goStr "ETTBitBinary"
  else if t = ETTCachedAtom then goStr "ETTCachedAtom"
  else if t = ETTCacheRef then goStr "ETTCacheRef"
  else if t = ETTExport then goStr "ETTExport"
  else if t = ETTFloat then goStr "ETTFloat"
  else if t = ETTFun then goStr "ETTFun"
  else if t = ETTInteger then goStr "ETTInteger"
  else if t = ETTLargeBig then goStr "ETTLargeBig"
  else if t = ETTLargeTuple then goStr "ETTLargeTuple"
  else if t = ETTList then goStr "ETTList"
  else if t = ETTNewCache then goStr "ETTNewCache"
  else if t = ETTNewFloat then goStr "ETTNewFloat"
  else if t = ETTNewFun then goStr "ETTNewFun"
  else if t = ETTNewRef then goStr "ETTNewRef"
  else if t = ETTNil then goStr "ETTNil"
  else if t = ETTPid then goStr "ETTPid"
  else if t = ETTPort then goStr "ETTPort"
  else if t = ETTRef then goStr "ETTRef"
  else if t = ETTSmallAtom then goStr "ETTSmallAtom"
  else if t = ETTSmallAtomUTF8 then goStr "ETTSmallAtomUTF8"
  else if t = ETTSmallBig then goStr "ETTSmallBig"
  else if t = ETTSmallInteger then goStr "ETTSmallInteger"
  else if t = ETTSmallTuple then goStr "ETTSmallTuple"
  else if t = ETTString then goStr "ETTString"
  else if t = ETTMap then goStr "ETTMap"
  else goStr "Unknown"

/-- Function `strings.Join`. -/
def stringsJoin : List GoString → GoString → GoString
  | [], _ => []
  | [a], _ => a
  | a :: b :: rest, sep => a ++ sep ++ stringsJoin (b :: rest) sep

/-- Decimal rendering of an `int` by the verb `%d`. -/
def decimal (n : Nat) : GoString := goStr (toString n)

/-- Method `InvalidTermTagError.Error`. The local `pfx` (named `prefix` in the
source) is computed from the field stack, and the string that is returned is the
result of `fmt.Sprintf("Unexpected term tag at %d in %s: %s", ...)`, whose operands
are the cursor, the caller and the tag name. -/
def InvalidTermTagError.Error (i : InvalidTermTagError) : GoString :=
  let pfx := stringsJoin i.FieldStack (goStr ": ")
  let pfx := if pfx ≠ [] then pfx ++ goStr ": " else pfx
  Function.const GoString
    (goStr "Unexpected term tag at " ++ decimal i.Cursor ++ goStr " in " ++ goStr i.Caller
      ++ goStr ": " ++ TermTag.String i.Tag) pfx

/-! ## decoder.go: state -/

/-- The struct `Decoder`. `bufArr`/`bufLen` are the backing array and the length of
the slice `dec.buf`. -/
structure Decoder where
  bufReader : Source
  cursor : Nat
  fieldStack : List GoString
  bufArr : List UInt8
  bufLen : Nat
  deriving DecidableEq, Repr

/-- What a Go function hands back: the returned value (for a reader with an
out-parameter: the content of the destination when it returns), the error, and
the decoder state afterwards. -/
structure Ret (α : Type) where
  val : α
  err : Option Err
  dec : Decoder

/-- Interface `ListUnmarshaler`: the callback sees the decoder and its own state `σ`
(the receiver of `UnmarshalETFList`) and hands back both with its error. -/
abbrev ListUnmarshaler (σ : Type) := σ → Decoder → σ × Option Err × Decoder

/-- Interface `Unmarshaler`: as `ListUnmarshaler`, with the key `k`. -/
abbrev Unmarshaler (σ : Type) := σ → Decoder → GoString → σ × Option Err × Decoder

/-- The function `NewDecoder`, on a source. -/
def NewDecoder (r : Source) : Decoder :=
  { bufReader := r, cursor := 0, fieldStack := [], bufArr := [], bufLen := 0 }

namespace Decoder

/-- The slice `dec.buf`. -/
def buf (dec : Decoder) : List UInt8 := dec.bufArr.take dec.bufLen

/-- Store `b` (of length `len(dec.buf)`) through the slice `dec.buf`. -/
def setBuf (dec : Decoder) (b : List UInt8) : Decoder :=
  { dec with bufArr := b ++ dec.bufArr.drop dec.bufLen }

/-! ### low-level reads -/

/-- Method `readNextTag`: the cursor moves even when `ReadByte` fails. -/
def readNextTag (dec : Decoder) : Ret TermTag :=
  let (b, err, s) := dec.bufReader.ReadByte
  { val := b, err := err, dec := { dec with bufReader := s, cursor := dec.cursor + 1 } }

/-- Method `readNextByte`. -/
def readNextByte (dec : Decoder) : Ret UInt8 :=
  let (b, err, s) := dec.bufReader.ReadByte
  { val := b, err := err, dec := { dec with bufReader := s, cursor := dec.cursor + 1 } }

/-- First part of `readIntoBuf`: reslice or reallocate `dec.buf` to length `l`. -/
def resizeBuf (dec : Decoder) (l : Nat) : Decoder :=
  if dec.bufLen < l then
    if dec.bufArr.length ≥ l then { dec with bufLen := l }
    else { dec with bufArr := List.replicate l 0, bufLen := l }
  else { dec with bufLen := l }

/-- The loop `for n := 0; n < l; { nr, err := dec.bufReader.Read(dec.buf); ... }` of
`readIntoBuf`. Every `Read` lands at the base of `dec.buf`. Each pass without error
adds at least one byte to `n`, so `l - n` passes are always enough; the first
argument counts them down. -/
def readLoop : Nat → Decoder → Nat → Nat → Option Err × Decoder
  | 0, dec, _, _ => (none, dec)
  | fuel + 1, dec, l, n =>
    if n < l then
      let (bs, err, s) := dec.bufReader.Read dec.bufLen
      let dec1 : Decoder :=
        { dec with bufReader := s, cursor := dec.cursor + bs.length,
                   bufArr := bs ++ dec.bufArr.drop bs.length }
      match err with
      | some e => (some e, dec1)
      | none => readLoop fuel dec1 l (n + bs.length)
    else (none, dec)

/-- Method `readIntoBuf`. -/
def readIntoBuf (dec : Decoder) (l : Nat) : Ret Unit :=
  let (err, dec1) := readLoop l (dec.resizeBuf l) l 0
  { val := (), err := err, dec := dec1 }

/-- Function `binary.BigEndian.Uint16`. -/
def beUint16 (b : List UInt8) : Nat :=
  (b.getD 1 0).toNat + (b.getD 0 0).toNat * 256

/-- Function `binary.BigEndian.Uint32`. -/
def beUint32 (b : List UInt8) : Nat :=
  (b.getD 3 0).toNat + (b.getD 2 0).toNat * 256 + (b.getD 1 0).toNat * 65536
    + (b.getD 0 0).toNat * 16777216

/-- Function `binary.BigEndian.Uint64`. -/
def beUint64 (b : List UInt8) : Nat :=
  (b.getD 7 0).toNat + (b.getD 6 0).toNat * 256 ^ 1 + (b.getD 5 0).toNat * 256 ^ 2
    + (b.getD 4 0).toNat * 256 ^ 3 + (b.getD 3 0).toNat * 256 ^ 4
    + (b.getD 2 0).toNat * 256 ^ 5 + (b.getD 1 0).toNat * 256 ^ 6
    + (b.getD 0 0).toNat * 256 ^ 7

/-- Method `readUint16`. -/
def readUint16 (dec : Decoder) : Ret Nat :=
  let r := dec.readIntoBuf 2
  match r.err with
  | some e => { val := 0, err := some e, dec := r.dec }
  | none => { val := beUint16 r.dec.buf, err := none, dec := r.dec }

/-- Method `readUint32`. -/
def readUint32 (dec : Decoder) : Ret Nat :=
  let r := dec.readIntoBuf 4
  match r.err with
  | some e => { val := 0, err := some e, dec := r.dec }
  | none => { val := beUint32 r.dec.buf, err := none, dec := r.dec }

/-- Method `InvalidTermTag`: the error value, with a copy of the field stack. -/
def InvalidTermTag (dec : Decoder) (tag : TermTag) (caller : String) : Err :=
  Err.InvalidTermTag
    { FieldStack := dec.fieldStack, Cursor := dec.cursor, Tag := tag, Caller := caller }

/-- Method `skipAnyWithTag`: its only case, `ETTNil`, returns at once. -/
def skipAnyWithTag (dec : Decoder) (tag : TermTag) : Decoder :=
  if tag = ETTNil then dec else dec

/-- Method `skipAny`. -/
def skipAny (dec : Decoder) : Decoder :=
  let r := dec.readNextTag
  match r.err with
  | some _ => r.dec
  | none => r.dec.skipAnyWithTag r.val

/-! ### primitive readers -/

/-- Method `ReadVersion`. -/
def ReadVersion (dec : Decoder) (out : UInt8) : Ret UInt8 :=
  let r := dec.readNextByte
  match r.err with
  | some e => { val := out, err := some e, dec := r.dec }
  | none => { val := r.val, err := none, dec := r.dec }

/-- Method `ReadAnyAtom`. The `switch` yields the length read (a `uint16`) or, in
its default case, leaves with the invalid-tag error. -/
def ReadAnyAtom (dec : Decoder) (output : GoString) : Ret GoString :=
  let t := dec.readNextTag
  match t.err with
  | some e => { val := output, err := some e, dec := t.dec }
  | none =>
    let tag := t.val
    let sw : Option (Ret Nat) :=
      if tag = ETTAtom ∨ tag = ETTAtomUTF8 ∨ tag = ETTString then
        some t.dec.readUint16
      else if tag = ETTSmallAtom ∨ tag = ETTSmallAtomUTF8 then
        let b := t.dec.readNextByte
        some { val := b.val.toNat, err := b.err, dec := b.dec }
      else none
    match sw with
    | none => { val := output, err := some (t.dec.InvalidTermTag tag "ReadAnyAtom"), dec := t.dec }
    | some l =>
      match l.err with
      | some e => { val := output, err := some e, dec := l.dec }
      | none =>
        let r := l.dec.readIntoBuf l.val
        match r.err with
        | some e => { val := output, err := some e, dec := r.dec }
        | none => { val := r.dec.buf, err := none, dec := r.dec }

/-- Method `ReadAnyBool`: after the atom is read, `*output = true` is executed when
the text is "true", and then `*output = false` in every case. -/
def ReadAnyBool (dec : Decoder) (output : Bool) : Ret Bool :=
  let r := dec.ReadAnyAtom []
  match r.err with
  | some e => { val := output, err := some e, dec := r.dec }
  | none =>
    let str := r.val
    let output1 := if str = goStr "true" then true else output
    let output2 := Function.const Bool false output1
    { val := output2, err := none, dec := r.dec }

/-- Method `ReadAnyString`. -/
def ReadAnyString (dec : Decoder) (output : GoString) : Ret GoString :=
  let t := dec.readNextTag
  match t.err with
  | some e => { val := output, err := some e, dec := t.dec }
  | none =>
    let tag := t.val
    let sw : Option (Ret Nat) :=
      if tag = ETTAtom ∨ tag = ETTAtomUTF8 ∨ tag = ETTString then
        some t.dec.readUint16
      else if tag = ETTSmallAtom ∨ tag = ETTSmallAtomUTF8 then
        let b := t.dec.readNextByte
        some { val := b.val.toNat, err := b.err, dec := b.dec }
      else if tag = ETTBinary then
        some t.dec.readUint32
      else none
    match sw with
    | none => { val := output, err := some (t.dec.InvalidTermTag tag "ReadString"), dec := t.dec }
    | some l =>
      match l.err with
      | some e => { val := output, err := some e, dec := l.dec }
      | none =>
        let r := l.dec.readIntoBuf l.val
        match r.err with
        | some e => { val := output, err := some e, dec := r.dec }
        | none => { val := r.dec.buf, err := none, dec := r.dec }

/-- Conversion `int32(i)` of a `uint32`: reinterpretation of the 32 bits. -/
def toInt32 (i : Nat) : Int :=
  if i % 2 ^ 32 < 2 ^ 31 then (i % 2 ^ 32 : Nat) else ((i % 2 ^ 32 : Nat) : Int) - 2 ^ 32

/-- Reduction of an integer to the `int64` it wraps to. -/
def wrapInt64 (x : Int) : Int :=
  (x + 2 ^ 63) % 2 ^ 64 - 2 ^ 63

/-- Method `ReadAnyInt32`. -/
def ReadAnyInt32 (dec : Decoder) (dst : Int) : Ret Int :=
  let t := dec.readNextTag
  match t.err with
  | some e => { val := dst, err := some e, dec := t.dec }
  | none =>
    let tag := t.val
    if tag = ETTInteger then
      let i := t.dec.readUint32
      match i.err with
      | some e => { val := dst, err := some e, dec := i.dec }
      | none => { val := toInt32 i.val, err := none, dec := i.dec }
    else if tag = ETTSmallInteger then
      let b := t.dec.readNextByte
      match b.err with
      | some e => { val := dst, err := some e, dec := b.dec }
      | none => { val := (b.val.toNat : Int), err := none, dec := b.dec }
    else { val := dst, err := some (t.dec.InvalidTermTag tag "ReadAnyInt32"), dec := t.dec }

/-- The table `i64Powers`: the powers `256^0 .. 256^7` as `int64`. -/
def i64Powers : List Int :=
  [256 ^ 0, 256 ^ 1, 256 ^ 2, 256 ^ 3, 256 ^ 4, 256 ^ 5, 256 ^ 6, 256 ^ 7]

/-- Method `bigIntIntoInt64`: summation in wrapping `int64` arithmetic. -/
def bigIntIntoInt64 (b : List UInt8) (sign : UInt8) : Int :=
  if b.length > 8 then 0
  else
    let result := (List.range b.length).foldl
      (fun result i => wrapInt64 (result + wrapInt64 (((b.getD i 0).toNat : Int) * i64Powers.getD i 0)))
      (0 : Int)
    if sign ≠ 0 then wrapInt64 (-result) else result

/-- The loop `for i := 0; i < hsize; i++ { buf[i], buf[l-i-1] = buf[l-i-1], buf[i] }`. -/
def swapLoop (b : List UInt8) (l hsize : Nat) : List UInt8 :=
  (List.range hsize).foldl
    (fun b i => (b.set i (b.getD (l - i - 1) 0)).set (l - i - 1) (b.getD i 0)) b

/-- Method `(*big.Int).SetBytes`: the bytes as a big-endian unsigned integer. -/
def SetBytes (b : List UInt8) : Int :=
  b.foldl (fun acc x => acc * 256 + (x.toNat : Int)) 0

/-- Method `(*big.Int).IsInt64`. -/
def IsInt64 (v : Int) : Bool := decide (-(2 : Int) ^ 63 ≤ v) && decide (v ≤ 2 ^ 63 - 1)

/-- Method `readBigIntInt64`. -/
def readBigIntInt64 (dec : Decoder) (l : Nat) (sign : UInt8) : Ret Int :=
  let r := dec.readIntoBuf l
  match r.err with
  | some e => { val := 0, err := some e, dec := r.dec }
  | none =>
    if l ≤ 8 then { val := bigIntIntoInt64 r.dec.buf sign, err := none, dec := r.dec }
    else
      let hsize := l / 2
      let dec1 := r.dec.setBuf (swapLoop r.dec.buf l hsize)
      let v := SetBytes dec1.buf
      let v := if sign ≠ 0 then -v else v
      if IsInt64 v then { val := v, err := none, dec := dec1 }
      else { val := 0, err := some Err.TooBig, dec := dec1 }

/-- Method `ReadAnyInt64`. -/
def ReadAnyInt64 (dec : Decoder) (dst : Int) : Ret Int :=
  let t := dec.readNextTag
  match t.err with
  | some e => { val := dst, err := some e, dec := t.dec }
  | none =>
    let tag := t.val
    if tag = ETTInteger then
      let i := t.dec.readUint32
      match i.err with
      | some e => { val := dst, err := some e, dec := i.dec }
      | none => { val := (i.val : Int), err := none, dec := i.dec }
    else if tag = ETTSmallInteger then
      let b := t.dec.readNextByte
      match b.err with
      | some e => { val := dst, err := some e, dec := b.dec }
      | none => { val := (b.val.toNat : Int), err := none, dec := b.dec }
    else if tag = ETTSmallBig then
      let l := t.dec.readNextByte
      match l.err with
      | some e => { val := dst, err := some e, dec := l.dec }
      | none =>
        let sign := l.dec.readNextByte
        match sign.err with
        | some e => { val := dst, err := some e, dec := sign.dec }
        | none =>
          let i := sign.dec.readBigIntInt64 l.val.toNat sign.val
          match i.err with
          | some e => { val := dst, err := some e, dec := i.dec }
          | none => { val := i.val, err := none, dec := i.dec }
    else if tag = ETTLargeBig then
      let l := t.dec.readUint32
      match l.err with
      | some e => { val := dst, err := some e, dec := l.dec }
      | none =>
        let sign := l.dec.readNextByte
        match sign.err with
        | some e => { val := dst, err := some e, dec := sign.dec }
        | none =>
          let i := sign.dec.readBigIntInt64 l.val sign.val
          match i.err with
          | some e => { val := dst, err := some e, dec := i.dec }
          | none => { val := i.val, err := none, dec := i.dec }
    else { val := dst, err := some (t.dec.InvalidTermTag tag "ReadAnyInt64"), dec := t.dec }

/-- The call `fmt.Sscanf(string(dec.buf), "%f", &dst)` of `ReadAnyFloat64`. There
`dst` is already the `*float64` destination, so the operand handed to the scanner is
a `**float64`: the scanner has no case for a pointer to a pointer, so the call
returns an error for every text and stores nothing ("can't scan type", or
"unexpected newline" when the text begins with a newline; one error value stands
for both). -/
def sscanfFloat (_text : GoString) : Option Err := some Err.ScanType

/-- Method `ReadAnyFloat64`. A `float64` is kept as its 64 IEEE-754 bits, so that
`math.Float64frombits` is the identity. -/
def ReadAnyFloat64 (dec : Decoder) (dst : Nat) : Ret Nat :=
  let t := dec.readNextTag
  match t.err with
  | some e => { val := dst, err := some e, dec := t.dec }
  | none =>
    let tag := t.val
    if tag = ETTFloat then
      let r := t.dec.readIntoBuf 31
      match r.err with
      | some e => { val := dst, err := some e, dec := r.dec }
      | none =>
        match sscanfFloat r.dec.buf with
        | some e => { val := dst, err := some e, dec := r.dec }
        | none => { val := dst, err := none, dec := r.dec }
    else if tag = ETTNewFloat then
      let r := t.dec.readIntoBuf 8
      match r.err with
      | some e => { val := dst, err := some e, dec := r.dec }
      | none => { val := beUint64 r.dec.buf, err := none, dec := r.dec }
    else
      let err := t.dec.InvalidTermTag tag "ReadAnyFloat64"
      { val := dst, err := some err, dec := t.dec.skipAnyWithTag tag }

/-! ### aggregate readers -/

/-- The loop `for i := uint32(0); i < l; i++` of `ReadList`, by the number of passes
still to make; `err` is overwritten by every callback error. -/
def listLoop {σ : Type} (unmarshaler : ListUnmarshaler σ) :
    Nat → σ → Option Err → Decoder → σ × Option Err × Decoder
  | 0, st, err, dec => (st, err, dec)
  | n + 1, st, err, dec =>
    let (st1, lErr, dec1) := unmarshaler st dec
    let err1 := match lErr with
      | some e => some e
      | none => err
    listLoop unmarshaler n st1 err1 dec1

/-- Method `ReadList`. -/
def ReadList {σ : Type} (dec : Decoder) (unmarshaler : ListUnmarshaler σ) (st : σ) : Ret σ :=
  let t := dec.readNextTag
  match t.err with
  | some e => { val := st, err := some e, dec := t.dec }
  | none =>
    let tag := t.val
    if tag = ETTList then
      let l := t.dec.readUint32
      match l.err with
      | some e => { val := st, err := some e, dec := l.dec }
      | none =>
        let (st1, err, dec1) := listLoop unmarshaler l.val st none l.dec
        { val := st1, err := err, dec := dec1.skipAny }
    else
      let err := t.dec.InvalidTermTag tag "ReadList"
      { val := st, err := some err, dec := t.dec.skipAnyWithTag tag }

/-- The loop over the pairs in `ReadMapToUnmarshaler`, by the number of passes still
to make. `origStack` is the field stack at loop entry; `newStack` of the source is
`origStack` with the current key in its last slot. -/
def mapLoop {σ : Type} (unmarshaler : Unmarshaler σ) (origStack : List GoString) :
    Nat → σ → Option Err → Decoder → σ × Option Err × Decoder
  | 0, st, err, dec => (st, err, dec)
  | n + 1, st, err, dec =>
    let a := dec.ReadAnyAtom []
    match a.err with
    | some e => mapLoop unmarshaler origStack n st (some e) a.dec.skipAny
    | none =>
      let field := a.val
      let dec1 : Decoder := { a.dec with fieldStack := origStack ++ [field] }
      let (st1, lErr, dec2) := unmarshaler st dec1 field
      let err1 := match lErr with
        | some e => some e
        | none => err
      mapLoop unmarshaler origStack n st1 err1 { dec2 with fieldStack := origStack }

/-- Method `ReadMapToUnmarshaler`. -/
def ReadMapToUnmarshaler {σ : Type} (dec : Decoder) (unmarshaler : Unmarshaler σ) (st : σ) :
    Ret σ :=
  let t := dec.readNextTag
  match t.err with
  | some e => { val := st, err := some e, dec := t.dec }
  | none =>
    let tag := t.val
    if tag ≠ ETTMap then
      let err := t.dec.InvalidTermTag tag "ReadMapToUnmarhsaler"
      { val := st, err := some err, dec := t.dec.skipAnyWithTag tag }
    else
      let numPairs := t.dec.readUint32
      match numPairs.err with
      | some e => { val := st, err := some e, dec := numPairs.dec }
      | none =>
        let origStack := numPairs.dec.fieldStack
        let (st1, err, dec1) := mapLoop unmarshaler origStack numPairs.val st none numPairs.dec
        { val := st1, err := err, dec := dec1 }

end Decoder

/-! ## encoder.go -/

/-- The `io.Writer` behind the encoder: the bytes written so far, and, when
`failAfter = some k`, the number of `Write` calls that still succeed before one
fails; `none` is a writer that accepts everything. -/
structure Writer where
  out : List UInt8
  failAfter : Option Nat
  deriving DecidableEq, Repr

/-- A writer that accepts all bytes. -/
def Writer.acceptsAll (w : Writer) : Prop := w.failAfter = none

instance (w : Writer) : Decidable w.acceptsAll := by
  unfold Writer.acceptsAll; infer_instance

/-- Method `Write` of the writer. -/
def Writer.Write (w : Writer) (b : List UInt8) : Option Err × Writer :=
  match w.failAfter with
  | none => (none, { w with out := w.out ++ b })
  | some 0 => (some Err.WriteFailed, w)
  | some (k + 1) => (none, { out := w.out ++ b, failAfter := some k })

/-- The struct `Encoder`. -/
structure Encoder where
  writer : Writer
  fieldStack : List GoString
  buf : List UInt8
  deriving DecidableEq, Repr

/-- The function `NewEncoder`. -/
def NewEncoder (w : Writer) : Encoder := { writer := w, fieldStack := [], buf := [] }

/-- Conversion `byte(x)`. -/
def toByte (x : Nat) : UInt8 := UInt8.ofNat x

/-- Function `binary.BigEndian.PutUint16`, on `v : uint16`. -/
def putUint16 (v : Nat) : List UInt8 := [toByte (v / 256), toByte v]

/-- Function `binary.BigEndian.PutUint32`, on `v : uint32`. -/
def putUint32 (v : Nat) : List UInt8 :=
  [toByte (v / 16777216), toByte (v / 65536), toByte (v / 256), toByte v]

namespace Encoder

/-- Method `WriteVersion`. -/
def WriteVersion (enc : Encoder) : Option Err × Encoder :=
  let (err, w) := enc.writer.Write [131]
  (err, { enc with writer := w })

/-- Method `WriteAtomUTF8`. -/
def WriteAtomUTF8 (enc : Encoder) (atom : GoString) : Option Err × Encoder :=
  let b : List UInt8 := ETTAtomUTF8 :: putUint16 (atom.length % 2 ^ 16)
  let (err, w) := enc.writer.Write b
  match err with
  | some e => (some e, { enc with writer := w })
  | none =>
    let (err1, w1) := w.Write atom
    (err1, { enc with writer := w1 })

/-- Method `WriteBinaryString`. -/
def WriteBinaryString (enc : Encoder) (str : GoString) : Option Err × Encoder :=
  let b : List UInt8 := ETTBinary :: putUint32 (str.length % 2 ^ 32)
  let (err, w) := enc.writer.Write b
  match err with
  | some e => (some e, { enc with writer := w })
  | none =>
    let (err1, w1) := w.Write str
    (err1, { enc with writer := w1 })

end Encoder

end Goetf

/-! ## Reference values used to state the properties -/

namespace Goetf

/-- Magnitude of a big-integer term: the sum of `b[i] * 256^i` over its magnitude
bytes. -/
def bigMagnitude (b : List UInt8) : Nat :=
  ((List.range b.length).map (fun i => (b.getD i 0).toNat * 256 ^ i)).sum

/-- Signed value of a big-integer term: the magnitude when the sign byte is zero,
its negation otherwise. -/
def bigValue (g : UInt8) (b : List UInt8) : Int :=
  if g = 0 then (bigMagnitude b : Int) else -(bigMagnitude b : Int)

/-- The outcome of a reader that met a tag it does not accept: the error is an
`InvalidTermTagError` carrying the tag `t`, the cursor before the call plus one and
the field stack of the decoder; exactly the tag byte has left the stream (`rest`
remains) and the field stack is unchanged. -/
def Ret.rejectsTag {α : Type} (r : Ret α) (dec : Decoder) (t : UInt8) (rest : List UInt8)
    (caller : String) : Prop :=
  r.err = some (Err.InvalidTermTag
    { FieldStack := dec.fieldStack, Tag := t, Caller := caller, Cursor := dec.cursor + 1 }) ∧
  r.dec.bufReader = { dec.bufReader with data := rest } ∧
  r.dec.cursor = dec.cursor + 1 ∧
  r.dec.fieldStack = dec.fieldStack

/-- A list callback instrumented with a log: it behaves as `unmarshaler` and appends
the error result of each invocation to the log. -/
def logCalls {σ : Type} (unmarshaler : ListUnmarshaler σ) :
    ListUnmarshaler (σ × List (Option Err)) :=
  fun s dec =>
    let (s1, e, dec1) := unmarshaler s.1 dec
    ((s1, s.2 ++ [e]), e, dec1)

/-- A map callback instrumented with a log: it behaves as `unmarshaler` and appends
to the log, for each invocation, the key it was given, the field stack of the decoder
at that moment and the error it returned. -/
def logMapCalls {σ : Type} (unmarshaler : Unmarshaler σ) :
    Unmarshaler (σ × List (GoString × List GoString × Option Err)) :=
  fun s dec k =>
    let (s1, e, dec1) := unmarshaler s.1 dec k
    ((s1, s.2 ++ [(k, dec.fieldStack, e)]), e, dec1)

/-- The bytes `bytes` are a well-formed atom term with text `text`: tag 115 or 119 and
a one-byte length, or tag 100, 118 or 107 and a two-byte big-endian length, followed
by exactly the text. -/
def IsAtomTerm (bytes : List UInt8) (text : GoString) : Prop :=
  (∃ tag n : UInt8, (tag = 115 ∨ tag = 119) ∧ n.toNat = text.length ∧
    bytes = tag :: n :: text) ∨
  (∃ tag hi lo : UInt8, (tag = 100 ∨ tag = 118 ∨ tag = 107) ∧
    hi.toNat * 256 + lo.toNat = text.length ∧ bytes = tag :: hi :: lo :: text)

/-- A pair of a map term on the wire: the bytes of the key term, the text of the key,
and the bytes of the value term. -/
structure WirePair where
  keyBytes : List UInt8
  key : GoString
  valueBytes : List UInt8

/-- The wire bytes of a sequence of pairs. -/
def pairsBytes : List WirePair → List UInt8
  | [] => []
  | p :: ps => p.keyBytes ++ (p.valueBytes ++ pairsBytes ps)

/-- The decoder after `k` calls of `readNextTag` in a row, results dropped. -/
def tagReads : Nat → Decoder → Decoder
  | 0, dec => dec
  | k + 1, dec => tagReads k dec.readNextTag.dec

/-- Number of bytes the term at the head of `data` occupies on the wire, by the
table of length encodings: one tag byte, the bytes of the length field, and the
payload, which for a big is the sign byte and the magnitude. -/
def wireSize (data : List UInt8) : Nat :=
  match data with
  | [] => 0
  | tag :: r =>
    if tag = ETTSmallAtom ∨ tag = ETTSmallAtomUTF8 then 1 + 1 + (r.getD 0 0).toNat
    else if tag = ETTAtom ∨ tag = ETTAtomUTF8 ∨ tag = ETTString then 1 + 2 + Decoder.beUint16 r
    else if tag = ETTBinary then 1 + 4 + Decoder.beUint32 r
    else if tag = ETTSmallInteger then 1 + 1
    else if tag = ETTInteger then 1 + 4
    else if tag = ETTSmallBig then 1 + 1 + (1 + (r.getD 0 0).toNat)
    else if tag = ETTLargeBig then 1 + 4 + (1 + Decoder.beUint32 r)
    else if tag = ETTFloat then 1 + 31
    else if tag = ETTNewFloat then 1 + 8
    else 0

/-- The call that returned `r` from the state `dec` moved the cursor by `k` and
consumed exactly the first `k` bytes of the stream. -/
def Ret.advanced {α : Type} (r : Ret α) (dec : Decoder) (k : Nat) : Prop :=
  r.dec.cursor = dec.cursor + k ∧
  r.dec.bufReader.data = dec.bufReader.data.drop k ∧
  k ≤ dec.bufReader.data.length

/-- The error of the last logged invocation that returned an error, if any. -/
def lastError (log : List (Option Err)) : Option Err :=
  (log.filterMap id).getLast?

end Goetf

/-! # Verification -/

namespace Goetf

open Decoder

/-! ## The byte source and the low-level reads -/

theorem Source.eq_of_noShortReads {s : Source} {bs : List UInt8}
    (h : s.noShortReads) (hd : s.data = bs) : s = ⟨bs, []⟩ := by
  cases s
  simp only [Source.noShortReads] at h
  simp_all

theorem Source.Read_full (bs rest : List UInt8) (hne : bs ≠ []) :
    Source.Read ⟨bs ++ rest, []⟩ bs.length = (bs, none, ⟨rest, []⟩) := by
  have hl : bs.length ≠ 0 := by
    intro h0
    exact hne (List.length_eq_zero.mp h0)
  simp [Source.Read, Source.readCount, hl, hne]

theorem Decoder.resizeBuf_bufLen (dec : Decoder) (l : Nat) : (dec.resizeBuf l).bufLen = l := by
  unfold Decoder.resizeBuf
  split_ifs <;> rfl

theorem Decoder.resizeBuf_bufReader (dec : Decoder) (l : Nat) :
    (dec.resizeBuf l).bufReader = dec.bufReader := by
  unfold Decoder.resizeBuf
  split_ifs <;> rfl

theorem Decoder.resizeBuf_cursor (dec : Decoder) (l : Nat) :
    (dec.resizeBuf l).cursor = dec.cursor := by
  unfold Decoder.resizeBuf
  split_ifs <;> rfl

theorem Decoder.resizeBuf_fieldStack (dec : Decoder) (l : Nat) :
    (dec.resizeBuf l).fieldStack = dec.fieldStack := by
  unfold Decoder.resizeBuf
  split_ifs <;> rfl

/-- A `Read` into a non-empty slice that reports no error hands over at least one
byte. -/
theorem Source.Read_progress (s : Source) (k : Nat) (hk : 0 < k)
    (h : (s.Read k).2.1 = none) : 0 < (s.Read k).1.length := by
  unfold Source.Read at h ⊢
  have hk0 : k ≠ 0 := by omega
  by_cases hd : s.data = []
  · simp [hk0, hd] at h
  · have hlen : 0 < s.data.length := List.length_pos.mpr hd
    simp only [hk0, hd, if_false, List.length_take, Source.readCount]
    cases s.sched with
    | nil => simp only []; omega
    | cons c cs => simp only []; omega

/-- The read loop of `readIntoBuf` never needs more than `l - n` passes: any larger
pass budget gives the same result, so the budget `l` set by `readIntoBuf` is never
the reason the loop ends. -/
theorem Decoder.readLoop_budget (fuel : Nat) :
    ∀ (extra : Nat) (dec : Decoder) (l n : Nat), dec.bufLen = l → l - n ≤ fuel →
      readLoop (fuel + extra) dec l n = readLoop fuel dec l n := by
  induction fuel with
  | zero =>
    intro extra dec l n _ hf
    cases extra with
    | zero => rfl
    | succ e =>
      have hnl : ¬ n < l := by omega
      rw [Nat.zero_add]
      simp only [Decoder.readLoop, hnl, if_false]
  | succ fuel ih =>
    intro extra dec l n hb hf
    have hsucc : fuel + 1 + extra = (fuel + extra) + 1 := by omega
    rw [hsucc]
    by_cases hnl : n < l
    · have hprog := Source.Read_progress dec.bufReader dec.bufLen (by omega)
      rcases hR : dec.bufReader.Read dec.bufLen with ⟨bs, err, s⟩
      rw [hR] at hprog
      cases err with
      | some e => simp only [Decoder.readLoop, hnl, if_true, hR]
      | none =>
        simp only [Decoder.readLoop, hnl, if_true, hR]
        have hpos : 0 < bs.length := hprog rfl
        exact ih extra _ l (n + bs.length) hb (by omega)
    · simp only [Decoder.readLoop, hnl, if_false]

/-- On a source without short reads that still holds the bytes `bs`, `readIntoBuf`
succeeds: the scratch slice is `bs`, the cursor has moved by `len bs`. -/
theorem Decoder.readIntoBuf_full (dec : Decoder) (bs rest : List UInt8)
    (h : dec.bufReader = ⟨bs ++ rest, []⟩) :
    ∃ arr, dec.readIntoBuf bs.length =
      { val := (), err := none,
        dec := { bufReader := ⟨rest, []⟩, cursor := dec.cursor + bs.length,
                 fieldStack := dec.fieldStack, bufArr := bs ++ arr, bufLen := bs.length } } := by
  rcases List.eq_nil_or_concat bs with hnil | ⟨bs0, x, hx⟩
  · subst hnil
    refine ⟨dec.bufArr, ?_⟩
    cases dec
    simp_all [Decoder.readIntoBuf, Decoder.readLoop, Decoder.resizeBuf]
  · have hne : bs ≠ [] := by
      rw [hx]; simp
    obtain ⟨k, hk⟩ : ∃ k, bs.length = k + 1 := by
      rw [hx]; simp
    refine ⟨(dec.resizeBuf bs.length).bufArr.drop bs.length, ?_⟩
    have hR := Source.Read_full bs rest hne
    unfold Decoder.readIntoBuf
    rw [hk, Decoder.readLoop]
    rw [← hk]
    simp only [Nat.pos_of_ne_zero (by omega : bs.length ≠ 0), if_true,
      Decoder.resizeBuf_bufLen, Decoder.resizeBuf_bufReader, h, hR,
      Decoder.resizeBuf_cursor, Decoder.resizeBuf_fieldStack]
    cases k with
    | zero => simp [Decoder.readLoop]
    | succ k => simp [Decoder.readLoop]

theorem Decoder.readNextTag_cons (dec : Decoder) (b : UInt8) (rest : List UInt8) (sc : List Nat)
    (h : dec.bufReader = ⟨b :: rest, sc⟩) :
    dec.readNextTag =
      { val := b, err := none, dec := { dec with bufReader := ⟨rest, sc⟩, cursor := dec.cursor + 1 } } := by
  simp [Decoder.readNextTag, Source.ReadByte, h]

theorem Decoder.readNextByte_cons (dec : Decoder) (b : UInt8) (rest : List UInt8) (sc : List Nat)
    (h : dec.bufReader = ⟨b :: rest, sc⟩) :
    dec.readNextByte =
      { val := b, err := none, dec := { dec with bufReader := ⟨rest, sc⟩, cursor := dec.cursor + 1 } } := by
  simp [Decoder.readNextByte, Source.ReadByte, h]

theorem Decoder.readUint16_full (dec : Decoder) (hi lo : UInt8) (rest : List UInt8)
    (h : dec.bufReader = ⟨hi :: lo :: rest, []⟩) :
    ∃ arr, dec.readUint16 =
      { val := hi.toNat * 256 + lo.toNat, err := none,
        dec := { bufReader := ⟨rest, []⟩, cursor := dec.cursor + 2,
                 fieldStack := dec.fieldStack, bufArr := arr, bufLen := 2 } } := by
  obtain ⟨arr, ha⟩ := dec.readIntoBuf_full [hi, lo] rest (by simpa using h)
  refine ⟨[hi, lo] ++ arr, ?_⟩
  simp only [List.length_cons, List.length_nil] at ha
  simp [Decoder.readUint16, ha, Decoder.buf, Decoder.beUint16]
  omega

theorem Decoder.readUint32_full (dec : Decoder) (b0 b1 b2 b3 : UInt8) (rest : List UInt8)
    (h : dec.bufReader = ⟨b0 :: b1 :: b2 :: b3 :: rest, []⟩) :
    ∃ arr, dec.readUint32 =
      { val := b0.toNat * 16777216 + b1.toNat * 65536 + b2.toNat * 256 + b3.toNat, err := none,
        dec := { bufReader := ⟨rest, []⟩, cursor := dec.cursor + 4,
                 fieldStack := dec.fieldStack, bufArr := arr, bufLen := 4 } } := by
  obtain ⟨arr, ha⟩ := dec.readIntoBuf_full [b0, b1, b2, b3] rest (by simpa using h)
  refine ⟨[b0, b1, b2, b3] ++ arr, ?_⟩
  simp only [List.length_cons, List.length_nil] at ha
  simp [Decoder.readUint32, ha, Decoder.buf, Decoder.beUint32]
  omega

/-- An atom term with a one-byte length, read from a source without short reads. -/
theorem Decoder.ReadAnyAtom_small (dec : Decoder) (tag n : UInt8) (s rest : List UInt8)
    (output : GoString) (htag : tag = ETTSmallAtom ∨ tag = ETTSmallAtomUTF8)
    (hn : n.toNat = s.length) (h : dec.bufReader = ⟨tag :: n :: (s ++ rest), []⟩) :
    ∃ arr, dec.ReadAnyAtom output =
      { val := s, err := none,
        dec := { bufReader := ⟨rest, []⟩, cursor := dec.cursor + 2 + s.length,
                 fieldStack := dec.fieldStack, bufArr := s ++ arr, bufLen := s.length } } := by
  have h1 := dec.readNextTag_cons tag (n :: (s ++ rest)) [] h
  have h2 := Decoder.readNextByte_cons
    { dec with bufReader := ⟨n :: (s ++ rest), []⟩, cursor := dec.cursor + 1 } n (s ++ rest) [] rfl
  obtain ⟨arr, h3⟩ := Decoder.readIntoBuf_full
    { dec with bufReader := ⟨s ++ rest, []⟩, cursor := dec.cursor + 1 + 1 } s rest rfl
  refine ⟨arr, ?_⟩
  have hsw : ¬ (tag = ETTAtom ∨ tag = ETTAtomUTF8 ∨ tag = ETTString) := by
    rcases htag with rfl | rfl <;> decide
  simp only [Decoder.ReadAnyAtom, h1, hsw, if_false, htag, if_true, h2, hn, h3, Decoder.buf]
  simp [Nat.add_assoc]

/-- An atom term with a two-byte big-endian length, read from a source without
short reads. -/
theorem Decoder.ReadAnyAtom_wide (dec : Decoder) (tag hi lo : UInt8) (s rest : List UInt8)
    (output : GoString) (htag : tag = ETTAtom ∨ tag = ETTAtomUTF8 ∨ tag = ETTString)
    (hn : hi.toNat * 256 + lo.toNat = s.length)
    (h : dec.bufReader = ⟨tag :: hi :: lo :: (s ++ rest), []⟩) :
    ∃ arr, dec.ReadAnyAtom output =
      { val := s, err := none,
        dec := { bufReader := ⟨rest, []⟩, cursor := dec.cursor + 3 + s.length,
                 fieldStack := dec.fieldStack, bufArr := s ++ arr, bufLen := s.length } } := by
  have h1 := dec.readNextTag_cons tag (hi :: lo :: (s ++ rest)) [] h
  obtain ⟨arr2, h2⟩ := Decoder.readUint16_full
    { dec with bufReader := ⟨hi :: lo :: (s ++ rest), []⟩, cursor := dec.cursor + 1 }
    hi lo (s ++ rest) rfl
  obtain ⟨arr, h3⟩ := Decoder.readIntoBuf_full
    { bufReader := ⟨s ++ rest, []⟩, cursor := dec.cursor + 1 + 2,
      fieldStack := dec.fieldStack, bufArr := arr2, bufLen := 2 } s rest rfl
  refine ⟨arr, ?_⟩
  simp only [Decoder.ReadAnyAtom, h1, htag, if_true, h2, hn, h3, Decoder.buf]
  simp [Nat.add_assoc]

/-- A binary term (tag 109, four-byte big-endian length), read by `ReadAnyString`
from a source without short reads. -/
theorem Decoder.ReadAnyString_binary (dec : Decoder) (b0 b1 b2 b3 : UInt8) (s rest : List UInt8)
    (output : GoString)
    (hn : b0.toNat * 16777216 + b1.toNat * 65536 + b2.toNat * 256 + b3.toNat = s.length)
    (h : dec.bufReader = ⟨ETTBinary :: b0 :: b1 :: b2 :: b3 :: (s ++ rest), []⟩) :
    ∃ arr, dec.ReadAnyString output =
      { val := s, err := none,
        dec := { bufReader := ⟨rest, []⟩, cursor := dec.cursor + 5 + s.length,
                 fieldStack := dec.fieldStack, bufArr := s ++ arr, bufLen := s.length } } := by
  have h1 := dec.readNextTag_cons ETTBinary (b0 :: b1 :: b2 :: b3 :: (s ++ rest)) [] h
  obtain ⟨arr2, h2⟩ := Decoder.readUint32_full
    { dec with bufReader := ⟨b0 :: b1 :: b2 :: b3 :: (s ++ rest), []⟩, cursor := dec.cursor + 1 }
    b0 b1 b2 b3 (s ++ rest) rfl
  obtain ⟨arr, h3⟩ := Decoder.readIntoBuf_full
    { bufReader := ⟨s ++ rest, []⟩, cursor := dec.cursor + 1 + 4,
      fieldStack := dec.fieldStack, bufArr := arr2, bufLen := 4 } s rest rfl
  refine ⟨arr, ?_⟩
  have hA : ¬ (ETTBinary = ETTAtom ∨ ETTBinary = ETTAtomUTF8 ∨ ETTBinary = ETTString) := by decide
  have hB : ¬ (ETTBinary = ETTSmallAtom ∨ ETTBinary = ETTSmallAtomUTF8) := by decide
  simp only [Decoder.ReadAnyString, h1, hA, hB, if_false, if_true, h2, hn, h3, Decoder.buf]
  simp [Nat.add_assoc]

theorem toByte_toNat (x : Nat) : (toByte x).toNat = x % 256 := by
  simp [toByte, UInt8.ofNat, UInt8.toNat, Fin.ofNat]

theorem toByte_of_toNat (b : UInt8) (x : Nat) (h : b.toNat = x % 256) : toByte x = b := by
  apply UInt8.ext
  rw [toByte_toNat, h]

/-! ## Atoms, strings, booleans and 32-bit integers -/

/-- C1: on a source without short reads, whatever bytes follow, `ReadAnyAtom` on a
stream made of tag 115 or 119, one length byte equal to `len s`, then `s`, returns no
error and outputs exactly `s`; likewise for tag 100, 118 or 107 with a two-byte
big-endian length equal to `len s`. -/
theorem ReadAnyAtom_outputs_payload (dec : Decoder) (output : GoString) (tag : UInt8)
    (lenBytes s rest : List UInt8)
    (hsrc : dec.bufReader.noShortReads)
    (hdata : dec.bufReader.data = tag :: (lenBytes ++ (s ++ rest)))
    (hform : ((tag = 115 ∨ tag = 119) ∧ ∃ n : UInt8, lenBytes = [n] ∧ n.toNat = s.length) ∨
      ((tag = 100 ∨ tag = 118 ∨ tag = 107) ∧
        ∃ hi lo : UInt8, lenBytes = [hi, lo] ∧ hi.toNat * 256 + lo.toNat = s.length)) :
    (dec.ReadAnyAtom output).err = none ∧ (dec.ReadAnyAtom output).val = s := by
  have hb := Source.eq_of_noShortReads hsrc hdata
  rcases hform with ⟨htag, n, rfl, hn⟩ | ⟨htag, hi, lo, rfl, hn⟩
  · obtain ⟨arr, ha⟩ := dec.ReadAnyAtom_small tag n s rest output htag hn hb
    rw [ha]
    exact ⟨rfl, rfl⟩
  · obtain ⟨arr, ha⟩ := dec.ReadAnyAtom_wide tag hi lo s rest output htag hn hb
    rw [ha]
    exact ⟨rfl, rfl⟩

theorem ReadAnyAtom_outputs_payload_witness :
    (NewDecoder ⟨[0x73, 0x0b] ++ goStr "Hello world", []⟩).bufReader.noShortReads ∧
    ((NewDecoder ⟨[0x73, 0x0b] ++ goStr "Hello world", []⟩).ReadAnyAtom []).err = none ∧
    ((NewDecoder ⟨[0x73, 0x0b] ++ goStr "Hello world", []⟩).ReadAnyAtom []).val
      = goStr "Hello world" :=
  ⟨rfl, ReadAnyAtom_outputs_payload (NewDecoder ⟨[0x73, 0x0b] ++ goStr "Hello world", []⟩) []
    0x73 [0x0b] (goStr "Hello world") [] rfl rfl
    (Or.inl ⟨Or.inl rfl, 0x0b, rfl, by decide⟩)⟩

/-- C2: for every string `s` of byte length `n ≤ 65535`, `WriteAtomUTF8 s` on a writer
that accepts all bytes returns no error and appends to the output exactly the `n + 3`
bytes `118, n / 256, n mod 256` followed by the bytes of `s`. -/
theorem WriteAtomUTF8_writes_term (enc : Encoder) (s : GoString)
    (hw : enc.writer.acceptsAll) (hn : s.length ≤ 65535) :
    (enc.WriteAtomUTF8 s).1 = none ∧
    (enc.WriteAtomUTF8 s).2.writer.out =
      enc.writer.out ++ ([118, UInt8.ofNat (s.length / 256), UInt8.ofNat (s.length % 256)] ++ s) ∧
    ([118, UInt8.ofNat (s.length / 256), UInt8.ofNat (s.length % 256)] ++ s).length
      = s.length + 3 := by
  have hmod : s.length % 65536 = s.length := Nat.mod_eq_of_lt (by omega)
  have hlo : toByte s.length = UInt8.ofNat (s.length % 256) := by
    apply UInt8.ext
    have := toByte_toNat (s.length % 256)
    simp only [toByte] at this
    rw [toByte_toNat, this]
    omega
  simp only [Writer.acceptsAll] at hw
  refine ⟨?_, ?_, ?_⟩
  · simp [Encoder.WriteAtomUTF8, Writer.Write, hw]
  · simp [Encoder.WriteAtomUTF8, Writer.Write, hw, putUint16, hmod, hlo, ETTAtomUTF8]
    rfl
  · simp

theorem WriteAtomUTF8_writes_term_witness :
    (NewEncoder ⟨[], none⟩).writer.acceptsAll ∧ (goStr "Hello world").length ≤ 65535 ∧
    ((NewEncoder ⟨[], none⟩).WriteAtomUTF8 (goStr "Hello world")).2.writer.out =
      [0x76, 0x00, 0x0b] ++ goStr "Hello world" :=
  ⟨rfl, by decide,
    (WriteAtomUTF8_writes_term (NewEncoder ⟨[], none⟩) (goStr "Hello world") rfl (by decide)).2.1⟩

/-- C3: decode-then-encode is the identity on wire bytes. For a well-formed term `x`
with tag 118 (two-byte big-endian length, payload of that length), `ReadAnyAtom`
followed by `WriteAtomUTF8` of the decoded string writes exactly `x`; for a
well-formed term `y` with tag 109 (four-byte big-endian length, payload of that
length), `ReadAnyString` followed by `WriteBinaryString` writes exactly `y`. The
source has no short reads, the writer accepts all bytes, and no step reports an
error. -/
theorem decode_encode_identity (dec : Decoder) (enc : Encoder) (output : GoString)
    (hi lo b0 b1 b2 b3 : UInt8) (p q rest : List UInt8)
    (hsrc : dec.bufReader.noShortReads) (hw : enc.writer.acceptsAll)
    (hp : hi.toNat * 256 + lo.toNat = p.length)
    (hq : b0.toNat * 16777216 + b1.toNat * 65536 + b2.toNat * 256 + b3.toNat = q.length) :
    (dec.bufReader.data = (118 :: hi :: lo :: p) ++ rest →
      (dec.ReadAnyAtom output).err = none ∧
      (enc.WriteAtomUTF8 (dec.ReadAnyAtom output).val).1 = none ∧
      (enc.WriteAtomUTF8 (dec.ReadAnyAtom output).val).2.writer.out
        = enc.writer.out ++ (118 :: hi :: lo :: p)) ∧
    (dec.bufReader.data = (109 :: b0 :: b1 :: b2 :: b3 :: q) ++ rest →
      (dec.ReadAnyString output).err = none ∧
      (enc.WriteBinaryString (dec.ReadAnyString output).val).1 = none ∧
      (enc.WriteBinaryString (dec.ReadAnyString output).val).2.writer.out
        = enc.writer.out ++ (109 :: b0 :: b1 :: b2 :: b3 :: q)) := by
  simp only [Writer.acceptsAll] at hw
  have h0 := UInt8.toNat_lt b0
  have h1 := UInt8.toNat_lt b1
  have h2 := UInt8.toNat_lt b2
  have h3 := UInt8.toNat_lt b3
  have hh := UInt8.toNat_lt hi
  have hl := UInt8.toNat_lt lo
  constructor
  · intro hdata
    have hb := Source.eq_of_noShortReads hsrc hdata
    obtain ⟨arr, ha⟩ := dec.ReadAnyAtom_wide 118 hi lo p rest output (Or.inr (Or.inl rfl)) hp
      (by simpa using hb)
    rw [ha]
    have e1 : toByte (p.length % 65536 / 256) = hi := toByte_of_toNat _ _ (by omega)
    have e2 : toByte (p.length % 65536) = lo := toByte_of_toNat _ _ (by omega)
    refine ⟨rfl, ?_, ?_⟩
    · simp [Encoder.WriteAtomUTF8, Writer.Write, hw]
    · simp [Encoder.WriteAtomUTF8, Writer.Write, hw, putUint16, e1, e2, ETTAtomUTF8]
  · intro hdata
    have hb := Source.eq_of_noShortReads hsrc hdata
    obtain ⟨arr, ha⟩ := dec.ReadAnyString_binary b0 b1 b2 b3 q rest output hq
      (by simpa [ETTBinary] using hb)
    rw [ha]
    have e0 : toByte (q.length % 4294967296 / 16777216) = b0 := toByte_of_toNat _ _ (by omega)
    have e1 : toByte (q.length % 4294967296 / 65536) = b1 := toByte_of_toNat _ _ (by omega)
    have e2 : toByte (q.length % 4294967296 / 256) = b2 := toByte_of_toNat _ _ (by omega)
    have e3 : toByte (q.length % 4294967296) = b3 := toByte_of_toNat _ _ (by omega)
    refine ⟨rfl, ?_, ?_⟩
    · simp [Encoder.WriteBinaryString, Writer.Write, hw]
    · simp [Encoder.WriteBinaryString, Writer.Write, hw, putUint32, e0, e1, e2, e3, ETTBinary]

theorem decode_encode_identity_witness :
    (((NewEncoder ⟨[], none⟩).WriteAtomUTF8
        ((NewDecoder ⟨[118, 0, 2, 0x6f, 0x6b], []⟩).ReadAnyAtom []).val).2.writer.out
      = [118, 0, 2, 0x6f, 0x6b]) ∧
    (((NewEncoder ⟨[], none⟩).WriteBinaryString
        ((NewDecoder ⟨[109, 0, 0, 0, 1, 0x21], []⟩).ReadAnyString []).val).2.writer.out
      = [109, 0, 0, 0, 1, 0x21]) :=
  ⟨((decode_encode_identity (NewDecoder ⟨[118, 0, 2, 0x6f, 0x6b], []⟩) (NewEncoder ⟨[], none⟩) []
      0 2 0 0 0 0 [0x6f, 0x6b] [] [] rfl rfl (by decide) (by decide)).1 rfl).2.2,
   ((decode_encode_identity (NewDecoder ⟨[109, 0, 0, 0, 1, 0x21], []⟩) (NewEncoder ⟨[], none⟩) []
      0 0 0 0 0 1 [] [0x21] [] rfl rfl (by decide) (by decide)).2 rfl).2.2⟩

/-- C4 (the code at the failing input): on the stream `77 04 74 72 75 65`, the
small UTF-8 atom "true", `ReadAnyBool` returns no error and leaves `false` in the
destination, even when the destination held `true` before. -/
theorem ReadAnyBool_true_atom_yields_false :
    ((NewDecoder ⟨[0x77, 0x04, 0x74, 0x72, 0x75, 0x65], []⟩).ReadAnyBool true).err = none ∧
    ((NewDecoder ⟨[0x77, 0x04, 0x74, 0x72, 0x75, 0x65], []⟩).ReadAnyAtom []).val = goStr "true" ∧
    ((NewDecoder ⟨[0x77, 0x04, 0x74, 0x72, 0x75, 0x65], []⟩).ReadAnyBool true).val = false := by
  decide

/-- Whenever `ReadAnyBool` returns no error, the destination holds `false`. -/
theorem Decoder.ReadAnyBool_val_false (dec : Decoder) (output : Bool)
    (h : (dec.ReadAnyBool output).err = none) : (dec.ReadAnyBool output).val = false := by
  unfold Decoder.ReadAnyBool at h ⊢
  cases hr : (dec.ReadAnyAtom []).err with
  | none => simp [hr]
  | some e => simp [hr] at h

theorem Decoder.ReadAnyInt32_integer (dec : Decoder) (b0 b1 b2 b3 : UInt8) (rest : List UInt8)
    (dst : Int) (h : dec.bufReader = ⟨98 :: b0 :: b1 :: b2 :: b3 :: rest, []⟩) :
    ∃ arr, dec.ReadAnyInt32 dst =
      { val := toInt32 (b0.toNat * 16777216 + b1.toNat * 65536 + b2.toNat * 256 + b3.toNat),
        err := none,
        dec := { bufReader := ⟨rest, []⟩, cursor := dec.cursor + 5,
                 fieldStack := dec.fieldStack, bufArr := arr, bufLen := 4 } } := by
  have h1 := dec.readNextTag_cons 98 (b0 :: b1 :: b2 :: b3 :: rest) [] h
  obtain ⟨arr, h2⟩ := Decoder.readUint32_full
    { dec with bufReader := ⟨b0 :: b1 :: b2 :: b3 :: rest, []⟩, cursor := dec.cursor + 1 }
    b0 b1 b2 b3 rest rfl
  refine ⟨arr, ?_⟩
  have hI : (98 : UInt8) = ETTInteger := rfl
  simp only [Decoder.ReadAnyInt32, h1]
  simp only [hI, if_true, h2]

theorem Decoder.ReadAnyInt32_small (dec : Decoder) (b : UInt8) (rest : List UInt8)
    (sc : List Nat) (dst : Int) (h : dec.bufReader = ⟨97 :: b :: rest, sc⟩) :
    dec.ReadAnyInt32 dst =
      { val := (b.toNat : Int), err := none,
        dec := { dec with bufReader := ⟨rest, sc⟩, cursor := dec.cursor + 2 } } := by
  have h1 := dec.readNextTag_cons 97 (b :: rest) sc h
  have h2 := Decoder.readNextByte_cons
    { dec with bufReader := ⟨b :: rest, sc⟩, cursor := dec.cursor + 1 } b rest sc rfl
  have hA : ¬ ((97 : UInt8) = ETTInteger) := by decide
  have hB : (97 : UInt8) = ETTSmallInteger := rfl
  simp only [Decoder.ReadAnyInt32, h1]
  simp only [hA, if_false, h2]
  simp only [hB, if_true]

/-- What `ReadAnyInt32` does when no `Read` is short: on a stream beginning with tag 98
and four bytes `b0 b1 b2 b3` (source without short reads) it returns the two's-complement signed 32-bit value of the
big-endian word, so `FF FF FF FF` gives `-1`; on a stream beginning with tag 97 and
one byte `b` (any source) it returns `b` as a value in `0..255`; each call leaves the
stream right behind its term, so successive calls decode successive terms:
`61 2A 62 00 00 01 00` gives 42, then 256, with the cursor at 7. -/
theorem ReadAnyInt32_decodes (dec : Decoder) (dst : Int) (rest : List UInt8) :
    (∀ b0 b1 b2 b3 : UInt8, dec.bufReader.noShortReads →
      dec.bufReader.data = 98 :: b0 :: b1 :: b2 :: b3 :: rest →
      (dec.ReadAnyInt32 dst).err = none ∧
      (dec.ReadAnyInt32 dst).val =
        (if b0.toNat * 2 ^ 24 + b1.toNat * 2 ^ 16 + b2.toNat * 2 ^ 8 + b3.toNat < 2 ^ 31
         then ((b0.toNat * 2 ^ 24 + b1.toNat * 2 ^ 16 + b2.toNat * 2 ^ 8 + b3.toNat : Nat) : Int)
         else ((b0.toNat * 2 ^ 24 + b1.toNat * 2 ^ 16 + b2.toNat * 2 ^ 8 + b3.toNat : Nat) : Int)
              - 2 ^ 32) ∧
      (dec.ReadAnyInt32 dst).dec.bufReader.data = rest ∧
      (dec.ReadAnyInt32 dst).dec.bufReader.noShortReads) ∧
    (∀ b : UInt8, dec.bufReader.data = 97 :: b :: rest →
      (dec.ReadAnyInt32 dst).err = none ∧
      (dec.ReadAnyInt32 dst).val = (b.toNat : Int) ∧
      0 ≤ (dec.ReadAnyInt32 dst).val ∧ (dec.ReadAnyInt32 dst).val ≤ 255 ∧
      (dec.ReadAnyInt32 dst).dec.bufReader.data = rest ∧
      (dec.ReadAnyInt32 dst).dec.bufReader.sched = dec.bufReader.sched) ∧
    ((NewDecoder ⟨[0x62, 0xFF, 0xFF, 0xFF, 0xFF], []⟩).ReadAnyInt32 0).val = -1 ∧
    ((NewDecoder ⟨[0x61, 0x2A, 0x62, 0x00, 0x00, 0x01, 0x00], []⟩).ReadAnyInt32 0).val = 42 ∧
    (((NewDecoder ⟨[0x61, 0x2A, 0x62, 0x00, 0x00, 0x01, 0x00], []⟩).ReadAnyInt32 0).dec.ReadAnyInt32
      0).val = 256 ∧
    (((NewDecoder ⟨[0x61, 0x2A, 0x62, 0x00, 0x00, 0x01, 0x00], []⟩).ReadAnyInt32 0).dec.ReadAnyInt32
      0).dec.cursor = 7 := by
  refine ⟨?_, ?_, by decide, by decide, by decide, by decide⟩
  · intro b0 b1 b2 b3 hsrc hdata
    have hb := Source.eq_of_noShortReads hsrc hdata
    obtain ⟨arr, hr⟩ := dec.ReadAnyInt32_integer b0 b1 b2 b3 rest dst hb
    rw [hr]
    have h0 := UInt8.toNat_lt b0
    have h1 := UInt8.toNat_lt b1
    have h2 := UInt8.toNat_lt b2
    have h3 := UInt8.toNat_lt b3
    have hw : (b0.toNat * 16777216 + b1.toNat * 65536 + b2.toNat * 256 + b3.toNat) % 2 ^ 32
        = b0.toNat * 16777216 + b1.toNat * 65536 + b2.toNat * 256 + b3.toNat :=
      Nat.mod_eq_of_lt (by omega)
    refine ⟨rfl, ?_, rfl, rfl⟩
    simp only [Decoder.toInt32, hw]
    norm_num
  · intro b hdata
    have hb : dec.bufReader = ⟨97 :: b :: rest, dec.bufReader.sched⟩ := by
      cases hs : dec.bufReader
      simp_all
    rw [dec.ReadAnyInt32_small b rest _ dst hb]
    have hlt := UInt8.toNat_lt b
    refine ⟨rfl, rfl, ?_, ?_, rfl, rfl⟩
    · exact Int.natCast_nonneg _
    · show (b.toNat : Int) ≤ 255
      omega

theorem ReadAnyInt32_decodes_witness :
    ((NewDecoder ⟨[0x62, 0x80, 0x00, 0x00, 0x01, 0x61, 0x07], []⟩).ReadAnyInt32 0).val
      = -2147483647 ∧
    (((NewDecoder ⟨[0x62, 0x80, 0x00, 0x00, 0x01, 0x61, 0x07], []⟩).ReadAnyInt32 0).dec.ReadAnyInt32
      0).val = 7 :=
  ⟨((ReadAnyInt32_decodes (NewDecoder ⟨[0x62, 0x80, 0x00, 0x00, 0x01, 0x61, 0x07], []⟩) 0
      [0x61, 0x07]).1 0x80 0x00 0x00 0x01 rfl rfl).2.1,
   ((ReadAnyInt32_decodes
      ((NewDecoder ⟨[0x62, 0x80, 0x00, 0x00, 0x01, 0x61, 0x07], []⟩).ReadAnyInt32 0).dec 0
      []).2.1 0x07 (by decide)).2.1⟩

/-! ## Big integers -/

theorem wrapInt64_add_wrap (a c : Int) :
    wrapInt64 (wrapInt64 a + wrapInt64 c) = wrapInt64 (a + c) := by
  simp only [wrapInt64]
  omega

theorem i64Powers_getD (i : Nat) (h : i < 8) : i64Powers.getD i 0 = 256 ^ i := by
  interval_cases i <;> rfl

/-- The summation loop of `bigIntIntoInt64`, after `k ≤ 8` passes, holds the partial
sum reduced to `int64`. -/
theorem bigInt_fold_eq (b : List UInt8) (k : Nat) (hk : k ≤ 8) :
    (List.range k).foldl
      (fun result i => wrapInt64 (result + wrapInt64 (((b.getD i 0).toNat : Int) * i64Powers.getD i 0)))
      (0 : Int)
    = wrapInt64 ((((List.range k).map (fun i => (b.getD i 0).toNat * 256 ^ i)).sum : Nat) : Int) := by
  induction k with
  | zero =>
    rw [List.range_zero, List.foldl_nil, List.map_nil, List.sum_nil]
    rfl
  | succ k ih =>
    have hk8 : k ≤ 8 := by omega
    have hk7 : k < 8 := by omega
    rw [List.range_succ, List.foldl_append, ih hk8]
    rw [List.map_append, List.sum_append]
    rw [List.foldl_cons, List.foldl_nil, List.map_cons, List.map_nil, List.sum_cons, List.sum_nil]
    rw [i64Powers_getD k hk7, wrapInt64_add_wrap, Nat.add_zero, Nat.cast_add, Nat.cast_mul,
      Nat.cast_pow]
    rfl

theorem bigIntIntoInt64_eq (b : List UInt8) (g : UInt8) (hlen : b.length ≤ 8)
    (hlo : -(2 : Int) ^ 63 ≤ bigValue g b) (hhi : bigValue g b ≤ 2 ^ 63 - 1) :
    bigIntIntoInt64 b g = bigValue g b := by
  unfold bigIntIntoInt64
  rw [if_neg (by omega)]
  simp only [bigInt_fold_eq b b.length hlen]
  unfold bigValue at hlo hhi ⊢
  unfold bigMagnitude at hlo hhi ⊢
  generalize ((List.range b.length).map (fun i => (b.getD i 0).toNat * 256 ^ i)).sum = m at hlo hhi ⊢
  by_cases hg : g = 0
  · simp only [hg, if_true, ne_eq, not_true_eq_false, if_false] at hlo hhi ⊢
    simp only [wrapInt64]
    omega
  · simp only [hg, if_false, ne_eq, not_false_eq_true, if_true] at hlo hhi ⊢
    simp only [wrapInt64]
    omega

theorem swapLoop_succ (b : List UInt8) (l k : Nat) :
    swapLoop b l (k + 1) =
      ((swapLoop b l k).set k ((swapLoop b l k).getD (l - k - 1) 0)).set (l - k - 1)
        ((swapLoop b l k).getD k 0) := by
  unfold swapLoop
  rw [List.range_succ, List.foldl_append]
  rfl

/-- After `k` passes of the swap loop the first `k` and the last `k` positions hold
the mirrored bytes; the positions in between are untouched. -/
theorem swapLoop_spec (b : List UInt8) (k : Nat) (hk : 2 * k ≤ b.length) :
    (swapLoop b b.length k).length = b.length ∧
    ∀ j, j < b.length → (swapLoop b b.length k)[j]? =
      if j < k ∨ b.length - k ≤ j then b[b.length - 1 - j]? else b[j]? := by
  induction k with
  | zero =>
    refine ⟨rfl, ?_⟩
    intro j hj
    have : ¬ (j < 0 ∨ b.length - 0 ≤ j) := by omega
    rw [if_neg this]
    rfl
  | succ k ih =>
    obtain ⟨hlen, hget⟩ := ih (by omega)
    rw [swapLoop_succ]
    refine ⟨by simp [hlen], ?_⟩
    intro j hj
    have hkl : k < b.length := by omega
    have hml : b.length - k - 1 < b.length := by omega
    have hA : (swapLoop b b.length k)[b.length - k - 1]? = b[b.length - k - 1]? := by
      rw [hget _ hml, if_neg (by omega)]
    have hB : (swapLoop b b.length k)[k]? = b[k]? := by
      rw [hget _ hkl, if_neg (by omega)]
    have hA2 : b[b.length - k - 1]? = some b[b.length - k - 1] := List.getElem?_eq_getElem hml
    have hB2 : b[k]? = some b[k] := List.getElem?_eq_getElem hkl
    rw [List.getElem?_set, List.getElem?_set, List.length_set, hlen,
      List.getD_eq_getElem?_getD, List.getD_eq_getElem?_getD, hA, hB, hA2, hB2]
    simp only [Option.getD_some]
    by_cases h1 : b.length - k - 1 = j
    · rw [if_pos h1, if_pos (by omega), if_pos (by omega)]
      have : b.length - 1 - j = k := by omega
      rw [this, hB2]
    · rw [if_neg h1]
      by_cases h2 : k = j
      · rw [if_pos h2, if_pos (by omega), if_pos (by omega)]
        have : b.length - 1 - j = b.length - k - 1 := by omega
        rw [this, hA2]
      · rw [if_neg h2, hget j hj]
        by_cases h3 : j < k ∨ b.length - k ≤ j
        · rw [if_pos h3, if_pos (by omega)]
        · rw [if_neg h3, if_neg (by omega)]

/-- The swap loop of `readBigIntInt64` reverses the slice. -/
theorem swapLoop_eq_reverse (b : List UInt8) : swapLoop b b.length (b.length / 2) = b.reverse := by
  obtain ⟨_, hget⟩ := swapLoop_spec b (b.length / 2) (by omega)
  apply List.ext_getElem?
  intro j
  by_cases hj : j < b.length
  · rw [hget j hj, List.getElem?_reverse hj]
    by_cases h3 : j < b.length / 2 ∨ b.length - b.length / 2 ≤ j
    · rw [if_pos h3]
    · rw [if_neg h3]
      have : b.length - 1 - j = j := by omega
      rw [this]
  · have hlen := (swapLoop_spec b (b.length / 2) (by omega)).1
    rw [List.getElem?_eq_none (by omega), List.getElem?_eq_none (by simp; omega)]

theorem bigMagnitude_cons (x : UInt8) (xs : List UInt8) :
    bigMagnitude (x :: xs) = x.toNat + 256 * bigMagnitude xs := by
  unfold bigMagnitude
  rw [List.length_cons, List.range_succ_eq_map, List.map_cons, List.sum_cons, List.map_map,
    ← List.sum_map_mul_left]
  have h0 : ((x :: xs).getD 0 0).toNat * 256 ^ 0 = x.toNat := by simp
  rw [h0]
  congr 2
  apply List.map_congr_left
  intro i _
  simp [pow_succ]
  ring

/-- The big-endian value of the reversed bytes is the little-endian magnitude. -/
theorem SetBytes_reverse (b : List UInt8) : SetBytes b.reverse = (bigMagnitude b : Int) := by
  unfold SetBytes
  induction b with
  | nil => rfl
  | cons x xs ih =>
    rw [List.reverse_cons, List.foldl_append, ih, bigMagnitude_cons]
    simp only [List.foldl_cons, List.foldl_nil]
    push_cast
    ring

theorem bigMagnitude_lt (b : List UInt8) : bigMagnitude b < 256 ^ b.length := by
  induction b with
  | nil => decide
  | cons x xs ih =>
    rw [bigMagnitude_cons, List.length_cons, pow_succ]
    have := UInt8.toNat_lt x
    omega

/-- On a source without short reads holding the magnitude bytes `b`, `readBigIntInt64`
returns the signed value of the big whenever that value is an `int64`. -/
theorem Decoder.readBigIntInt64_in_range (dec : Decoder) (g : UInt8) (b rest : List UInt8)
    (h : dec.bufReader = ⟨b ++ rest, []⟩)
    (hlo : -(2 : Int) ^ 63 ≤ bigValue g b) (hhi : bigValue g b ≤ 2 ^ 63 - 1) :
    ∃ arr, dec.readBigIntInt64 b.length g =
      { val := bigValue g b, err := none,
        dec := { bufReader := ⟨rest, []⟩, cursor := dec.cursor + b.length,
                 fieldStack := dec.fieldStack, bufArr := arr, bufLen := b.length } } := by
  obtain ⟨arr, ha⟩ := dec.readIntoBuf_full b rest h
  by_cases hl : b.length ≤ 8
  · refine ⟨b ++ arr, ?_⟩
    simp only [Decoder.readBigIntInt64, ha, hl, if_true, Decoder.buf, List.take_left]
    rw [bigIntIntoInt64_eq b g hl hlo hhi]
  · refine ⟨b.reverse ++ arr, ?_⟩
    have hv : (if g ≠ 0 then -SetBytes b.reverse else SetBytes b.reverse) = bigValue g b := by
      rw [SetBytes_reverse]
      unfold bigValue
      by_cases hg : g = 0
      · simp [hg]
      · simp [hg]
    have hI : IsInt64 (bigValue g b) = true := by
      have h1 : decide (-(2 : Int) ^ 63 ≤ bigValue g b) = true := decide_eq_true hlo
      have h2 : decide (bigValue g b ≤ 2 ^ 63 - 1) = true := decide_eq_true hhi
      unfold IsInt64
      rw [h1, h2]
      rfl
    have htake : List.take b.length (b.reverse ++ arr) = b.reverse := by
      rw [List.take_append_of_le_length (by simp)]
      exact List.take_of_length_le (by simp)
    simp only [Decoder.readBigIntInt64, ha, hl, if_false, Decoder.buf, Decoder.setBuf,
      List.take_left, List.drop_left, swapLoop_eq_reverse, htake, hv, hI, if_true]

theorem Decoder.ReadAnyInt64_smallBig (dec : Decoder) (n g : UInt8) (b rest : List UInt8)
    (dst : Int) (hn : n.toNat = b.length)
    (h : dec.bufReader = ⟨110 :: n :: g :: (b ++ rest), []⟩)
    (hlo : -(2 : Int) ^ 63 ≤ bigValue g b) (hhi : bigValue g b ≤ 2 ^ 63 - 1) :
    ∃ arr, dec.ReadAnyInt64 dst =
      { val := bigValue g b, err := none,
        dec := { bufReader := ⟨rest, []⟩, cursor := dec.cursor + 3 + b.length,
                 fieldStack := dec.fieldStack, bufArr := arr, bufLen := b.length } } := by
  have h1 := dec.readNextTag_cons 110 (n :: g :: (b ++ rest)) [] h
  have h2 := Decoder.readNextByte_cons
    { dec with bufReader := ⟨n :: g :: (b ++ rest), []⟩, cursor := dec.cursor + 1 }
    n (g :: (b ++ rest)) [] rfl
  have h3 := Decoder.readNextByte_cons
    { dec with bufReader := ⟨g :: (b ++ rest), []⟩, cursor := dec.cursor + 1 + 1 }
    g (b ++ rest) [] rfl
  obtain ⟨arr, h4⟩ := Decoder.readBigIntInt64_in_range
    { dec with bufReader := ⟨b ++ rest, []⟩, cursor := dec.cursor + 1 + 1 + 1 } g b rest rfl hlo hhi
  refine ⟨arr, ?_⟩
  have hA : ¬ ((110 : UInt8) = ETTInteger) := by decide
  have hB : ¬ ((110 : UInt8) = ETTSmallInteger) := by decide
  have hC : (110 : UInt8) = ETTSmallBig := rfl
  simp only [Decoder.ReadAnyInt64, h1]
  simp only [hA, hB, if_false]
  simp only [← hC, if_true, h2, h3, hn, h4]

theorem Decoder.ReadAnyInt64_largeBig (dec : Decoder) (l0 l1 l2 l3 g : UInt8)
    (b rest : List UInt8) (dst : Int)
    (hn : l0.toNat * 16777216 + l1.toNat * 65536 + l2.toNat * 256 + l3.toNat = b.length)
    (h : dec.bufReader = ⟨111 :: l0 :: l1 :: l2 :: l3 :: g :: (b ++ rest), []⟩)
    (hlo : -(2 : Int) ^ 63 ≤ bigValue g b) (hhi : bigValue g b ≤ 2 ^ 63 - 1) :
    ∃ arr, dec.ReadAnyInt64 dst =
      { val := bigValue g b, err := none,
        dec := { bufReader := ⟨rest, []⟩, cursor := dec.cursor + 6 + b.length,
                 fieldStack := dec.fieldStack, bufArr := arr, bufLen := b.length } } := by
  have h1 := dec.readNextTag_cons 111 (l0 :: l1 :: l2 :: l3 :: g :: (b ++ rest)) [] h
  obtain ⟨arr2, h2⟩ := Decoder.readUint32_full
    { dec with bufReader := ⟨l0 :: l1 :: l2 :: l3 :: g :: (b ++ rest), []⟩,
               cursor := dec.cursor + 1 }
    l0 l1 l2 l3 (g :: (b ++ rest)) rfl
  have h3 := Decoder.readNextByte_cons
    { bufReader := ⟨g :: (b ++ rest), []⟩, cursor := dec.cursor + 1 + 4,
      fieldStack := dec.fieldStack, bufArr := arr2, bufLen := 4 }
    g (b ++ rest) [] rfl
  obtain ⟨arr, h4⟩ := Decoder.readBigIntInt64_in_range
    { bufReader := ⟨b ++ rest, []⟩, cursor := dec.cursor + 1 + 4 + 1,
      fieldStack := dec.fieldStack, bufArr := arr2, bufLen := 4 } g b rest rfl hlo hhi
  refine ⟨arr, ?_⟩
  have hA : ¬ ((111 : UInt8) = ETTInteger) := by decide
  have hB : ¬ ((111 : UInt8) = ETTSmallInteger) := by decide
  have hD : ¬ ((111 : UInt8) = ETTSmallBig) := by decide
  have hC : (111 : UInt8) = ETTLargeBig := rfl
  simp only [Decoder.ReadAnyInt64, h1]
  simp only [hA, hB, hD, if_false]
  simp only [← hC, if_true, h2, h3, hn, h4]

/-- What `ReadAnyInt64` does with a big when no `Read` is short: for every SMALL_BIG
(tag 110, one length byte) or LARGE_BIG (tag 111, four-byte big-endian length) term with sign byte `g` and magnitude bytes `b`, read from a source
without short reads: whenever the signed value `v` (the sum of `b[i] * 256^i`, negated
when `g` is not zero) satisfies `-2^63 ≤ v ≤ 2^63 - 1`, `ReadAnyInt64` returns `v` with
no error, for magnitudes of at most 8 bytes and for longer ones alike; a big of length 0
gives 0 for any sign byte. -/
theorem ReadAnyInt64_big_in_range (dec : Decoder) (dst : Int) (tag g : UInt8)
    (lenBytes b rest : List UInt8)
    (hsrc : dec.bufReader.noShortReads)
    (hdata : dec.bufReader.data = tag :: (lenBytes ++ g :: (b ++ rest)))
    (hform : (tag = 110 ∧ ∃ n : UInt8, lenBytes = [n] ∧ n.toNat = b.length) ∨
      (tag = 111 ∧ ∃ l0 l1 l2 l3 : UInt8, lenBytes = [l0, l1, l2, l3] ∧
        l0.toNat * 2 ^ 24 + l1.toNat * 2 ^ 16 + l2.toNat * 2 ^ 8 + l3.toNat = b.length))
    (hlo : -(2 : Int) ^ 63 ≤ bigValue g b) (hhi : bigValue g b ≤ 2 ^ 63 - 1) :
    (dec.ReadAnyInt64 dst).err = none ∧ (dec.ReadAnyInt64 dst).val = bigValue g b ∧
    (b = [] → (dec.ReadAnyInt64 dst).val = 0) := by
  have hb := Source.eq_of_noShortReads hsrc hdata
  have hres : (dec.ReadAnyInt64 dst).err = none ∧ (dec.ReadAnyInt64 dst).val = bigValue g b := by
    rcases hform with ⟨rfl, n, rfl, hn⟩ | ⟨rfl, l0, l1, l2, l3, rfl, hn⟩
    · obtain ⟨arr, ha⟩ := dec.ReadAnyInt64_smallBig n g b rest dst hn hb hlo hhi
      rw [ha]
      exact ⟨rfl, rfl⟩
    · obtain ⟨arr, ha⟩ := dec.ReadAnyInt64_largeBig l0 l1 l2 l3 g b rest dst
        (by norm_num at hn; exact hn) hb hlo hhi
      rw [ha]
      exact ⟨rfl, rfl⟩
  refine ⟨hres.1, hres.2, ?_⟩
  intro hnil
  rw [hres.2, hnil]
  unfold bigValue bigMagnitude
  split_ifs <;> rfl

theorem ReadAnyInt64_big_in_range_witness :
    ((NewDecoder ⟨[0x6E, 0x02, 0x01, 0xE8, 0x03], []⟩).ReadAnyInt64 0).err = none ∧
    ((NewDecoder ⟨[0x6E, 0x02, 0x01, 0xE8, 0x03], []⟩).ReadAnyInt64 0).val = -1000 ∧
    ((NewDecoder ⟨[0x6F, 0, 0, 0, 9, 0x00, 1, 2, 3, 4, 5, 6, 7, 0x7F, 0], []⟩).ReadAnyInt64 0).val
      = 9153291386265731585 :=
  ⟨(ReadAnyInt64_big_in_range (NewDecoder ⟨[0x6E, 0x02, 0x01, 0xE8, 0x03], []⟩) 0 0x6E 0x01
      [0x02] [0xE8, 0x03] [] rfl rfl (Or.inl ⟨rfl, 0x02, rfl, rfl⟩) (by decide) (by decide)).1,
   (ReadAnyInt64_big_in_range (NewDecoder ⟨[0x6E, 0x02, 0x01, 0xE8, 0x03], []⟩) 0 0x6E 0x01
      [0x02] [0xE8, 0x03] [] rfl rfl (Or.inl ⟨rfl, 0x02, rfl, rfl⟩) (by decide) (by decide)).2.1,
   (ReadAnyInt64_big_in_range
      (NewDecoder ⟨[0x6F, 0, 0, 0, 9, 0x00, 1, 2, 3, 4, 5, 6, 7, 0x7F, 0], []⟩) 0 0x6F 0x00
      [0, 0, 0, 9] [1, 2, 3, 4, 5, 6, 7, 0x7F, 0] [] rfl rfl
      (Or.inr ⟨rfl, 0, 0, 0, 9, rfl, rfl⟩) (by decide) (by decide)).2.1⟩

/-- C7 (the code at the failing input): the SMALL_BIG term
`6E 08 00 FF FF FF FF FF FF FF FF` has the value `2^64 - 1`, which is above
`2^63 - 1`; `ReadAnyInt64` reports no error for it and returns `-1`. -/
theorem ReadAnyInt64_big_of_eight_bytes_wraps :
    bigValue 0x00 [0xFF, 0xFF, 0xFF, 0xFF, 0xFF, 0xFF, 0xFF, 0xFF] = 2 ^ 64 - 1 ∧
    ¬ (bigValue 0x00 [0xFF, 0xFF, 0xFF, 0xFF, 0xFF, 0xFF, 0xFF, 0xFF] ≤ 2 ^ 63 - 1) ∧
    ((NewDecoder ⟨[0x6E, 0x08, 0x00, 0xFF, 0xFF, 0xFF, 0xFF, 0xFF, 0xFF, 0xFF, 0xFF],
      []⟩).ReadAnyInt64 0).err = none ∧
    ((NewDecoder ⟨[0x6E, 0x08, 0x00, 0xFF, 0xFF, 0xFF, 0xFF, 0xFF, 0xFF, 0xFF, 0xFF],
      []⟩).ReadAnyInt64 0).val = -1 := by
  decide

/-- An INTEGER term read by `ReadAnyInt64`: the four bytes as an unsigned big-endian
word. -/
theorem Decoder.ReadAnyInt64_integer (dec : Decoder) (b0 b1 b2 b3 : UInt8) (rest : List UInt8)
    (dst : Int) (h : dec.bufReader = ⟨98 :: b0 :: b1 :: b2 :: b3 :: rest, []⟩) :
    ∃ arr, dec.ReadAnyInt64 dst =
      { val := ((b0.toNat * 16777216 + b1.toNat * 65536 + b2.toNat * 256 + b3.toNat : Nat) : Int),
        err := none,
        dec := { bufReader := ⟨rest, []⟩, cursor := dec.cursor + 5,
                 fieldStack := dec.fieldStack, bufArr := arr, bufLen := 4 } } := by
  have h1 := dec.readNextTag_cons 98 (b0 :: b1 :: b2 :: b3 :: rest) [] h
  obtain ⟨arr, h2⟩ := Decoder.readUint32_full
    { dec with bufReader := ⟨b0 :: b1 :: b2 :: b3 :: rest, []⟩, cursor := dec.cursor + 1 }
    b0 b1 b2 b3 rest rfl
  refine ⟨arr, ?_⟩
  have hI : (98 : UInt8) = ETTInteger := rfl
  simp only [Decoder.ReadAnyInt64, h1]
  simp only [hI, if_true, h2]

/-- C8 (the code at the failing input): on the INTEGER term `62 FF FF FF FF`
`ReadAnyInt64` returns `4294967295` with no error, while `ReadAnyInt32` returns `-1`
for the same bytes. -/
theorem ReadAnyInt64_integer_not_sign_extended :
    ((NewDecoder ⟨[0x62, 0xFF, 0xFF, 0xFF, 0xFF], []⟩).ReadAnyInt64 0).err = none ∧
    ((NewDecoder ⟨[0x62, 0xFF, 0xFF, 0xFF, 0xFF], []⟩).ReadAnyInt64 0).val = 4294967295 ∧
    ((NewDecoder ⟨[0x62, 0xFF, 0xFF, 0xFF, 0xFF], []⟩).ReadAnyInt32 0).err = none ∧
    ((NewDecoder ⟨[0x62, 0xFF, 0xFF, 0xFF, 0xFF], []⟩).ReadAnyInt32 0).val = -1 := by
  decide

/-- C9: for each of the seven readers and every stream whose first byte `t` is not in
the reader's accepted tag set, the reader returns an `InvalidTermTagError` whose tag
is `t`, whose cursor is the cursor before the call plus 1 and whose field stack is the
decoder's; exactly that one byte is consumed and the field stack is left unchanged. -/
theorem readers_reject_unaccepted_tag (dec : Decoder) (t : UInt8) (rest : List UInt8)
    (hdata : dec.bufReader.data = t :: rest) :
    (∀ output, t ∉ [100, 118, 107, 115, 119] →
      (dec.ReadAnyAtom output).rejectsTag dec t rest "ReadAnyAtom") ∧
    (∀ output, t ∉ [100, 118, 107, 115, 119, 109] →
      (dec.ReadAnyString output).rejectsTag dec t rest "ReadString") ∧
    (∀ dst, t ∉ [98, 97] →
      (dec.ReadAnyInt32 dst).rejectsTag dec t rest "ReadAnyInt32") ∧
    (∀ dst, t ∉ [98, 97, 110, 111] →
      (dec.ReadAnyInt64 dst).rejectsTag dec t rest "ReadAnyInt64") ∧
    (∀ dst, t ∉ [99, 70] →
      (dec.ReadAnyFloat64 dst).rejectsTag dec t rest "ReadAnyFloat64") ∧
    (∀ (σ : Type) (unmarshaler : ListUnmarshaler σ) (st : σ), t ∉ [108] →
      (dec.ReadList unmarshaler st).rejectsTag dec t rest "ReadList") ∧
    (∀ (σ : Type) (unmarshaler : Unmarshaler σ) (st : σ), t ∉ [116] →
      (dec.ReadMapToUnmarshaler unmarshaler st).rejectsTag dec t rest "ReadMapToUnmarhsaler") := by
  have hb : dec.bufReader = ⟨t :: rest, dec.bufReader.sched⟩ := by
    cases hs : dec.bufReader
    simp_all
  have h1 := dec.readNextTag_cons t rest _ hb
  refine ⟨?_, ?_, ?_, ?_, ?_, ?_, ?_⟩
  · intro output ht
    simp only [List.mem_cons, List.mem_singleton, List.mem_nil_iff, not_or, or_false] at ht
    obtain ⟨a1, a2, a3, a4, a5⟩ := ht
    simp [Ret.rejectsTag, Decoder.ReadAnyAtom, h1, Decoder.InvalidTermTag, ETTAtom, ETTAtomUTF8,
      ETTString, ETTSmallAtom, ETTSmallAtomUTF8, a1, a2, a3, a4, a5]
  · intro output ht
    simp only [List.mem_cons, List.mem_singleton, List.mem_nil_iff, not_or, or_false] at ht
    obtain ⟨a1, a2, a3, a4, a5, a6⟩ := ht
    simp [Ret.rejectsTag, Decoder.ReadAnyString, h1, Decoder.InvalidTermTag, ETTAtom,
      ETTAtomUTF8, ETTString, ETTSmallAtom, ETTSmallAtomUTF8, ETTBinary, a1, a2, a3, a4, a5, a6]
  · intro dst ht
    simp only [List.mem_cons, List.mem_singleton, List.mem_nil_iff, not_or, or_false] at ht
    obtain ⟨a1, a2⟩ := ht
    simp [Ret.rejectsTag, Decoder.ReadAnyInt32, h1, Decoder.InvalidTermTag, ETTInteger,
      ETTSmallInteger, a1, a2]
  · intro dst ht
    simp only [List.mem_cons, List.mem_singleton, List.mem_nil_iff, not_or, or_false] at ht
    obtain ⟨a1, a2, a3, a4⟩ := ht
    simp [Ret.rejectsTag, Decoder.ReadAnyInt64, h1, Decoder.InvalidTermTag, ETTInteger,
      ETTSmallInteger, ETTSmallBig, ETTLargeBig, a1, a2, a3, a4]
  · intro dst ht
    simp only [List.mem_cons, List.mem_singleton, List.mem_nil_iff, not_or, or_false] at ht
    obtain ⟨a1, a2⟩ := ht
    simp [Ret.rejectsTag, Decoder.ReadAnyFloat64, h1, Decoder.InvalidTermTag, ETTFloat,
      ETTNewFloat, Decoder.skipAnyWithTag, a1, a2]
  · intro σ unmarshaler st ht
    simp only [List.mem_cons, List.mem_singleton, List.mem_nil_iff, not_or, or_false] at ht
    simp [Ret.rejectsTag, Decoder.ReadList, h1, Decoder.InvalidTermTag, ETTList,
      Decoder.skipAnyWithTag, ht]
  · intro σ unmarshaler st ht
    simp only [List.mem_cons, List.mem_singleton, List.mem_nil_iff, not_or, or_false] at ht
    simp [Ret.rejectsTag, Decoder.ReadMapToUnmarshaler, h1, Decoder.InvalidTermTag, ETTMap,
      Decoder.skipAnyWithTag, ht]

theorem readers_reject_unaccepted_tag_witness :
    ((NewDecoder ⟨[0x6A, 0x01], []⟩).ReadAnyAtom []).rejectsTag
      (NewDecoder ⟨[0x6A, 0x01], []⟩) 0x6A [0x01] "ReadAnyAtom" ∧
    ((NewDecoder ⟨[0x6A, 0x01], []⟩).ReadAnyString []).rejectsTag
      (NewDecoder ⟨[0x6A, 0x01], []⟩) 0x6A [0x01] "ReadString" ∧
    ((NewDecoder ⟨[0x6A, 0x01], []⟩).ReadAnyInt32 0).rejectsTag
      (NewDecoder ⟨[0x6A, 0x01], []⟩) 0x6A [0x01] "ReadAnyInt32" ∧
    ((NewDecoder ⟨[0x6A, 0x01], []⟩).ReadAnyInt64 0).rejectsTag
      (NewDecoder ⟨[0x6A, 0x01], []⟩) 0x6A [0x01] "ReadAnyInt64" ∧
    ((NewDecoder ⟨[0x6A, 0x01], []⟩).ReadAnyFloat64 0).rejectsTag
      (NewDecoder ⟨[0x6A, 0x01], []⟩) 0x6A [0x01] "ReadAnyFloat64" ∧
    ((NewDecoder ⟨[0x6A, 0x01], []⟩).ReadList (fun (u : Unit) d => (u, none, d)) ()).rejectsTag
      (NewDecoder ⟨[0x6A, 0x01], []⟩) 0x6A [0x01] "ReadList" ∧
    ((NewDecoder ⟨[0x6A, 0x01], []⟩).ReadMapToUnmarshaler
      (fun (u : Unit) d _ => (u, none, d)) ()).rejectsTag
      (NewDecoder ⟨[0x6A, 0x01], []⟩) 0x6A [0x01] "ReadMapToUnmarhsaler" :=
  ⟨(readers_reject_unaccepted_tag (NewDecoder ⟨[0x6A, 0x01], []⟩) 0x6A [0x01] rfl).1 []
      (by decide),
   (readers_reject_unaccepted_tag (NewDecoder ⟨[0x6A, 0x01], []⟩) 0x6A [0x01] rfl).2.1 []
      (by decide),
   (readers_reject_unaccepted_tag (NewDecoder ⟨[0x6A, 0x01], []⟩) 0x6A [0x01] rfl).2.2.1 0
      (by decide),
   (readers_reject_unaccepted_tag (NewDecoder ⟨[0x6A, 0x01], []⟩) 0x6A [0x01] rfl).2.2.2.1 0
      (by decide),
   (readers_reject_unaccepted_tag (NewDecoder ⟨[0x6A, 0x01], []⟩) 0x6A [0x01] rfl).2.2.2.2.1 0
      (by decide),
   (readers_reject_unaccepted_tag (NewDecoder ⟨[0x6A, 0x01], []⟩) 0x6A [0x01] rfl).2.2.2.2.2.1
      Unit (fun u d => (u, none, d)) () (by decide),
   (readers_reject_unaccepted_tag (NewDecoder ⟨[0x6A, 0x01], []⟩) 0x6A [0x01] rfl).2.2.2.2.2.2
      Unit (fun u d _ => (u, none, d)) () (by decide)⟩

/-! ## The list reader -/

theorem lastError_cons_none (tr : List (Option Err)) : lastError (none :: tr) = lastError tr := by
  simp [lastError]

theorem lastError_cons_some (e : Err) (tr : List (Option Err)) (err : Option Err) :
    (lastError (some e :: tr)).or err = (lastError tr).or (some e) := by
  simp only [lastError, List.filterMap_cons, id, List.getLast?_cons]
  cases (List.filterMap id tr).getLast? <;> rfl

/-- The loop of `ReadList` run with the logging callback: the log grows by one entry
per pass, the passes are those of the plain callback, and the error that comes out
is the last one logged, or the incoming one when no pass failed. -/
theorem Decoder.listLoop_logCalls {σ : Type} (unmarshaler : ListUnmarshaler σ) (n : Nat) :
    ∀ (st : σ) (log : List (Option Err)) (err : Option Err) (dec : Decoder),
      ∃ tr : List (Option Err), tr.length = n ∧
        listLoop (logCalls unmarshaler) n (st, log) err dec =
          (((listLoop unmarshaler n st err dec).1, log ++ tr),
            (listLoop unmarshaler n st err dec).2.1, (listLoop unmarshaler n st err dec).2.2) ∧
        (listLoop unmarshaler n st err dec).2.1 = (lastError tr).or err := by
  induction n with
  | zero =>
    intro st log err dec
    refine ⟨[], rfl, ?_, ?_⟩
    · simp [Decoder.listLoop]
    · simp [Decoder.listLoop, lastError]
  | succ n ih =>
    intro st log err dec
    rcases hcb : unmarshaler st dec with ⟨s1, e, d1⟩
    cases e with
    | none =>
      obtain ⟨tr, hlen, h1, h2⟩ := ih s1 (log ++ [none]) err d1
      refine ⟨none :: tr, by simp [hlen], ?_, ?_⟩
      · simp only [Decoder.listLoop, logCalls, hcb, h1]
        simp
      · simp only [Decoder.listLoop, hcb, h2, lastError_cons_none]
    | some x =>
      obtain ⟨tr, hlen, h1, h2⟩ := ih s1 (log ++ [some x]) (some x) d1
      refine ⟨some x :: tr, by simp [hlen], ?_, ?_⟩
      · simp only [Decoder.listLoop, logCalls, hcb, h1]
        simp
      · simp only [Decoder.listLoop, hcb, h2, lastError_cons_some]

/-- What `ReadList` does when no `Read` of the count is short: on a stream beginning
with tag 108 and a four-byte big-endian count `N`, `ReadList` invokes the list callback
exactly `N` times whatever the callbacks return: run with the logging callback, which
changes neither the result nor the final state, the log holds `N` entries, and the
error returned is that of the last invocation that returned an error, or none. -/
theorem ReadList_invokes_callback_N_times {σ : Type} (dec : Decoder)
    (unmarshaler : ListUnmarshaler σ) (st : σ) (c0 c1 c2 c3 : UInt8) (rest : List UInt8)
    (hsrc : dec.bufReader.noShortReads)
    (hdata : dec.bufReader.data = 108 :: c0 :: c1 :: c2 :: c3 :: rest) :
    ((dec.ReadList (logCalls unmarshaler) (st, [])).val.2).length
      = c0.toNat * 2 ^ 24 + c1.toNat * 2 ^ 16 + c2.toNat * 2 ^ 8 + c3.toNat ∧
    (dec.ReadList (logCalls unmarshaler) (st, [])).val.1 = (dec.ReadList unmarshaler st).val ∧
    (dec.ReadList (logCalls unmarshaler) (st, [])).dec = (dec.ReadList unmarshaler st).dec ∧
    (dec.ReadList (logCalls unmarshaler) (st, [])).err = (dec.ReadList unmarshaler st).err ∧
    (dec.ReadList unmarshaler st).err
      = lastError (dec.ReadList (logCalls unmarshaler) (st, [])).val.2 := by
  have hb := Source.eq_of_noShortReads hsrc hdata
  have h1 := dec.readNextTag_cons 108 (c0 :: c1 :: c2 :: c3 :: rest) [] hb
  obtain ⟨arr, h2⟩ := Decoder.readUint32_full
    { dec with bufReader := ⟨c0 :: c1 :: c2 :: c3 :: rest, []⟩, cursor := dec.cursor + 1 }
    c0 c1 c2 c3 rest rfl
  have hL : (108 : UInt8) = ETTList := rfl
  obtain ⟨tr, hlen, h3, h4⟩ := Decoder.listLoop_logCalls unmarshaler
    (c0.toNat * 16777216 + c1.toNat * 65536 + c2.toNat * 256 + c3.toNat) st [] none
    { bufReader := ⟨rest, []⟩, cursor := dec.cursor + 1 + 4, fieldStack := dec.fieldStack,
      bufArr := arr, bufLen := 4 }
  simp only [Decoder.ReadList, h1]
  simp only [hL, if_true, h2, h3, h4, List.nil_append, Option.or_none]
  constructor
  · rw [hlen]
    norm_num
  · exact ⟨trivial, trivial, trivial, trivial⟩

theorem ReadList_invokes_callback_N_times_witness :
    ((NewDecoder ⟨[0x6C, 0, 0, 0, 2, 0x61, 0x07, 0x6A, 0x6A], []⟩).ReadList
        (logCalls (fun (u : Unit) d => (u, (d.ReadAnyInt32 0).err, (d.ReadAnyInt32 0).dec)))
        ((), [])).val.2.length = 2 ∧
    ((NewDecoder ⟨[0x6C, 0, 0, 0, 2, 0x61, 0x07, 0x6A, 0x6A], []⟩).ReadList
        (fun (u : Unit) d => (u, (d.ReadAnyInt32 0).err, (d.ReadAnyInt32 0).dec)) ()).err
      = lastError ((NewDecoder ⟨[0x6C, 0, 0, 0, 2, 0x61, 0x07, 0x6A, 0x6A], []⟩).ReadList
        (logCalls (fun (u : Unit) d => (u, (d.ReadAnyInt32 0).err, (d.ReadAnyInt32 0).dec)))
        ((), [])).val.2 :=
  ⟨(ReadList_invokes_callback_N_times (NewDecoder ⟨[0x6C, 0, 0, 0, 2, 0x61, 0x07, 0x6A, 0x6A], []⟩)
      (fun (u : Unit) d => (u, (d.ReadAnyInt32 0).err, (d.ReadAnyInt32 0).dec)) ()
      0 0 0 2 [0x61, 0x07, 0x6A, 0x6A] rfl rfl).1,
   (ReadList_invokes_callback_N_times (NewDecoder ⟨[0x6C, 0, 0, 0, 2, 0x61, 0x07, 0x6A, 0x6A], []⟩)
      (fun (u : Unit) d => (u, (d.ReadAnyInt32 0).err, (d.ReadAnyInt32 0).dec)) ()
      0 0 0 2 [0x61, 0x07, 0x6A, 0x6A] rfl rfl).2.2.2.2⟩


/-! ## Facts that hold for every source -/

theorem Decoder.readNextTag_nil (dec : Decoder) (h : dec.bufReader.data = []) :
    dec.readNextTag = { val := 0, err := some Err.EOF, dec := { dec with cursor := dec.cursor + 1 } } := by
  simp [Decoder.readNextTag, Source.ReadByte, h]

theorem Decoder.readNextByte_nil (dec : Decoder) (h : dec.bufReader.data = []) :
    dec.readNextByte = { val := 0, err := some Err.EOF, dec := { dec with cursor := dec.cursor + 1 } } := by
  simp [Decoder.readNextByte, Source.ReadByte, h]

theorem Decoder.readNextTag_fieldStack (dec : Decoder) :
    dec.readNextTag.dec.fieldStack = dec.fieldStack := by
  unfold Decoder.readNextTag
  rcases dec.bufReader.ReadByte with ⟨b, e, s⟩
  rfl

theorem Decoder.readNextByte_fieldStack (dec : Decoder) :
    dec.readNextByte.dec.fieldStack = dec.fieldStack := by
  unfold Decoder.readNextByte
  rcases dec.bufReader.ReadByte with ⟨b, e, s⟩
  rfl

theorem Decoder.readLoop_fieldStack (fuel : Nat) :
    ∀ (dec : Decoder) (l n : Nat), (readLoop fuel dec l n).2.fieldStack = dec.fieldStack := by
  induction fuel with
  | zero => intro dec l n; rfl
  | succ fuel ih =>
    intro dec l n
    by_cases hnl : n < l
    · rcases hR : dec.bufReader.Read dec.bufLen with ⟨bs, err, s⟩
      cases err with
      | some e => simp only [Decoder.readLoop, hnl, if_true, hR]
      | none =>
        simp only [Decoder.readLoop, hnl, if_true, hR]
        rw [ih]
    · simp only [Decoder.readLoop, hnl, if_false]

theorem Decoder.readIntoBuf_fieldStack (dec : Decoder) (l : Nat) :
    (dec.readIntoBuf l).dec.fieldStack = dec.fieldStack := by
  unfold Decoder.readIntoBuf
  have h := Decoder.readLoop_fieldStack l (dec.resizeBuf l) l 0
  rw [Decoder.resizeBuf_fieldStack] at h
  rcases hL : readLoop l (dec.resizeBuf l) l 0 with ⟨e, d⟩
  rw [hL] at h
  exact h

theorem Decoder.readUint16_fieldStack (dec : Decoder) :
    dec.readUint16.dec.fieldStack = dec.fieldStack := by
  unfold Decoder.readUint16
  have h := dec.readIntoBuf_fieldStack 2
  cases he : (dec.readIntoBuf 2).err <;> simp only [he] <;> exact h

theorem Decoder.readUint32_fieldStack (dec : Decoder) :
    dec.readUint32.dec.fieldStack = dec.fieldStack := by
  unfold Decoder.readUint32
  have h := dec.readIntoBuf_fieldStack 4
  cases he : (dec.readIntoBuf 4).err <;> simp only [he] <;> exact h

theorem Decoder.skipAny_fieldStack (dec : Decoder) : dec.skipAny.fieldStack = dec.fieldStack := by
  unfold Decoder.skipAny
  have h := dec.readNextTag_fieldStack
  cases he : dec.readNextTag.err with
  | some e => simp only [he]; exact h
  | none =>
    simp only [he, Decoder.skipAnyWithTag]
    split_ifs <;> exact h

theorem Decoder.ReadAnyAtom_fieldStack (dec : Decoder) (output : GoString) :
    (dec.ReadAnyAtom output).dec.fieldStack = dec.fieldStack := by
  unfold Decoder.ReadAnyAtom
  have h1 := dec.readNextTag_fieldStack
  cases he : dec.readNextTag.err with
  | some e => simp only [he]; exact h1
  | none =>
    simp only [he]
    by_cases hA : dec.readNextTag.val = ETTAtom ∨ dec.readNextTag.val = ETTAtomUTF8 ∨
        dec.readNextTag.val = ETTString
    · simp only [hA, if_true]
      have h2 := dec.readNextTag.dec.readUint16_fieldStack
      cases he2 : dec.readNextTag.dec.readUint16.err with
      | some e => simp only [he2]; rw [h2, h1]
      | none =>
        simp only [he2]
        have h3 := dec.readNextTag.dec.readUint16.dec.readIntoBuf_fieldStack
          dec.readNextTag.dec.readUint16.val
        cases he3 : (dec.readNextTag.dec.readUint16.dec.readIntoBuf
            dec.readNextTag.dec.readUint16.val).err with
        | some e => simp only [he3]; rw [h3, h2, h1]
        | none => simp only [he3]; rw [h3, h2, h1]
    · simp only [hA, if_false]
      by_cases hB : dec.readNextTag.val = ETTSmallAtom ∨ dec.readNextTag.val = ETTSmallAtomUTF8
      · simp only [hB, if_true]
        have h2 := dec.readNextTag.dec.readNextByte_fieldStack
        cases he2 : dec.readNextTag.dec.readNextByte.err with
        | some e => simp only [he2]; rw [h2, h1]
        | none =>
          simp only [he2]
          have h3 := dec.readNextTag.dec.readNextByte.dec.readIntoBuf_fieldStack
            dec.readNextTag.dec.readNextByte.val.toNat
          cases he3 : (dec.readNextTag.dec.readNextByte.dec.readIntoBuf
              dec.readNextTag.dec.readNextByte.val.toNat).err with
          | some e => simp only [he3]; rw [h3, h2, h1]
          | none => simp only [he3]; rw [h3, h2, h1]
      · simp only [hB, if_false]
        exact h1

theorem Decoder.ReadAnyAtom_nil (dec : Decoder) (output : GoString)
    (h : dec.bufReader.data = []) :
    dec.ReadAnyAtom output =
      { val := output, err := some Err.EOF, dec := { dec with cursor := dec.cursor + 1 } } := by
  simp only [Decoder.ReadAnyAtom, dec.readNextTag_nil h]

theorem Decoder.skipAny_nil (dec : Decoder) (h : dec.bufReader.data = []) :
    dec.skipAny = { dec with cursor := dec.cursor + 1 } := by
  simp only [Decoder.skipAny, dec.readNextTag_nil h]


/-! ## The map reader -/

/-- A well-formed atom term at the head of a source without short reads is read in
full by `ReadAnyAtom`. -/
theorem Decoder.ReadAnyAtom_term (dec : Decoder) (bytes : List UInt8) (text : GoString)
    (rest : List UInt8) (output : GoString) (hterm : IsAtomTerm bytes text)
    (h : dec.bufReader = ⟨bytes ++ rest, []⟩) :
    ∃ arr, dec.ReadAnyAtom output =
      { val := text, err := none,
        dec := { bufReader := ⟨rest, []⟩, cursor := dec.cursor + bytes.length,
                 fieldStack := dec.fieldStack, bufArr := arr, bufLen := text.length } } := by
  rcases hterm with ⟨tag, n, htag, hn, rfl⟩ | ⟨tag, hi, lo, htag, hn, rfl⟩
  · obtain ⟨arr, ha⟩ := dec.ReadAnyAtom_small tag n text rest output htag hn (by simpa using h)
    refine ⟨text ++ arr, ?_⟩
    rw [ha]
    simp [Nat.add_comm, Nat.add_left_comm]
  · obtain ⟨arr, ha⟩ := dec.ReadAnyAtom_wide tag hi lo text rest output htag hn (by simpa using h)
    refine ⟨text ++ arr, ?_⟩
    rw [ha]
    simp [Nat.add_comm, Nat.add_left_comm]

/-- The pair loop run with the logging callback makes the passes of the plain
callback; every logged invocation saw the field stack `S` with its key appended. -/
theorem Decoder.mapLoop_logMapCalls {σ : Type} (unmarshaler : Unmarshaler σ)
    (S : List GoString) (n : Nat) :
    ∀ (st : σ) (log : List (GoString × List GoString × Option Err)) (err : Option Err)
      (dec : Decoder),
      ∃ tr : List (GoString × List GoString × Option Err),
        mapLoop (logMapCalls unmarshaler) S n (st, log) err dec =
          (((mapLoop unmarshaler S n st err dec).1, log ++ tr),
            (mapLoop unmarshaler S n st err dec).2.1, (mapLoop unmarshaler S n st err dec).2.2) ∧
        (∀ x ∈ tr, x.2.1 = S ++ [x.1]) := by
  induction n with
  | zero =>
    intro st log err dec
    exact ⟨[], by simp [Decoder.mapLoop], by simp⟩
  | succ n ih =>
    intro st log err dec
    cases ha : (dec.ReadAnyAtom []).err with
    | some e =>
      obtain ⟨tr, h1, h2⟩ := ih st log (some e) (dec.ReadAnyAtom []).dec.skipAny
      refine ⟨tr, ?_, h2⟩
      simp only [Decoder.mapLoop, ha, h1]
    | none =>
      rcases hcb : unmarshaler st
        { (dec.ReadAnyAtom []).dec with fieldStack := S ++ [(dec.ReadAnyAtom []).val] }
        (dec.ReadAnyAtom []).val with ⟨s1, e, d1⟩
      cases e with
      | none =>
        obtain ⟨tr, h1, h2⟩ := ih s1
          (log ++ [((dec.ReadAnyAtom []).val, S ++ [(dec.ReadAnyAtom []).val], none)])
          err { d1 with fieldStack := S }
        refine ⟨((dec.ReadAnyAtom []).val, S ++ [(dec.ReadAnyAtom []).val], none) :: tr, ?_, ?_⟩
        · simp only [Decoder.mapLoop, ha, logMapCalls, hcb, h1]
          simp
        · intro x hx
          rcases List.mem_cons.mp hx with rfl | hx
          · rfl
          · exact h2 x hx
      | some y =>
        obtain ⟨tr, h1, h2⟩ := ih s1
          (log ++ [((dec.ReadAnyAtom []).val, S ++ [(dec.ReadAnyAtom []).val], some y)])
          (some y) { d1 with fieldStack := S }
        refine ⟨((dec.ReadAnyAtom []).val, S ++ [(dec.ReadAnyAtom []).val], some y) :: tr, ?_, ?_⟩
        · simp only [Decoder.mapLoop, ha, logMapCalls, hcb, h1]
          simp
        · intro x hx
          rcases List.mem_cons.mp hx with rfl | hx
          · rfl
          · exact h2 x hx

/-- The pair loop leaves the field stack it was entered with. -/
theorem Decoder.mapLoop_fieldStack {σ : Type} (unmarshaler : Unmarshaler σ)
    (S : List GoString) (n : Nat) :
    ∀ (st : σ) (err : Option Err) (dec : Decoder), dec.fieldStack = S →
      (mapLoop unmarshaler S n st err dec).2.2.fieldStack = S := by
  induction n with
  | zero => intro st err dec h; exact h
  | succ n ih =>
    intro st err dec h
    cases ha : (dec.ReadAnyAtom []).err with
    | some e =>
      simp only [Decoder.mapLoop, ha]
      apply ih
      rw [Decoder.skipAny_fieldStack, Decoder.ReadAnyAtom_fieldStack, h]
    | none =>
      rcases hcb : unmarshaler st
        { (dec.ReadAnyAtom []).dec with fieldStack := S ++ [(dec.ReadAnyAtom []).val] }
        (dec.ReadAnyAtom []).val with ⟨s1, e, d1⟩
      simp only [Decoder.mapLoop, ha, hcb]
      apply ih
      rfl


theorem pairsBytes_cons_append (p : WirePair) (ps : List WirePair) (rest : List UInt8) :
    pairsBytes (p :: ps) ++ rest = p.keyBytes ++ (p.valueBytes ++ (pairsBytes ps ++ rest)) := by
  simp [pairsBytes, List.append_assoc]

/-- The pair loop with the logging callback over well-formed pairs whose values the
callback consumes: one logged invocation per pair, keys in wire order, and the error
that comes out is the last one logged, or the incoming one. -/
theorem Decoder.mapLoop_pairs {σ : Type} (unmarshaler : Unmarshaler σ) (S : List GoString) :
    ∀ (pairs : List WirePair) (st : σ) (log : List (GoString × List GoString × Option Err))
      (err : Option Err) (dec : Decoder) (rest : List UInt8),
      (∀ p ∈ pairs, IsAtomTerm p.keyBytes p.key) →
      (∀ p ∈ pairs, ∀ (s : σ) (d : Decoder) (r : List UInt8),
        d.bufReader = ⟨p.valueBytes ++ r, []⟩ → (unmarshaler s d p.key).2.2.bufReader = ⟨r, []⟩) →
      dec.bufReader = ⟨pairsBytes pairs ++ rest, []⟩ →
      ∃ tr : List (GoString × List GoString × Option Err),
        tr.length = pairs.length ∧
        tr.map (fun x => x.1) = pairs.map (fun p => p.key) ∧
        (mapLoop (logMapCalls unmarshaler) S pairs.length (st, log) err dec).1.2 = log ++ tr ∧
        (mapLoop (logMapCalls unmarshaler) S pairs.length (st, log) err dec).2.1
          = (lastError (tr.map (fun x => x.2.2))).or err ∧
        (mapLoop (logMapCalls unmarshaler) S pairs.length (st, log) err dec).2.2.bufReader
          = ⟨rest, []⟩ := by
  intro pairs
  induction pairs with
  | nil =>
    intro st log err dec rest _ _ hd
    refine ⟨[], rfl, rfl, by simp [Decoder.mapLoop], by simp [Decoder.mapLoop, lastError], ?_⟩
    simpa [Decoder.mapLoop, pairsBytes] using hd
  | cons p ps ih =>
    intro st log err dec rest hkeys hcb hd
    rw [pairsBytes_cons_append] at hd
    obtain ⟨arr, ha⟩ := dec.ReadAnyAtom_term p.keyBytes p.key
      (p.valueBytes ++ (pairsBytes ps ++ rest)) [] (hkeys p (List.mem_cons_self _ _)) hd
    have hcons := hcb p (List.mem_cons_self _ _) st
      { bufReader := ⟨p.valueBytes ++ (pairsBytes ps ++ rest), []⟩,
        cursor := dec.cursor + p.keyBytes.length, fieldStack := S ++ [p.key],
        bufArr := arr, bufLen := p.key.length } (pairsBytes ps ++ rest) rfl
    rcases hu : unmarshaler st
      { bufReader := ⟨p.valueBytes ++ (pairsBytes ps ++ rest), []⟩,
        cursor := dec.cursor + p.keyBytes.length, fieldStack := S ++ [p.key],
        bufArr := arr, bufLen := p.key.length } p.key with ⟨s1, e, d1⟩
    rw [hu] at hcons
    have hkeys2 : ∀ q ∈ ps, IsAtomTerm q.keyBytes q.key :=
      fun q hq => hkeys q (List.mem_cons_of_mem _ hq)
    have hcb2 : ∀ q ∈ ps, ∀ (s : σ) (d : Decoder) (r : List UInt8),
        d.bufReader = ⟨q.valueBytes ++ r, []⟩ → (unmarshaler s d q.key).2.2.bufReader = ⟨r, []⟩ :=
      fun q hq => hcb q (List.mem_cons_of_mem _ hq)
    cases e with
    | none =>
      obtain ⟨tr, h1, h2, h3, h4, h5⟩ := ih s1 (log ++ [(p.key, S ++ [p.key], none)]) err
        { d1 with fieldStack := S } rest hkeys2 hcb2 hcons
      refine ⟨(p.key, S ++ [p.key], none) :: tr, by simp [h1], by simp [h2], ?_, ?_, ?_⟩
      · simp only [List.length_cons, Decoder.mapLoop, ha, logMapCalls, hu, h3]
        simp
      · simp only [List.length_cons, Decoder.mapLoop, ha, logMapCalls, hu, h4, List.map_cons,
          lastError_cons_none]
      · simp only [List.length_cons, Decoder.mapLoop, ha, logMapCalls, hu, h5]
    | some y =>
      obtain ⟨tr, h1, h2, h3, h4, h5⟩ := ih s1 (log ++ [(p.key, S ++ [p.key], some y)]) (some y)
        { d1 with fieldStack := S } rest hkeys2 hcb2 hcons
      refine ⟨(p.key, S ++ [p.key], some y) :: tr, by simp [h1], by simp [h2], ?_, ?_, ?_⟩
      · simp only [List.length_cons, Decoder.mapLoop, ha, logMapCalls, hu, h3]
        simp
      · simp only [List.length_cons, Decoder.mapLoop, ha, logMapCalls, hu, h4, List.map_cons,
          lastError_cons_some]
      · simp only [List.length_cons, Decoder.mapLoop, ha, logMapCalls, hu, h5]


/-- What `ReadMapToUnmarshaler` does with the logging callback, against the plain
callback: same result, error and final decoder; every logged invocation saw the
field stack of the call with its key appended; the field stack is restored. -/
theorem Decoder.ReadMap_logMapCalls {σ : Type} (dec : Decoder) (unmarshaler : Unmarshaler σ)
    (st : σ) :
    (∀ x ∈ (dec.ReadMapToUnmarshaler (logMapCalls unmarshaler) (st, [])).val.2,
      x.2.1 = dec.fieldStack ++ [x.1]) ∧
    (dec.ReadMapToUnmarshaler (logMapCalls unmarshaler) (st, [])).val.1
      = (dec.ReadMapToUnmarshaler unmarshaler st).val ∧
    (dec.ReadMapToUnmarshaler (logMapCalls unmarshaler) (st, [])).err
      = (dec.ReadMapToUnmarshaler unmarshaler st).err ∧
    (dec.ReadMapToUnmarshaler (logMapCalls unmarshaler) (st, [])).dec
      = (dec.ReadMapToUnmarshaler unmarshaler st).dec ∧
    (dec.ReadMapToUnmarshaler unmarshaler st).dec.fieldStack = dec.fieldStack := by
  have hT := dec.readNextTag_fieldStack
  unfold Decoder.ReadMapToUnmarshaler
  cases ht : dec.readNextTag.err with
  | some e =>
    simp only [ht]
    exact ⟨by simp, trivial, trivial, trivial, hT⟩
  | none =>
    simp only [ht]
    by_cases hm : dec.readNextTag.val = ETTMap
    · simp only [hm, ne_eq, not_true_eq_false, if_false]
      have hU := dec.readNextTag.dec.readUint32_fieldStack
      cases hn : dec.readNextTag.dec.readUint32.err with
      | some e =>
        simp only [hn]
        exact ⟨by simp, trivial, trivial, trivial, by rw [hU, hT]⟩
      | none =>
        simp only [hn]
        obtain ⟨tr, h1, h2⟩ := Decoder.mapLoop_logMapCalls unmarshaler
          dec.readNextTag.dec.readUint32.dec.fieldStack dec.readNextTag.dec.readUint32.val
          st [] none dec.readNextTag.dec.readUint32.dec
        have h3 := Decoder.mapLoop_fieldStack unmarshaler
          dec.readNextTag.dec.readUint32.dec.fieldStack dec.readNextTag.dec.readUint32.val
          st none dec.readNextTag.dec.readUint32.dec rfl
        rw [h1]
        refine ⟨?_, rfl, rfl, rfl, ?_⟩
        · intro x hx
          have hx2 : x ∈ tr := by simpa using hx
          rw [h2 x hx2, hU, hT]
        · rw [h3, hU, hT]
    · simp only [hm, ne_eq, not_false_eq_true, if_true, Decoder.skipAnyWithTag]
      refine ⟨by simp, trivial, trivial, trivial, ?_⟩
      split_ifs <;> exact hT

/-- C12: for every invocation of `ReadMapToUnmarshaler`, whatever the field stack `S`
of the decoder is when it is called (a nested invocation from inside a map callback
is called with the outer stack and key), whatever the source holds and whatever the
callbacks do: at every invocation of the callback for a key `k` the field stack is
`S` with `k` appended (depth `len S + 1`, last entry `k`, the first `len S` entries
equal to `S`), and on return, with or without error, the field stack is `S`. The
invocations are observed through the logging callback, which changes nothing else. -/
theorem ReadMap_field_stack_discipline {σ : Type} (dec : Decoder) (unmarshaler : Unmarshaler σ)
    (st : σ) :
    (∀ x ∈ (dec.ReadMapToUnmarshaler (logMapCalls unmarshaler) (st, [])).val.2,
      x.2.1 = dec.fieldStack ++ [x.1] ∧ x.2.1.length = dec.fieldStack.length + 1 ∧
      x.2.1.getLast? = some x.1 ∧ x.2.1.take dec.fieldStack.length = dec.fieldStack) ∧
    (dec.ReadMapToUnmarshaler (logMapCalls unmarshaler) (st, [])).val.1
      = (dec.ReadMapToUnmarshaler unmarshaler st).val ∧
    (dec.ReadMapToUnmarshaler (logMapCalls unmarshaler) (st, [])).err
      = (dec.ReadMapToUnmarshaler unmarshaler st).err ∧
    (dec.ReadMapToUnmarshaler (logMapCalls unmarshaler) (st, [])).dec
      = (dec.ReadMapToUnmarshaler unmarshaler st).dec ∧
    (dec.ReadMapToUnmarshaler unmarshaler st).dec.fieldStack = dec.fieldStack := by
  obtain ⟨h1, h2, h3, h4, h5⟩ := dec.ReadMap_logMapCalls unmarshaler st
  refine ⟨?_, h2, h3, h4, h5⟩
  intro x hx
  have hx1 := h1 x hx
  refine ⟨hx1, ?_, ?_, ?_⟩
  · rw [hx1]; simp
  · rw [hx1]; simp
  · rw [hx1]; simp


theorem ReadMap_field_stack_discipline_witness :
    (({ NewDecoder ⟨[0x74, 0, 0, 0, 1, 0x77, 0x01, 0x62, 0x61, 0x07], []⟩ with
          fieldStack := [goStr "a"] } : Decoder).ReadMapToUnmarshaler
        (fun (u : Unit) d _ => (u, (d.ReadAnyInt32 0).err, (d.ReadAnyInt32 0).dec))
        ()).dec.fieldStack = [goStr "a"] ∧
    [goStr "a", goStr "b"] = [goStr "a"] ++ [goStr "b"] ∧
    ((NewDecoder ⟨[0x74, 0, 0, 0, 1, 0x77, 0x01, 0x61,
          0x74, 0, 0, 0, 1, 0x77, 0x01, 0x62, 0x61, 0x07], []⟩).ReadMapToUnmarshaler
        (fun (log : List (GoString × List GoString × Option Err)) d _ =>
          (log ++ (d.ReadMapToUnmarshaler
              (logMapCalls (fun (u : Unit) d2 _ =>
                (u, (d2.ReadAnyInt32 0).err, (d2.ReadAnyInt32 0).dec))) ((), [])).val.2,
           (d.ReadMapToUnmarshaler
              (logMapCalls (fun (u : Unit) d2 _ =>
                (u, (d2.ReadAnyInt32 0).err, (d2.ReadAnyInt32 0).dec))) ((), [])).err,
           (d.ReadMapToUnmarshaler
              (logMapCalls (fun (u : Unit) d2 _ =>
                (u, (d2.ReadAnyInt32 0).err, (d2.ReadAnyInt32 0).dec))) ((), [])).dec))
        []).val = [(goStr "b", [goStr "a", goStr "b"], none)] :=
  ⟨(ReadMap_field_stack_discipline
      ({ NewDecoder ⟨[0x74, 0, 0, 0, 1, 0x77, 0x01, 0x62, 0x61, 0x07], []⟩ with
          fieldStack := [goStr "a"] } : Decoder)
      (fun (u : Unit) d _ => (u, (d.ReadAnyInt32 0).err, (d.ReadAnyInt32 0).dec)) ()).2.2.2.2,
   ((ReadMap_field_stack_discipline
      ({ NewDecoder ⟨[0x74, 0, 0, 0, 1, 0x77, 0x01, 0x62, 0x61, 0x07], []⟩ with
          fieldStack := [goStr "a"] } : Decoder)
      (fun (u : Unit) d _ => (u, (d.ReadAnyInt32 0).err, (d.ReadAnyInt32 0).dec)) ()).1
      (goStr "b", [goStr "a", goStr "b"], none) (by decide)).1,
   by decide⟩

/-- C11 (the claim as stated, at two inputs): on `74 00 00 00 01 77 03 66 6F 6F 61 07`
with a callback that consumes the value through `ReadAnyInt32`, the callback is invoked
once, with the key "foo", and the cursor on return is 12, not 11. On the same stream
read through a source whose first two `Read`s deliver 4 and 2 bytes, the key read
keeps the last three bytes delivered: the callback is invoked with the key `6F 61 07`
instead of "foo", finds the stream exhausted, and the reader returns end of input. -/
theorem ReadMap_example_cursor_is_not_11 :
    ((NewDecoder ⟨[0x74, 0, 0, 0, 1, 0x77, 0x03, 0x66, 0x6F, 0x6F, 0x61, 0x07],
        []⟩).ReadMapToUnmarshaler
      (logMapCalls (fun (u : Unit) d _ => (u, (d.ReadAnyInt32 0).err, (d.ReadAnyInt32 0).dec)))
      ((), [])).val.2 = [(goStr "foo", [goStr "foo"], none)] ∧
    ((NewDecoder ⟨[0x74, 0, 0, 0, 1, 0x77, 0x03, 0x66, 0x6F, 0x6F, 0x61, 0x07],
        []⟩).ReadMapToUnmarshaler
      (fun (u : Unit) d _ => (u, (d.ReadAnyInt32 0).err, (d.ReadAnyInt32 0).dec))
      ()).dec.bufReader.data = [] ∧
    ((NewDecoder ⟨[0x74, 0, 0, 0, 1, 0x77, 0x03, 0x66, 0x6F, 0x6F, 0x61, 0x07],
        []⟩).ReadMapToUnmarshaler
      (fun (u : Unit) d _ => (u, (d.ReadAnyInt32 0).err, (d.ReadAnyInt32 0).dec))
      ()).dec.cursor = 12 ∧
    ¬ ((NewDecoder ⟨[0x74, 0, 0, 0, 1, 0x77, 0x03, 0x66, 0x6F, 0x6F, 0x61, 0x07],
        []⟩).ReadMapToUnmarshaler
      (fun (u : Unit) d _ => (u, (d.ReadAnyInt32 0).err, (d.ReadAnyInt32 0).dec))
      ()).dec.cursor = 11 ∧
    ((NewDecoder ⟨[0x74, 0, 0, 0, 1, 0x77, 0x03, 0x66, 0x6F, 0x6F, 0x61, 0x07],
        [4, 2]⟩).ReadMapToUnmarshaler
      (logMapCalls (fun (u : Unit) d _ => (u, (d.ReadAnyInt32 0).err, (d.ReadAnyInt32 0).dec)))
      ((), [])).val.2 = [([0x6F, 0x61, 0x07], [[0x6F, 0x61, 0x07]], some Err.EOF)] ∧
    ¬ ((NewDecoder ⟨[0x74, 0, 0, 0, 1, 0x77, 0x03, 0x66, 0x6F, 0x6F, 0x61, 0x07],
        [4, 2]⟩).ReadMapToUnmarshaler
      (logMapCalls (fun (u : Unit) d _ => (u, (d.ReadAnyInt32 0).err, (d.ReadAnyInt32 0).dec)))
      ((), [])).val.2.map (fun x => x.1) = [goStr "foo"] ∧
    ((NewDecoder ⟨[0x74, 0, 0, 0, 1, 0x77, 0x03, 0x66, 0x6F, 0x6F, 0x61, 0x07],
        [4, 2]⟩).ReadMapToUnmarshaler
      (fun (u : Unit) d _ => (u, (d.ReadAnyInt32 0).err, (d.ReadAnyInt32 0).dec))
      ()).err = some Err.EOF := by
  decide

/-- C11 (amended): for every well-formed map term (tag 116, four-byte big-endian pair
count `N`, then `N` pairs whose keys are atom terms) on a source without short reads
and every map callback that consumes exactly the value term of each pair,
`ReadMapToUnmarshaler` invokes the callback exactly `N` times, the i-th invocation
with the i-th key in wire order, consumes the whole term and returns the error of the
last invocation that returned an error, or none; the invocations are observed through
the logging callback, which changes nothing else. For
`74 00 00 00 01 77 03 66 6F 6F 61 07` the callback is invoked once with "foo" and the
cursor on return is 12. -/
theorem ReadMap_invokes_callback_per_pair {σ : Type} (dec : Decoder)
    (unmarshaler : Unmarshaler σ) (st : σ) (c0 c1 c2 c3 : UInt8) (pairs : List WirePair)
    (rest : List UInt8)
    (hsrc : dec.bufReader.noShortReads)
    (hdata : dec.bufReader.data = 116 :: c0 :: c1 :: c2 :: c3 :: (pairsBytes pairs ++ rest))
    (hcount : c0.toNat * 2 ^ 24 + c1.toNat * 2 ^ 16 + c2.toNat * 2 ^ 8 + c3.toNat = pairs.length)
    (hkeys : ∀ p ∈ pairs, IsAtomTerm p.keyBytes p.key)
    (hcb : ∀ p ∈ pairs, ∀ (s : σ) (d : Decoder) (r : List UInt8),
      d.bufReader = ⟨p.valueBytes ++ r, []⟩ → (unmarshaler s d p.key).2.2.bufReader = ⟨r, []⟩) :
    ((dec.ReadMapToUnmarshaler (logMapCalls unmarshaler) (st, [])).val.2).length = pairs.length ∧
    ((dec.ReadMapToUnmarshaler (logMapCalls unmarshaler) (st, [])).val.2).map (fun x => x.1)
      = pairs.map (fun p => p.key) ∧
    (dec.ReadMapToUnmarshaler unmarshaler st).err
      = lastError (((dec.ReadMapToUnmarshaler (logMapCalls unmarshaler) (st, [])).val.2).map
          (fun x => x.2.2)) ∧
    (dec.ReadMapToUnmarshaler (logMapCalls unmarshaler) (st, [])).val.1
      = (dec.ReadMapToUnmarshaler unmarshaler st).val ∧
    (dec.ReadMapToUnmarshaler (logMapCalls unmarshaler) (st, [])).dec
      = (dec.ReadMapToUnmarshaler unmarshaler st).dec ∧
    (dec.ReadMapToUnmarshaler unmarshaler st).dec.bufReader.data = rest ∧
    ((NewDecoder ⟨[0x74, 0, 0, 0, 1, 0x77, 0x03, 0x66, 0x6F, 0x6F, 0x61, 0x07],
        []⟩).ReadMapToUnmarshaler
      (logMapCalls (fun (u : Unit) d _ => (u, (d.ReadAnyInt32 0).err, (d.ReadAnyInt32 0).dec)))
      ((), [])).val.2.map (fun x => x.1) = [goStr "foo"] ∧
    ((NewDecoder ⟨[0x74, 0, 0, 0, 1, 0x77, 0x03, 0x66, 0x6F, 0x6F, 0x61, 0x07],
        []⟩).ReadMapToUnmarshaler
      (fun (u : Unit) d _ => (u, (d.ReadAnyInt32 0).err, (d.ReadAnyInt32 0).dec))
      ()).dec.cursor = 12 := by
  obtain ⟨_, g2, g3, g4, _⟩ := dec.ReadMap_logMapCalls unmarshaler st
  have hb := Source.eq_of_noShortReads hsrc hdata
  have h1 := dec.readNextTag_cons 116 (c0 :: c1 :: c2 :: c3 :: (pairsBytes pairs ++ rest)) [] hb
  obtain ⟨arr, h2⟩ := Decoder.readUint32_full
    { dec with bufReader := ⟨c0 :: c1 :: c2 :: c3 :: (pairsBytes pairs ++ rest), []⟩,
               cursor := dec.cursor + 1 }
    c0 c1 c2 c3 (pairsBytes pairs ++ rest) rfl
  have hN : c0.toNat * 16777216 + c1.toNat * 65536 + c2.toNat * 256 + c3.toNat = pairs.length := by
    rw [← hcount]
    norm_num
  obtain ⟨tr, t1, t2, t3, t4, t5⟩ := Decoder.mapLoop_pairs unmarshaler dec.fieldStack pairs st []
    none
    { bufReader := ⟨pairsBytes pairs ++ rest, []⟩, cursor := dec.cursor + 1 + 4,
      fieldStack := dec.fieldStack, bufArr := arr, bufLen := 4 } rest hkeys hcb rfl
  have hM : (116 : UInt8) = ETTMap := rfl
  have hlog : (dec.ReadMapToUnmarshaler (logMapCalls unmarshaler) (st, [])).val.2 = tr ∧
      (dec.ReadMapToUnmarshaler (logMapCalls unmarshaler) (st, [])).err
        = lastError (tr.map (fun x => x.2.2)) ∧
      (dec.ReadMapToUnmarshaler (logMapCalls unmarshaler) (st, [])).dec.bufReader
        = ⟨rest, []⟩ := by
    simp only [Decoder.ReadMapToUnmarshaler, h1]
    simp only [hM, ne_eq, not_true_eq_false, if_false, h2, hN]
    refine ⟨?_, ?_, ?_⟩
    · rw [t3]; simp
    · rw [t4]; simp
    · rw [t5]
  obtain ⟨l1, l2, l3⟩ := hlog
  refine ⟨by rw [l1, t1], by rw [l1, t2], by rw [← g3, l2, l1], g2, g4, ?_, by decide,
    by decide⟩
  rw [← g4, l3]


theorem ReadMap_invokes_callback_per_pair_witness :
    ((NewDecoder ⟨[0x74, 0, 0, 0, 2, 0x77, 0x01, 0x61, 0x61, 0x07, 0x64, 0x00, 0x01, 0x62,
        0x61, 0x08, 0x6A], []⟩).ReadMapToUnmarshaler
      (logMapCalls (fun (u : Unit) d _ => (u, (d.ReadAnyInt32 0).err, (d.ReadAnyInt32 0).dec)))
      ((), [])).val.2.map (fun x => x.1) = [goStr "a", goStr "b"] ∧
    ((NewDecoder ⟨[0x74, 0, 0, 0, 2, 0x77, 0x01, 0x61, 0x61, 0x07, 0x64, 0x00, 0x01, 0x62,
        0x61, 0x08, 0x6A], []⟩).ReadMapToUnmarshaler
      (fun (u : Unit) d _ => (u, (d.ReadAnyInt32 0).err, (d.ReadAnyInt32 0).dec))
      ()).dec.bufReader.data = [0x6A] :=
  ⟨(ReadMap_invokes_callback_per_pair
      (NewDecoder ⟨[0x74, 0, 0, 0, 2, 0x77, 0x01, 0x61, 0x61, 0x07, 0x64, 0x00, 0x01, 0x62,
        0x61, 0x08, 0x6A], []⟩)
      (fun (u : Unit) d _ => (u, (d.ReadAnyInt32 0).err, (d.ReadAnyInt32 0).dec)) ()
      0 0 0 2
      [⟨[0x77, 0x01, 0x61], goStr "a", [0x61, 0x07]⟩, ⟨[0x64, 0x00, 0x01, 0x62], goStr "b", [0x61, 0x08]⟩]
      [0x6A] rfl rfl rfl
      (by
        intro p hp
        simp only [List.mem_cons, List.mem_singleton, List.mem_nil_iff, or_false] at hp
        rcases hp with rfl | rfl
        · exact Or.inl ⟨0x77, 0x01, Or.inr rfl, by decide, rfl⟩
        · exact Or.inr ⟨0x64, 0x00, 0x01, Or.inl rfl, by decide, rfl⟩)
      (by
        intro p hp s d r hd
        simp only [List.mem_cons, List.mem_singleton, List.mem_nil_iff, or_false] at hp
        rcases hp with rfl | rfl
        · simp only [Decoder.ReadAnyInt32_small d 0x07 r [] 0 hd]
        · simp only [Decoder.ReadAnyInt32_small d 0x08 r [] 0 hd])).2.1,
   (ReadMap_invokes_callback_per_pair
      (NewDecoder ⟨[0x74, 0, 0, 0, 2, 0x77, 0x01, 0x61, 0x61, 0x07, 0x64, 0x00, 0x01, 0x62,
        0x61, 0x08, 0x6A], []⟩)
      (fun (u : Unit) d _ => (u, (d.ReadAnyInt32 0).err, (d.ReadAnyInt32 0).dec)) ()
      0 0 0 2
      [⟨[0x77, 0x01, 0x61], goStr "a", [0x61, 0x07]⟩, ⟨[0x64, 0x00, 0x01, 0x62], goStr "b", [0x61, 0x08]⟩]
      [0x6A] rfl rfl rfl
      (by
        intro p hp
        simp only [List.mem_cons, List.mem_singleton, List.mem_nil_iff, or_false] at hp
        rcases hp with rfl | rfl
        · exact Or.inl ⟨0x77, 0x01, Or.inr rfl, by decide, rfl⟩
        · exact Or.inr ⟨0x64, 0x00, 0x01, Or.inl rfl, by decide, rfl⟩)
      (by
        intro p hp s d r hd
        simp only [List.mem_cons, List.mem_singleton, List.mem_nil_iff, or_false] at hp
        rcases hp with rfl | rfl
        · simp only [Decoder.ReadAnyInt32_small d 0x07 r [] 0 hd]
        · simp only [Decoder.ReadAnyInt32_small d 0x08 r [] 0 hd])).2.2.2.2.2.1⟩

theorem tagReads_exhausted (k : Nat) :
    ∀ dec : Decoder, dec.bufReader.data = [] → (tagReads k dec).bufReader.data = [] := by
  induction k with
  | zero => intro dec h; exact h
  | succ k ih =>
    intro dec h
    simp only [tagReads, dec.readNextTag_nil h]
    exact ih _ h

/-- With an exhausted source every remaining pass of the pair loop fails to read a
key, tries to skip, and goes on: two more tag reads per pass, no callback. -/
theorem Decoder.mapLoop_exhausted {σ : Type} (unmarshaler : Unmarshaler σ) (S : List GoString)
    (n : Nat) :
    ∀ (st : σ) (err : Option Err) (dec : Decoder), dec.bufReader.data = [] →
      mapLoop unmarshaler S n st err dec
        = (st, (if n = 0 then err else some Err.EOF), tagReads (2 * n) dec) := by
  induction n with
  | zero => intro st err dec _; rfl
  | succ n ih =>
    intro st err dec h
    have h2 : 2 * (n + 1) = (2 * n + 1) + 1 := by omega
    have hd1 : ({ dec with cursor := dec.cursor + 1 } : Decoder).bufReader.data = [] := h
    rw [h2]
    simp only [Decoder.mapLoop, dec.ReadAnyAtom_nil [] h, Decoder.skipAny_nil _ hd1, tagReads,
      dec.readNextTag_nil h, Decoder.readNextTag_nil _ hd1]
    rw [ih st (some Err.EOF) { dec with cursor := dec.cursor + 1 + 1 } h]
    simp


/-- C13 (the example as the claim states it): on the 5-byte stream `74 00 00 00 02`
`ReadMapToUnmarshaler` returns the end-of-input error with the cursor at 9, beyond the
5 bytes the stream contained: after the first failed key read it made three more tag
reads (one to skip, two for the second pair). -/
theorem ReadMap_example_cursor_is_not_5 :
    ((NewDecoder ⟨[0x74, 0, 0, 0, 2], []⟩).ReadMapToUnmarshaler
      (fun (u : Unit) d _ => (u, (d.ReadAnyInt32 0).err, (d.ReadAnyInt32 0).dec)) ()).err
      = some Err.EOF ∧
    ((NewDecoder ⟨[0x74, 0, 0, 0, 2], []⟩).ReadMapToUnmarshaler
      (fun (u : Unit) d _ => (u, (d.ReadAnyInt32 0).err, (d.ReadAnyInt32 0).dec)) ()).dec.cursor
      = 9 ∧
    ¬ ((NewDecoder ⟨[0x74, 0, 0, 0, 2], []⟩).ReadMapToUnmarshaler
      (fun (u : Unit) d _ => (u, (d.ReadAnyInt32 0).err, (d.ReadAnyInt32 0).dec)) ()).dec.cursor
      ≤ [0x74, 0, 0, 0, (2 : UInt8)].length := by
  decide

/-- C13 (amended): when the byte source is exhausted as `ReadMapToUnmarshaler` tries to
read a pair's key, the reader does not stop. For each of the `n` remaining pairs the
key read fails with end of input, a skip is attempted (a second tag read, which fails
too) and the loop goes on: the callback is not invoked, the result state is untouched,
`2 * n` tag reads are made and the end-of-input error is returned. On a stream that
ends right after the count `N` (source without short reads) the reader therefore
returns the end-of-input error when `N > 0`, and for `74 00 00 00 02` it returns the
end-of-input error after four failed tag reads. -/
theorem ReadMap_on_exhausted_source {σ : Type} (unmarshaler : Unmarshaler σ) (st : σ) :
    (∀ (S : List GoString) (n : Nat) (err : Option Err) (dec : Decoder),
      dec.bufReader.data = [] →
      mapLoop unmarshaler S n st err dec
        = (st, (if n = 0 then err else some Err.EOF), tagReads (2 * n) dec)) ∧
    (∀ (dec : Decoder) (c0 c1 c2 c3 : UInt8), dec.bufReader.noShortReads →
      dec.bufReader.data = [116, c0, c1, c2, c3] →
      (dec.ReadMapToUnmarshaler unmarshaler st).val = st ∧
      (dec.ReadMapToUnmarshaler unmarshaler st).err
        = (if c0.toNat * 2 ^ 24 + c1.toNat * 2 ^ 16 + c2.toNat * 2 ^ 8 + c3.toNat = 0 then none
           else some Err.EOF) ∧
      ∃ d5 : Decoder, d5.bufReader.data = [] ∧
        (dec.ReadMapToUnmarshaler unmarshaler st).dec
          = tagReads (2 * (c0.toNat * 2 ^ 24 + c1.toNat * 2 ^ 16 + c2.toNat * 2 ^ 8 + c3.toNat))
              d5) ∧
    ((NewDecoder ⟨[0x74, 0, 0, 0, 2], []⟩).ReadMapToUnmarshaler unmarshaler st).err
      = some Err.EOF ∧
    ((NewDecoder ⟨[0x74, 0, 0, 0, 2], []⟩).ReadMapToUnmarshaler unmarshaler st).val = st := by
  have part2 : ∀ (dec : Decoder) (c0 c1 c2 c3 : UInt8), dec.bufReader.noShortReads →
      dec.bufReader.data = [116, c0, c1, c2, c3] →
      (dec.ReadMapToUnmarshaler unmarshaler st).val = st ∧
      (dec.ReadMapToUnmarshaler unmarshaler st).err
        = (if c0.toNat * 2 ^ 24 + c1.toNat * 2 ^ 16 + c2.toNat * 2 ^ 8 + c3.toNat = 0 then none
           else some Err.EOF) ∧
      ∃ d5 : Decoder, d5.bufReader.data = [] ∧
        (dec.ReadMapToUnmarshaler unmarshaler st).dec
          = tagReads (2 * (c0.toNat * 2 ^ 24 + c1.toNat * 2 ^ 16 + c2.toNat * 2 ^ 8 + c3.toNat))
              d5 := by
    intro dec c0 c1 c2 c3 hsrc hdata
    have hb := Source.eq_of_noShortReads hsrc hdata
    have h1 := dec.readNextTag_cons 116 [c0, c1, c2, c3] [] hb
    obtain ⟨arr, h2⟩ := Decoder.readUint32_full
      { dec with bufReader := ⟨[c0, c1, c2, c3], []⟩, cursor := dec.cursor + 1 }
      c0 c1 c2 c3 [] rfl
    have hM : (116 : UInt8) = ETTMap := rfl
    have hN : c0.toNat * 2 ^ 24 + c1.toNat * 2 ^ 16 + c2.toNat * 2 ^ 8 + c3.toNat
        = c0.toNat * 16777216 + c1.toNat * 65536 + c2.toNat * 256 + c3.toNat := by norm_num
    have hL := Decoder.mapLoop_exhausted unmarshaler dec.fieldStack
      (c0.toNat * 16777216 + c1.toNat * 65536 + c2.toNat * 256 + c3.toNat) st none
      { bufReader := ⟨[], []⟩, cursor := dec.cursor + 1 + 4, fieldStack := dec.fieldStack,
        bufArr := arr, bufLen := 4 } rfl
    simp only [Decoder.ReadMapToUnmarshaler, h1]
    simp only [hM, ne_eq, not_true_eq_false, if_false, h2, hL, hN]
    exact ⟨trivial, trivial, _, rfl, rfl⟩
  refine ⟨fun S n err dec h => Decoder.mapLoop_exhausted unmarshaler S n st err dec h, part2,
    ?_, ?_⟩
  · have := (part2 (NewDecoder ⟨[0x74, 0, 0, 0, 2], []⟩) 0 0 0 2 rfl rfl).2.1
    rw [this]
    rfl
  · exact (part2 (NewDecoder ⟨[0x74, 0, 0, 0, 2], []⟩) 0 0 0 2 rfl rfl).1

theorem ReadMap_on_exhausted_source_witness :
    ((NewDecoder ⟨[0x74, 0, 0, 0, 3], []⟩).ReadMapToUnmarshaler
      (fun (u : Unit) d _ => (u, (d.ReadAnyInt32 0).err, (d.ReadAnyInt32 0).dec)) ()).err
      = some Err.EOF ∧
    mapLoop (fun (u : Unit) d _ => (u, (d.ReadAnyInt32 0).err, (d.ReadAnyInt32 0).dec)) [] 2 ()
      none (NewDecoder ⟨[], []⟩) = ((), some Err.EOF, tagReads 4 (NewDecoder ⟨[], []⟩)) :=
  ⟨((ReadMap_on_exhausted_source
      (fun (u : Unit) d _ => (u, (d.ReadAnyInt32 0).err, (d.ReadAnyInt32 0).dec)) ()).2.1
      (NewDecoder ⟨[0x74, 0, 0, 0, 3], []⟩) 0 0 0 3 rfl rfl).2.1,
   (ReadMap_on_exhausted_source
      (fun (u : Unit) d _ => (u, (d.ReadAnyInt32 0).err, (d.ReadAnyInt32 0).dec)) ()).1
      [] 2 none (NewDecoder ⟨[], []⟩) rfl⟩


/-! ## End of input -/

theorem Source.Read_length_le (s : Source) (k : Nat) :
    (s.Read k).1.length ≤ s.data.length ∧
    (s.Read k).2.2.data = s.data.drop (s.Read k).1.length ∧
    (s.Read k).1 = s.data.take (s.Read k).1.length ∧
    (s.Read k).1.length ≤ k := by
  unfold Source.Read
  by_cases hk : k = 0
  · simp [hk]
  · by_cases hd : s.data = []
    · simp [hk, hd]
    · simp only [hk, hd, if_false, List.length_take, Source.readCount]
      cases s.sched with
      | nil =>
        simp only []
        refine ⟨by omega, by simp, by simp, by omega⟩
      | cons c cs =>
        simp only []
        refine ⟨by omega, by simp, by simp, by omega⟩

/-- When fewer than `l - n` bytes are left, the read loop ends with `io.EOF`,
whatever the read schedule of the source. -/
theorem Decoder.readLoop_eof (fuel : Nat) :
    ∀ (dec : Decoder) (l n : Nat), dec.bufLen = l → n + dec.bufReader.data.length < l →
      dec.bufReader.data.length < fuel → (readLoop fuel dec l n).1 = some Err.EOF := by
  induction fuel with
  | zero => intro dec l n _ _ hf; omega
  | succ fuel ih =>
    intro dec l n hb hlt hf
    have hnl : n < l := by omega
    have hprog := Source.Read_progress dec.bufReader dec.bufLen (by omega)
    obtain ⟨hle, hdrop, _, _⟩ := Source.Read_length_le dec.bufReader dec.bufLen
    by_cases hd : dec.bufReader.data = []
    · have hR : dec.bufReader.Read dec.bufLen = ([], some Err.EOF, dec.bufReader) := by
        have hk : dec.bufLen ≠ 0 := by omega
        simp [Source.Read, hk, hd]
      simp only [Decoder.readLoop, hnl, if_true, hR]
    · rcases hR : dec.bufReader.Read dec.bufLen with ⟨bs, err, s⟩
      rw [hR] at hprog hle hdrop
      cases err with
      | some e =>
        have hk : dec.bufLen ≠ 0 := by omega
        simp [Source.Read, hk, hd] at hR
      | none =>
        simp only [Decoder.readLoop, hnl, if_true, hR]
        have hpos : 0 < bs.length := hprog rfl
        have hlen : s.data.length = dec.bufReader.data.length - bs.length := by
          have : s.data = dec.bufReader.data.drop bs.length := hdrop
          rw [this, List.length_drop]
        have hle2 : bs.length ≤ dec.bufReader.data.length := hle
        apply ih
        · exact hb
        · simp only []
          rw [hlen]
          omega
        · simp only []
          rw [hlen]
          omega

theorem Decoder.readIntoBuf_eof (dec : Decoder) (l : Nat) (h : dec.bufReader.data.length < l) :
    (dec.readIntoBuf l).err = some Err.EOF := by
  unfold Decoder.readIntoBuf
  have hE := Decoder.readLoop_eof l (dec.resizeBuf l) l 0 (dec.resizeBuf_bufLen l)
    (by rw [Decoder.resizeBuf_bufReader]; omega) (by rw [Decoder.resizeBuf_bufReader]; exact h)
  rcases hL : readLoop l (dec.resizeBuf l) l 0 with ⟨e, d⟩
  rw [hL] at hE
  exact hE

theorem Decoder.readUint32_eof (dec : Decoder) (h : dec.bufReader.data.length < 4) :
    dec.readUint32.err = some Err.EOF := by
  unfold Decoder.readUint32
  simp only [dec.readIntoBuf_eof 4 h]

theorem Decoder.readUint16_eof (dec : Decoder) (h : dec.bufReader.data.length < 2) :
    dec.readUint16.err = some Err.EOF := by
  unfold Decoder.readUint16
  simp only [dec.readIntoBuf_eof 2 h]


theorem Decoder.listLoop_no_error {σ : Type} (unmarshaler : ListUnmarshaler σ)
    (hok : ∀ (s : σ) (d : Decoder), (unmarshaler s d).2.1 = none) (n : Nat) :
    ∀ (st : σ) (err : Option Err) (dec : Decoder),
      (listLoop unmarshaler n st err dec).2.1 = err := by
  induction n with
  | zero => intro st err dec; rfl
  | succ n ih =>
    intro st err dec
    have h := hok st dec
    rcases hcb : unmarshaler st dec with ⟨s1, e, d1⟩
    rw [hcb] at h
    simp only [] at h
    subst h
    simp only [Decoder.listLoop, hcb]
    exact ih s1 err d1

/-- C14 (the example as the claim states it): on `6C 00 00 00 01 61 07`, a list of one
element with no tail term after it, with a callback that reads the element through
`ReadAnyInt32`, the callback succeeds, the stream is exhausted when the tail is to be
skipped, and `ReadList` returns no error. -/
theorem ReadList_missing_tail_returns_no_error :
    ((NewDecoder ⟨[0x6C, 0, 0, 0, 1, 0x61, 0x07], []⟩).ReadList
      (logCalls (fun (u : Unit) d => (u, (d.ReadAnyInt32 0).err, (d.ReadAnyInt32 0).dec)))
      ((), [])).val.2 = [none] ∧
    ((NewDecoder ⟨[0x6C, 0, 0, 0, 1, 0x61, 0x07], []⟩).ReadList
      (fun (u : Unit) d => (u, (d.ReadAnyInt32 0).err, (d.ReadAnyInt32 0).dec))
      ()).dec.bufReader.data = [] ∧
    ((NewDecoder ⟨[0x6C, 0, 0, 0, 1, 0x61, 0x07], []⟩).ReadList
      (fun (u : Unit) d => (u, (d.ReadAnyInt32 0).err, (d.ReadAnyInt32 0).dec)) ()).err = none ∧
    ¬ ((NewDecoder ⟨[0x6C, 0, 0, 0, 1, 0x61, 0x07], []⟩).ReadList
      (fun (u : Unit) d => (u, (d.ReadAnyInt32 0).err, (d.ReadAnyInt32 0).dec)) ()).err
      = some Err.EOF := by
  decide

/-! ## Old floats, error rendering, cursor on failure, short reads -/

/-- A FLOAT term (tag 99, 31 body bytes) on a source without short reads: the body is
read and the scan reports its error for every body; the destination is untouched. -/
theorem Decoder.ReadAnyFloat64_float (dec : Decoder) (body rest : List UInt8) (dst : Nat)
    (hlen : body.length = 31) (h : dec.bufReader = ⟨99 :: (body ++ rest), []⟩) :
    (dec.ReadAnyFloat64 dst).err = some Err.ScanType ∧ (dec.ReadAnyFloat64 dst).val = dst ∧
    (dec.ReadAnyFloat64 dst).dec.bufReader = ⟨rest, []⟩ ∧
    (dec.ReadAnyFloat64 dst).dec.cursor = dec.cursor + 32 := by
  have h1 := dec.readNextTag_cons 99 (body ++ rest) [] h
  obtain ⟨arr, h2⟩ := Decoder.readIntoBuf_full
    { dec with bufReader := ⟨body ++ rest, []⟩, cursor := dec.cursor + 1 } body rest rfl
  rw [hlen] at h2
  have hF : (99 : UInt8) = ETTFloat := rfl
  simp only [Decoder.ReadAnyFloat64, h1]
  simp only [hF, if_true, h2, Decoder.sscanfFloat]
  exact ⟨trivial, trivial, trivial, trivial⟩

/-- C15 (the code at the failing input): on the FLOAT term made of tag 99 and the
31-byte body `1.50000000000000000000e+00` padded with five zero bytes, the text Erlang
emits for 1.5, `ReadAnyFloat64` returns the scan error and leaves the destination as
it was (here the bits `7`). -/
theorem ReadAnyFloat64_old_float_always_errors :
    (goStr "1.50000000000000000000e+00" ++ [0, 0, 0, 0, 0]).length = 31 ∧
    ((NewDecoder ⟨[99] ++ goStr "1.50000000000000000000e+00" ++ [0, 0, 0, 0, 0],
      []⟩).ReadAnyFloat64 7).err = some Err.ScanType ∧
    ((NewDecoder ⟨[99] ++ goStr "1.50000000000000000000e+00" ++ [0, 0, 0, 0, 0],
      []⟩).ReadAnyFloat64 7).val = 7 := by
  decide

/-- The rendering of an invalid-tag error does not depend on its field stack. -/
theorem InvalidTermTagError.Error_eq (i : InvalidTermTagError) :
    i.Error = goStr "Unexpected term tag at " ++ decimal i.Cursor ++ goStr " in "
      ++ goStr i.Caller ++ goStr ": " ++ TermTag.String i.Tag := rfl

/-- C16 (the code at the failing input): for the error with field stack `["a", "b"]`,
tag 106, caller "ReadAnyAtom" and cursor 1, `Error()` returns
"Unexpected term tag at 1 in ReadAnyAtom: ETTNil", without the prefix "a: b: ". -/
theorem InvalidTermTagError_Error_drops_field_stack :
    InvalidTermTagError.Error
        { FieldStack := [goStr "a", goStr "b"], Tag := 106, Caller := "ReadAnyAtom", Cursor := 1 }
      = goStr "Unexpected term tag at 1 in ReadAnyAtom: ETTNil" ∧
    InvalidTermTagError.Error
        { FieldStack := [goStr "a", goStr "b"], Tag := 106, Caller := "ReadAnyAtom", Cursor := 1 }
      ≠ goStr "a: b: Unexpected term tag at 1 in ReadAnyAtom: ETTNil" ∧
    stringsJoin [goStr "a", goStr "b"] (goStr ": ") ++ goStr ": " = goStr "a: b: " := by
  decide

/-- C18 (the code at the failing input): a read that fails on an empty stream leaves
the cursor at 1 although no byte was consumed (`ReadVersion`, `ReadAnyAtom`,
`ReadAnyInt32`); on the one-byte stream `73` the failed `ReadAnyAtom` leaves the
cursor at 2. An end of input in the middle of a payload (`73 05 01 02`) leaves the
cursor at 4, the number of bytes consumed. -/
theorem cursor_counts_failed_byte_reads :
    ((NewDecoder ⟨[], []⟩).ReadVersion 0).err = some Err.EOF ∧
    ((NewDecoder ⟨[], []⟩).ReadVersion 0).dec.cursor = 1 ∧
    ((NewDecoder ⟨[], []⟩).ReadAnyAtom []).err = some Err.EOF ∧
    ((NewDecoder ⟨[], []⟩).ReadAnyAtom []).dec.cursor = 1 ∧
    ((NewDecoder ⟨[], []⟩).ReadAnyInt32 0).dec.cursor = 1 ∧
    ((NewDecoder ⟨[0x73], []⟩).ReadAnyAtom []).err = some Err.EOF ∧
    ((NewDecoder ⟨[0x73], []⟩).ReadAnyAtom []).dec.bufReader.data = [] ∧
    ((NewDecoder ⟨[0x73], []⟩).ReadAnyAtom []).dec.cursor = 2 ∧
    ((NewDecoder ⟨[0x73, 0x05, 0x01, 0x02], []⟩).ReadAnyAtom []).err = some Err.EOF ∧
    ((NewDecoder ⟨[0x73, 0x05, 0x01, 0x02], []⟩).ReadAnyAtom []).dec.cursor = 4 := by
  decide

/-- C19 (the code at the failing input): `readIntoBuf 4` on the stream
`01 02 03 04 05 06 07` whose first `Read` delivers 3 bytes succeeds, but it has
consumed 7 bytes, moved the cursor by 7, and the scratch slice holds `04 05 06 07`
instead of `01 02 03 04`; on the stream `01 02 03 04` with the same first `Read` it
consumes 4 bytes and leaves `04 02 03 00` in the scratch slice. -/
theorem readIntoBuf_short_read_overruns :
    ((NewDecoder ⟨[1, 2, 3, 4, 5, 6, 7], [3]⟩).readIntoBuf 4).err = none ∧
    ((NewDecoder ⟨[1, 2, 3, 4, 5, 6, 7], [3]⟩).readIntoBuf 4).dec.bufReader.data = [] ∧
    ((NewDecoder ⟨[1, 2, 3, 4, 5, 6, 7], [3]⟩).readIntoBuf 4).dec.cursor = 7 ∧
    ((NewDecoder ⟨[1, 2, 3, 4, 5, 6, 7], [3]⟩).readIntoBuf 4).dec.buf = [4, 5, 6, 7] ∧
    ((NewDecoder ⟨[1, 2, 3, 4, 5, 6, 7], [3]⟩).readIntoBuf 4).dec.buf.length = 4 ∧
    ((NewDecoder ⟨[1, 2, 3, 4], [3]⟩).readIntoBuf 4).err = none ∧
    ((NewDecoder ⟨[1, 2, 3, 4], [3]⟩).readIntoBuf 4).dec.cursor = 4 ∧
    ((NewDecoder ⟨[1, 2, 3, 4], [3]⟩).readIntoBuf 4).dec.buf = [4, 2, 3, 0] := by
  decide


/-! ## Encode, then decode -/

theorem Encoder.WriteAtomUTF8_out (enc : Encoder) (s : GoString) (hw : enc.writer.acceptsAll) :
    (enc.WriteAtomUTF8 s).1 = none ∧
    (enc.WriteAtomUTF8 s).2.writer.out = enc.writer.out ++
      (118 :: toByte (s.length % 65536 / 256) :: toByte (s.length % 65536) :: s) := by
  simp only [Writer.acceptsAll] at hw
  simp [Encoder.WriteAtomUTF8, Writer.Write, hw, putUint16, ETTAtomUTF8]

theorem Encoder.WriteBinaryString_out (enc : Encoder) (s : GoString)
    (hw : enc.writer.acceptsAll) :
    (enc.WriteBinaryString s).1 = none ∧
    (enc.WriteBinaryString s).2.writer.out = enc.writer.out ++
      (109 :: toByte (s.length % 4294967296 / 16777216) :: toByte (s.length % 4294967296 / 65536)
        :: toByte (s.length % 4294967296 / 256) :: toByte (s.length % 4294967296) :: s) := by
  simp only [Writer.acceptsAll] at hw
  simp [Encoder.WriteBinaryString, Writer.Write, hw, putUint32, ETTBinary]

/-- C20 (the claim as stated, at a long string): for the string of 65536 zero bytes
`WriteAtomUTF8` writes the length field `00 00`, and `ReadAnyAtom` on the bytes written
returns the empty string with no error, leaving the 65536 payload bytes unread. -/
theorem encode_decode_long_atom_truncated :
    ((NewEncoder ⟨[], none⟩).WriteAtomUTF8 (List.replicate 65536 0)).2.writer.out
      = 118 :: 0 :: 0 :: List.replicate 65536 0 ∧
    ((NewDecoder ⟨((NewEncoder ⟨[], none⟩).WriteAtomUTF8 (List.replicate 65536 0)).2.writer.out,
      []⟩).ReadAnyAtom []).err = none ∧
    ((NewDecoder ⟨((NewEncoder ⟨[], none⟩).WriteAtomUTF8 (List.replicate 65536 0)).2.writer.out,
      []⟩).ReadAnyAtom []).val = [] ∧
    ((NewDecoder ⟨((NewEncoder ⟨[], none⟩).WriteAtomUTF8 (List.replicate 65536 0)).2.writer.out,
      []⟩).ReadAnyAtom []).val ≠ List.replicate 65536 0 ∧
    ((NewDecoder ⟨((NewEncoder ⟨[], none⟩).WriteAtomUTF8 (List.replicate 65536 0)).2.writer.out,
      []⟩).ReadAnyAtom []).dec.bufReader.data = List.replicate 65536 0 := by
  have hout : ((NewEncoder ⟨[], none⟩).WriteAtomUTF8 (List.replicate 65536 0)).2.writer.out
      = 118 :: 0 :: 0 :: List.replicate 65536 0 := by
    rw [(Encoder.WriteAtomUTF8_out (NewEncoder ⟨[], none⟩) (List.replicate 65536 0) rfl).2]
    rw [List.length_replicate]
    rfl
  obtain ⟨arr, ha⟩ := Decoder.ReadAnyAtom_wide
    (NewDecoder ⟨118 :: 0 :: 0 :: List.replicate 65536 0, []⟩) 118 0 0 [] (List.replicate 65536 0)
    [] (Or.inr (Or.inl rfl)) rfl rfl
  rw [hout, ha]
  refine ⟨rfl, rfl, rfl, ?_, rfl⟩
  intro h
  have h2 : ([] : List UInt8).length = (List.replicate 65536 (0 : UInt8)).length :=
    congrArg List.length h
  rw [List.length_replicate, List.length_nil] at h2
  omega

/-- C20 (amended): encode-then-decode is the identity on values within the range of
the length fields. For every string `s` of at most 65535 bytes, `ReadAnyAtom` applied
to the bytes written by `WriteAtomUTF8 s` returns `s` with no error and consumes all of
them; for every string `s` of at most `2^32 - 1` bytes, `ReadAnyString` applied to the
bytes written by `WriteBinaryString s` returns `s` with no error and consumes all of
them (writer accepting all bytes, source without short reads). -/
theorem encode_decode_identity (enc : Encoder) (s output : GoString)
    (hw : enc.writer.acceptsAll) (hfresh : enc.writer.out = []) :
    (s.length ≤ 65535 →
      (enc.WriteAtomUTF8 s).1 = none ∧
      ((NewDecoder ⟨(enc.WriteAtomUTF8 s).2.writer.out, []⟩).ReadAnyAtom output).err = none ∧
      ((NewDecoder ⟨(enc.WriteAtomUTF8 s).2.writer.out, []⟩).ReadAnyAtom output).val = s ∧
      ((NewDecoder ⟨(enc.WriteAtomUTF8 s).2.writer.out, []⟩).ReadAnyAtom
        output).dec.bufReader.data = []) ∧
    (s.length ≤ 2 ^ 32 - 1 →
      (enc.WriteBinaryString s).1 = none ∧
      ((NewDecoder ⟨(enc.WriteBinaryString s).2.writer.out, []⟩).ReadAnyString output).err
        = none ∧
      ((NewDecoder ⟨(enc.WriteBinaryString s).2.writer.out, []⟩).ReadAnyString output).val = s ∧
      ((NewDecoder ⟨(enc.WriteBinaryString s).2.writer.out, []⟩).ReadAnyString
        output).dec.bufReader.data = []) := by
  constructor
  · intro hlen
    obtain ⟨e1, e2⟩ := enc.WriteAtomUTF8_out s hw
    rw [hfresh, List.nil_append] at e2
    have t1 := toByte_toNat (s.length % 65536 / 256)
    have t2 := toByte_toNat (s.length % 65536)
    obtain ⟨arr, ha⟩ := Decoder.ReadAnyAtom_wide
      (NewDecoder ⟨118 :: toByte (s.length % 65536 / 256) :: toByte (s.length % 65536) :: s, []⟩)
      118 (toByte (s.length % 65536 / 256)) (toByte (s.length % 65536)) s [] output
      (Or.inr (Or.inl rfl)) (by rw [t1, t2]; omega) (by simp [NewDecoder])
    rw [e2, ha]
    exact ⟨e1, rfl, rfl, rfl⟩
  · intro hlen
    obtain ⟨e1, e2⟩ := enc.WriteBinaryString_out s hw
    rw [hfresh, List.nil_append] at e2
    have t0 := toByte_toNat (s.length % 4294967296 / 16777216)
    have t1 := toByte_toNat (s.length % 4294967296 / 65536)
    have t2 := toByte_toNat (s.length % 4294967296 / 256)
    have t3 := toByte_toNat (s.length % 4294967296)
    have hlen2 : s.length ≤ 4294967295 := by
      have : (2 : Nat) ^ 32 - 1 = 4294967295 := by norm_num
      omega
    obtain ⟨arr, ha⟩ := Decoder.ReadAnyString_binary
      (NewDecoder ⟨109 :: toByte (s.length % 4294967296 / 16777216)
        :: toByte (s.length % 4294967296 / 65536) :: toByte (s.length % 4294967296 / 256)
        :: toByte (s.length % 4294967296) :: s, []⟩)
      (toByte (s.length % 4294967296 / 16777216)) (toByte (s.length % 4294967296 / 65536))
      (toByte (s.length % 4294967296 / 256)) (toByte (s.length % 4294967296)) s [] output
      (by rw [t0, t1, t2, t3]; omega) (by simp [NewDecoder, ETTBinary])
    rw [e2, ha]
    exact ⟨e1, rfl, rfl, rfl⟩

theorem encode_decode_identity_witness :
    ((NewDecoder ⟨((NewEncoder ⟨[], none⟩).WriteAtomUTF8 (goStr "Hello world")).2.writer.out,
      []⟩).ReadAnyAtom []).val = goStr "Hello world" ∧
    ((NewDecoder ⟨((NewEncoder ⟨[], none⟩).WriteBinaryString (goStr "Hello world")).2.writer.out,
      []⟩).ReadAnyString []).val = goStr "Hello world" :=
  ⟨((encode_decode_identity (NewEncoder ⟨[], none⟩) (goStr "Hello world") [] rfl rfl).1
      (by decide)).2.2.1,
   ((encode_decode_identity (NewEncoder ⟨[], none⟩) (goStr "Hello world") [] rfl rfl).2
      (by decide)).2.2.1⟩


/-! ## Successful reads on a source without short reads -/

theorem Decoder.readIntoBuf_noShort (dec : Decoder) (data : List UInt8) (l : Nat)
    (hb : dec.bufReader = ⟨data, []⟩) (hl : l ≤ data.length) :
    ∃ arr, dec.readIntoBuf l =
      { val := (), err := none,
        dec := { bufReader := ⟨data.drop l, []⟩, cursor := dec.cursor + l,
                 fieldStack := dec.fieldStack, bufArr := data.take l ++ arr, bufLen := l } } := by
  have hlen : (data.take l).length = l := by
    rw [List.length_take]; omega
  obtain ⟨arr, ha⟩ := dec.readIntoBuf_full (data.take l) (data.drop l)
    (by rw [List.take_append_drop]; exact hb)
  rw [hlen] at ha
  exact ⟨arr, ha⟩

theorem Decoder.readUint16_noShort (dec : Decoder) (data : List UInt8)
    (hb : dec.bufReader = ⟨data, []⟩) (hl : 2 ≤ data.length) :
    ∃ arr, dec.readUint16 =
      { val := beUint16 data, err := none,
        dec := { bufReader := ⟨data.drop 2, []⟩, cursor := dec.cursor + 2,
                 fieldStack := dec.fieldStack, bufArr := arr, bufLen := 2 } } := by
  match data, hl, hb with
  | hi :: lo :: rest, _, hb =>
    obtain ⟨arr, ha⟩ := dec.readUint16_full hi lo rest hb
    refine ⟨arr, ?_⟩
    rw [ha]
    simp [Decoder.beUint16]
    omega

theorem Decoder.readUint32_noShort (dec : Decoder) (data : List UInt8)
    (hb : dec.bufReader = ⟨data, []⟩) (hl : 4 ≤ data.length) :
    ∃ arr, dec.readUint32 =
      { val := beUint32 data, err := none,
        dec := { bufReader := ⟨data.drop 4, []⟩, cursor := dec.cursor + 4,
                 fieldStack := dec.fieldStack, bufArr := arr, bufLen := 4 } } := by
  match data, hl, hb with
  | b0 :: b1 :: b2 :: b3 :: rest, _, hb =>
    obtain ⟨arr, ha⟩ := dec.readUint32_full b0 b1 b2 b3 rest hb
    refine ⟨arr, ?_⟩
    rw [ha]
    simp [Decoder.beUint32]
    omega

theorem drop_after_tag (tag : UInt8) (r : List UInt8) (a l : Nat) :
    List.drop (1 + a + l) (tag :: r) = List.drop l (List.drop a r) := by
  rw [List.drop_drop, show 1 + a + l = (a + l) + 1 by omega, List.drop_succ_cons]

theorem drop_after_tag_byte (tag n : UInt8) (r : List UInt8) (l : Nat) :
    List.drop (1 + 1 + l) (tag :: n :: r) = List.drop l r := by
  rw [show 1 + 1 + l = (l + 1) + 1 by omega, List.drop_succ_cons, List.drop_succ_cons]

theorem wireSize_small (tag : UInt8) (h : tag = ETTSmallAtom ∨ tag = ETTSmallAtomUTF8)
    (n : UInt8) (r : List UInt8) : wireSize (tag :: n :: r) = 1 + 1 + n.toNat := by
  rcases h with rfl | rfl <;> rfl

theorem wireSize_wide (tag : UInt8) (h : tag = ETTAtom ∨ tag = ETTAtomUTF8 ∨ tag = ETTString)
    (r : List UInt8) : wireSize (tag :: r) = 1 + 2 + beUint16 r := by
  rcases h with rfl | rfl | rfl <;> rfl

theorem Decoder.ReadAnyAtom_advanced (dec : Decoder) (output : GoString) (data : List UInt8)
    (hb : dec.bufReader = ⟨data, []⟩) (he : (dec.ReadAnyAtom output).err = none) :
    (dec.ReadAnyAtom output).advanced dec (wireSize data) := by
  have hdata : dec.bufReader.data = data := by rw [hb]
  cases data with
  | nil =>
    rw [dec.ReadAnyAtom_nil output hdata] at he
    cases he
  | cons tag r =>
    have h1 := dec.readNextTag_cons tag r [] hb
    by_cases hA : tag = ETTAtom ∨ tag = ETTAtomUTF8 ∨ tag = ETTString
    · by_cases h2 : 2 ≤ r.length
      · obtain ⟨arr, hu⟩ := Decoder.readUint16_noShort
          { dec with bufReader := ⟨r, []⟩, cursor := dec.cursor + 1 } r rfl h2
        by_cases h3 : beUint16 r ≤ (r.drop 2).length
        · obtain ⟨arr2, hi⟩ := Decoder.readIntoBuf_noShort
            { bufReader := ⟨r.drop 2, []⟩, cursor := dec.cursor + 1 + 2,
              fieldStack := dec.fieldStack, bufArr := arr, bufLen := 2 } (r.drop 2) (beUint16 r)
            rfl h3
          simp only [Decoder.ReadAnyAtom, h1, hA, if_true, hu, hi, Ret.advanced, hdata,
            wireSize_wide tag hA]
          rw [List.length_drop] at h3
          refine ⟨by omega, (drop_after_tag tag r 2 (beUint16 r)).symm, ?_⟩
          simp only [List.length_cons]
          omega
        · have herr := Decoder.readIntoBuf_eof
            { bufReader := ⟨r.drop 2, []⟩, cursor := dec.cursor + 1 + 2,
              fieldStack := dec.fieldStack, bufArr := arr, bufLen := 2 } (beUint16 r)
            (by simpa using h3)
          simp only [Decoder.ReadAnyAtom, h1, hA, if_true, hu, herr] at he
          cases he
      · have herr := Decoder.readUint16_eof
          { dec with bufReader := ⟨r, []⟩, cursor := dec.cursor + 1 } (by simpa using h2)
        simp only [Decoder.ReadAnyAtom, h1, hA, if_true, herr] at he
        cases he
    · by_cases hB : tag = ETTSmallAtom ∨ tag = ETTSmallAtomUTF8
      · cases r with
        | nil =>
          have hn := Decoder.readNextByte_nil
            { dec with bufReader := ⟨[], []⟩, cursor := dec.cursor + 1 } rfl
          simp only [Decoder.ReadAnyAtom, h1, hA, hB, if_false, if_true, hn] at he
          cases he
        | cons n r2 =>
          have hn := Decoder.readNextByte_cons
            { dec with bufReader := ⟨n :: r2, []⟩, cursor := dec.cursor + 1 } n r2 [] rfl
          by_cases h3 : n.toNat ≤ r2.length
          · obtain ⟨arr2, hi⟩ := Decoder.readIntoBuf_noShort
              { dec with bufReader := ⟨r2, []⟩, cursor := dec.cursor + 1 + 1 } r2 n.toNat rfl h3
            simp only [Decoder.ReadAnyAtom, h1, hA, hB, if_false, if_true, hn, hi, Ret.advanced,
              hdata, wireSize_small tag hB]
            refine ⟨by omega, (drop_after_tag_byte tag n r2 n.toNat).symm, ?_⟩
            simp only [List.length_cons]
            omega
          · have herr := Decoder.readIntoBuf_eof
              { dec with bufReader := ⟨r2, []⟩, cursor := dec.cursor + 1 + 1 } n.toNat
              (by simpa using h3)
            simp only [Decoder.ReadAnyAtom, h1, hA, hB, if_false, if_true, hn, herr] at he
            cases he
      · simp only [Decoder.ReadAnyAtom, h1, hA, hB, if_false] at he
        cases he


theorem wireSize_binary (r : List UInt8) : wireSize (ETTBinary :: r) = 1 + 4 + beUint32 r := rfl

theorem wireSize_smallInteger (r : List UInt8) : wireSize (ETTSmallInteger :: r) = 1 + 1 := rfl

theorem wireSize_integer (r : List UInt8) : wireSize (ETTInteger :: r) = 1 + 4 := rfl

theorem wireSize_smallBig (n : UInt8) (r : List UInt8) :
    wireSize (ETTSmallBig :: n :: r) = 1 + 1 + (1 + n.toNat) := rfl

theorem wireSize_largeBig (r : List UInt8) :
    wireSize (ETTLargeBig :: r) = 1 + 4 + (1 + beUint32 r) := rfl

theorem wireSize_newFloat (r : List UInt8) : wireSize (ETTNewFloat :: r) = 1 + 8 := rfl

theorem Decoder.ReadAnyString_advanced (dec : Decoder) (output : GoString) (data : List UInt8)
    (hb : dec.bufReader = ⟨data, []⟩) (he : (dec.ReadAnyString output).err = none) :
    (dec.ReadAnyString output).advanced dec (wireSize data) := by
  have hdata : dec.bufReader.data = data := by rw [hb]
  cases data with
  | nil =>
    simp only [Decoder.ReadAnyString, dec.readNextTag_nil hdata] at he
    cases he
  | cons tag r =>
    have h1 := dec.readNextTag_cons tag r [] hb
    by_cases hA : tag = ETTAtom ∨ tag = ETTAtomUTF8 ∨ tag = ETTString
    · by_cases h2 : 2 ≤ r.length
      · obtain ⟨arr, hu⟩ := Decoder.readUint16_noShort
          { dec with bufReader := ⟨r, []⟩, cursor := dec.cursor + 1 } r rfl h2
        by_cases h3 : beUint16 r ≤ (r.drop 2).length
        · obtain ⟨arr2, hi⟩ := Decoder.readIntoBuf_noShort
            { bufReader := ⟨r.drop 2, []⟩, cursor := dec.cursor + 1 + 2,
              fieldStack := dec.fieldStack, bufArr := arr, bufLen := 2 } (r.drop 2) (beUint16 r)
            rfl h3
          simp only [Decoder.ReadAnyString, h1, hA, if_true, hu, hi, Ret.advanced, hdata,
            wireSize_wide tag hA]
          rw [List.length_drop] at h3
          refine ⟨by omega, (drop_after_tag tag r 2 (beUint16 r)).symm, ?_⟩
          simp only [List.length_cons]
          omega
        · have herr := Decoder.readIntoBuf_eof
            { bufReader := ⟨r.drop 2, []⟩, cursor := dec.cursor + 1 + 2,
              fieldStack := dec.fieldStack, bufArr := arr, bufLen := 2 } (beUint16 r)
            (by simpa using h3)
          simp only [Decoder.ReadAnyString, h1, hA, if_true, hu, herr] at he
          cases he
      · have herr := Decoder.readUint16_eof
          { dec with bufReader := ⟨r, []⟩, cursor := dec.cursor + 1 } (by simpa using h2)
        simp only [Decoder.ReadAnyString, h1, hA, if_true, herr] at he
        cases he
    · by_cases hB : tag = ETTSmallAtom ∨ tag = ETTSmallAtomUTF8
      · cases r with
        | nil =>
          have hn := Decoder.readNextByte_nil
            { dec with bufReader := ⟨[], []⟩, cursor := dec.cursor + 1 } rfl
          simp only [Decoder.ReadAnyString, h1, hA, hB, if_false, if_true, hn] at he
          cases he
        | cons n r2 =>
          have hn := Decoder.readNextByte_cons
            { dec with bufReader := ⟨n :: r2, []⟩, cursor := dec.cursor + 1 } n r2 [] rfl
          by_cases h3 : n.toNat ≤ r2.length
          · obtain ⟨arr2, hi⟩ := Decoder.readIntoBuf_noShort
              { dec with bufReader := ⟨r2, []⟩, cursor := dec.cursor + 1 + 1 } r2 n.toNat rfl h3
            simp only [Decoder.ReadAnyString, h1, hA, hB, if_false, if_true, hn, hi,
              Ret.advanced, hdata, wireSize_small tag hB]
            refine ⟨by omega, (drop_after_tag_byte tag n r2 n.toNat).symm, ?_⟩
            simp only [List.length_cons]
            omega
          · have herr := Decoder.readIntoBuf_eof
              { dec with bufReader := ⟨r2, []⟩, cursor := dec.cursor + 1 + 1 } n.toNat
              (by simpa using h3)
            simp only [Decoder.ReadAnyString, h1, hA, hB, if_false, if_true, hn, herr] at he
            cases he
      · by_cases hC : tag = ETTBinary
        · subst hC
          by_cases h2 : 4 ≤ r.length
          · obtain ⟨arr, hu⟩ := Decoder.readUint32_noShort
              { dec with bufReader := ⟨r, []⟩, cursor := dec.cursor + 1 } r rfl h2
            by_cases h3 : beUint32 r ≤ (r.drop 4).length
            · obtain ⟨arr2, hi⟩ := Decoder.readIntoBuf_noShort
                { bufReader := ⟨r.drop 4, []⟩, cursor := dec.cursor + 1 + 4,
                  fieldStack := dec.fieldStack, bufArr := arr, bufLen := 4 } (r.drop 4)
                (beUint32 r) rfl h3
              simp only [Decoder.ReadAnyString, h1, hA, hB, if_false, if_true, hu, hi,
                Ret.advanced, hdata, wireSize_binary]
              rw [List.length_drop] at h3
              refine ⟨by omega, (drop_after_tag ETTBinary r 4 (beUint32 r)).symm, ?_⟩
              simp only [List.length_cons]
              omega
            · have herr := Decoder.readIntoBuf_eof
                { bufReader := ⟨r.drop 4, []⟩, cursor := dec.cursor + 1 + 4,
                  fieldStack := dec.fieldStack, bufArr := arr, bufLen := 4 } (beUint32 r)
                (by simpa using h3)
              simp only [Decoder.ReadAnyString, h1, hA, hB, if_false, if_true, hu, herr] at he
              cases he
          · have herr := Decoder.readUint32_eof
              { dec with bufReader := ⟨r, []⟩, cursor := dec.cursor + 1 } (by simpa using h2)
            simp only [Decoder.ReadAnyString, h1, hA, hB, if_false, if_true, herr] at he
            cases he
        · simp only [Decoder.ReadAnyString, h1, hA, hB, hC, if_false] at he
          cases he

theorem Decoder.ReadAnyBool_advanced (dec : Decoder) (output : Bool) (data : List UInt8)
    (hb : dec.bufReader = ⟨data, []⟩) (he : (dec.ReadAnyBool output).err = none) :
    (dec.ReadAnyBool output).advanced dec (wireSize data) := by
  cases ha : (dec.ReadAnyAtom []).err with
  | some e =>
    simp only [Decoder.ReadAnyBool, ha] at he
    cases he
  | none =>
    have h := dec.ReadAnyAtom_advanced [] data hb ha
    simp only [Decoder.ReadAnyBool, ha]
    exact h

theorem Decoder.ReadVersion_advanced (dec : Decoder) (out : UInt8)
    (he : (dec.ReadVersion out).err = none) : (dec.ReadVersion out).advanced dec 1 := by
  cases hd : dec.bufReader.data with
  | nil =>
    simp only [Decoder.ReadVersion, dec.readNextByte_nil hd] at he
    cases he
  | cons b r =>
    have hb : dec.bufReader = ⟨b :: r, dec.bufReader.sched⟩ := by
      cases hs : dec.bufReader
      simp_all
    simp only [Decoder.ReadVersion, dec.readNextByte_cons b r _ hb, Ret.advanced, hd]
    exact ⟨trivial, by simp, by simp⟩

theorem Decoder.ReadAnyInt32_advanced (dec : Decoder) (dst : Int) (data : List UInt8)
    (hb : dec.bufReader = ⟨data, []⟩) (he : (dec.ReadAnyInt32 dst).err = none) :
    (dec.ReadAnyInt32 dst).advanced dec (wireSize data) := by
  have hdata : dec.bufReader.data = data := by rw [hb]
  cases data with
  | nil =>
    simp only [Decoder.ReadAnyInt32, dec.readNextTag_nil hdata] at he
    cases he
  | cons tag r =>
    have h1 := dec.readNextTag_cons tag r [] hb
    by_cases hA : tag = ETTInteger
    · subst hA
      by_cases h2 : 4 ≤ r.length
      · obtain ⟨arr, hu⟩ := Decoder.readUint32_noShort
          { dec with bufReader := ⟨r, []⟩, cursor := dec.cursor + 1 } r rfl h2
        simp only [Decoder.ReadAnyInt32, h1, if_true, hu, Ret.advanced, hdata, wireSize_integer]
        refine ⟨trivial, ?_, ?_⟩
        · rw [show 1 + 4 = 4 + 1 by rfl, List.drop_succ_cons]
        · simp only [List.length_cons]
          omega
      · have herr := Decoder.readUint32_eof
          { dec with bufReader := ⟨r, []⟩, cursor := dec.cursor + 1 } (by simpa using h2)
        simp only [Decoder.ReadAnyInt32, h1, if_true, herr] at he
        cases he
    · by_cases hB : tag = ETTSmallInteger
      · subst hB
        cases r with
        | nil =>
          have hn := Decoder.readNextByte_nil
            { dec with bufReader := ⟨[], []⟩, cursor := dec.cursor + 1 } rfl
          simp only [Decoder.ReadAnyInt32, h1, hA, if_false, if_true, hn] at he
          cases he
        | cons n r2 =>
          have hn := Decoder.readNextByte_cons
            { dec with bufReader := ⟨n :: r2, []⟩, cursor := dec.cursor + 1 } n r2 [] rfl
          simp only [Decoder.ReadAnyInt32, h1, hA, if_false, if_true, hn, Ret.advanced, hdata,
            wireSize_smallInteger]
          exact ⟨trivial, rfl, by simp⟩
      · simp only [Decoder.ReadAnyInt32, h1, hA, hB, if_false] at he
        cases he


theorem Decoder.readBigIntInt64_advanced (dec : Decoder) (data : List UInt8) (l : Nat)
    (sign : UInt8) (hb : dec.bufReader = ⟨data, []⟩)
    (he : (dec.readBigIntInt64 l sign).err = none) :
    (dec.readBigIntInt64 l sign).dec.cursor = dec.cursor + l ∧
    (dec.readBigIntInt64 l sign).dec.bufReader = ⟨data.drop l, []⟩ ∧ l ≤ data.length := by
  by_cases hl : l ≤ data.length
  · obtain ⟨arr, hi⟩ := dec.readIntoBuf_noShort data l hb hl
    by_cases h8 : l ≤ 8
    · simp only [Decoder.readBigIntInt64, hi, h8, if_true]
      exact ⟨trivial, trivial, hl⟩
    · simp only [Decoder.readBigIntInt64, hi, h8, if_false, Decoder.setBuf]
      split_ifs <;> exact ⟨rfl, rfl, hl⟩
  · have herr := dec.readIntoBuf_eof l (by rw [hb]; simpa using hl)
    simp only [Decoder.readBigIntInt64, herr] at he
    cases he

theorem Decoder.ReadAnyInt64_advanced (dec : Decoder) (dst : Int) (data : List UInt8)
    (hb : dec.bufReader = ⟨data, []⟩) (he : (dec.ReadAnyInt64 dst).err = none) :
    (dec.ReadAnyInt64 dst).advanced dec (wireSize data) := by
  have hdata : dec.bufReader.data = data := by rw [hb]
  cases data with
  | nil =>
    simp only [Decoder.ReadAnyInt64, dec.readNextTag_nil hdata] at he
    cases he
  | cons tag r =>
    have h1 := dec.readNextTag_cons tag r [] hb
    by_cases hA : tag = ETTInteger
    · subst hA
      by_cases h2 : 4 ≤ r.length
      · obtain ⟨arr, hu⟩ := Decoder.readUint32_noShort
          { dec with bufReader := ⟨r, []⟩, cursor := dec.cursor + 1 } r rfl h2
        simp only [Decoder.ReadAnyInt64, h1, if_true, hu, Ret.advanced, hdata, wireSize_integer]
        refine ⟨trivial, ?_, ?_⟩
        · rw [show 1 + 4 = 4 + 1 by rfl, List.drop_succ_cons]
        · simp only [List.length_cons]
          omega
      · have herr := Decoder.readUint32_eof
          { dec with bufReader := ⟨r, []⟩, cursor := dec.cursor + 1 } (by simpa using h2)
        simp only [Decoder.ReadAnyInt64, h1, if_true, herr] at he
        cases he
    · by_cases hB : tag = ETTSmallInteger
      · subst hB
        cases r with
        | nil =>
          have hn := Decoder.readNextByte_nil
            { dec with bufReader := ⟨[], []⟩, cursor := dec.cursor + 1 } rfl
          simp only [Decoder.ReadAnyInt64, h1, hA, if_false, if_true, hn] at he
          cases he
        | cons n r2 =>
          have hn := Decoder.readNextByte_cons
            { dec with bufReader := ⟨n :: r2, []⟩, cursor := dec.cursor + 1 } n r2 [] rfl
          simp only [Decoder.ReadAnyInt64, h1, hA, if_false, if_true, hn, Ret.advanced, hdata,
            wireSize_smallInteger]
          exact ⟨trivial, rfl, by simp⟩
      · by_cases hC : tag = ETTSmallBig
        · subst hC
          cases r with
          | nil =>
            have hn := Decoder.readNextByte_nil
              { dec with bufReader := ⟨[], []⟩, cursor := dec.cursor + 1 } rfl
            simp only [Decoder.ReadAnyInt64, h1, hA, hB, if_false, if_true, hn] at he
            cases he
          | cons n r2 =>
            have hn := Decoder.readNextByte_cons
              { dec with bufReader := ⟨n :: r2, []⟩, cursor := dec.cursor + 1 } n r2 [] rfl
            cases r2 with
            | nil =>
              have hg := Decoder.readNextByte_nil
                { dec with bufReader := ⟨[], []⟩, cursor := dec.cursor + 1 + 1 } rfl
              simp only [Decoder.ReadAnyInt64, h1, hA, hB, if_false, if_true, hn, hg] at he
              cases he
            | cons g r3 =>
              have hg := Decoder.readNextByte_cons
                { dec with bufReader := ⟨g :: r3, []⟩, cursor := dec.cursor + 1 + 1 } g r3 []
                rfl
              cases hi : (Decoder.readBigIntInt64
                  { dec with bufReader := ⟨r3, []⟩, cursor := dec.cursor + 1 + 1 + 1 }
                  n.toNat g).err with
              | some e =>
                simp only [Decoder.ReadAnyInt64, h1, hA, hB, if_false, if_true, hn, hg, hi] at he
                cases he
              | none =>
                obtain ⟨a1, a2, a3⟩ := Decoder.readBigIntInt64_advanced
                  { dec with bufReader := ⟨r3, []⟩, cursor := dec.cursor + 1 + 1 + 1 } r3
                  n.toNat g rfl hi
                simp only [Decoder.ReadAnyInt64, h1, hA, hB, if_false, if_true, hn, hg, hi,
                  Ret.advanced, hdata, wireSize_smallBig, a1, a2]
                refine ⟨by omega, ?_, ?_⟩
                · rw [show 1 + 1 + (1 + n.toNat) = ((n.toNat + 1) + 1) + 1 by omega,
                    List.drop_succ_cons, List.drop_succ_cons, List.drop_succ_cons]
                · simp only [List.length_cons]
                  omega
        · by_cases hD : tag = ETTLargeBig
          · subst hD
            by_cases h2 : 4 ≤ r.length
            · obtain ⟨arr, hu⟩ := Decoder.readUint32_noShort
                { dec with bufReader := ⟨r, []⟩, cursor := dec.cursor + 1 } r rfl h2
              cases hr : r.drop 4 with
              | nil =>
                have hg := Decoder.readNextByte_nil
                  { bufReader := ⟨r.drop 4, []⟩, cursor := dec.cursor + 1 + 4,
                    fieldStack := dec.fieldStack, bufArr := arr, bufLen := 4 } hr
                simp only [Decoder.ReadAnyInt64, h1, hA, hB, hC, if_false, if_true, hu, hg] at he
                cases he
              | cons g r3 =>
                have hg := Decoder.readNextByte_cons
                  { bufReader := ⟨r.drop 4, []⟩, cursor := dec.cursor + 1 + 4,
                    fieldStack := dec.fieldStack, bufArr := arr, bufLen := 4 } g r3 []
                  (by rw [hr])
                have hlen : r.length = 4 + (1 + r3.length) := by
                  have := congrArg List.length hr
                  rw [List.length_drop, List.length_cons] at this
                  omega
                cases hi : (Decoder.readBigIntInt64
                    { bufReader := ⟨r3, []⟩, cursor := dec.cursor + 1 + 4 + 1,
                      fieldStack := dec.fieldStack, bufArr := arr, bufLen := 4 }
                    (beUint32 r) g).err with
                | some e =>
                  simp only [Decoder.ReadAnyInt64, h1, hA, hB, hC, if_false, if_true, hu, hg,
                    hi] at he
                  cases he
                | none =>
                  obtain ⟨a1, a2, a3⟩ := Decoder.readBigIntInt64_advanced
                    { bufReader := ⟨r3, []⟩, cursor := dec.cursor + 1 + 4 + 1,
                      fieldStack := dec.fieldStack, bufArr := arr, bufLen := 4 } r3
                    (beUint32 r) g rfl hi
                  simp only [Decoder.ReadAnyInt64, h1, hA, hB, hC, if_false, if_true, hu, hg, hi,
                    Ret.advanced, hdata, wireSize_largeBig, a1, a2]
                  refine ⟨by omega, ?_, ?_⟩
                  · have hdd : List.drop (4 + (beUint32 r + 1)) r
                        = List.drop (beUint32 r + 1) (List.drop 4 r) :=
                      (List.drop_drop _ _ _).symm
                    rw [show 1 + 4 + (1 + beUint32 r) = (4 + (beUint32 r + 1)) + 1 by omega,
                      List.drop_succ_cons, hdd, hr, List.drop_succ_cons]
                  · simp only [List.length_cons]
                    omega
            · have herr := Decoder.readUint32_eof
                { dec with bufReader := ⟨r, []⟩, cursor := dec.cursor + 1 } (by simpa using h2)
              simp only [Decoder.ReadAnyInt64, h1, hA, hB, hC, if_false, if_true, herr] at he
              cases he
          · simp only [Decoder.ReadAnyInt64, h1, hA, hB, hC, hD, if_false] at he
            cases he

theorem Decoder.ReadAnyFloat64_advanced (dec : Decoder) (dst : Nat) (data : List UInt8)
    (hb : dec.bufReader = ⟨data, []⟩) (he : (dec.ReadAnyFloat64 dst).err = none) :
    (dec.ReadAnyFloat64 dst).advanced dec (wireSize data) := by
  have hdata : dec.bufReader.data = data := by rw [hb]
  cases data with
  | nil =>
    simp only [Decoder.ReadAnyFloat64, dec.readNextTag_nil hdata] at he
    cases he
  | cons tag r =>
    have h1 := dec.readNextTag_cons tag r [] hb
    by_cases hA : tag = ETTFloat
    · subst hA
      cases hi : (Decoder.readIntoBuf
          { dec with bufReader := ⟨r, []⟩, cursor := dec.cursor + 1 } 31).err with
      | some e =>
        simp only [Decoder.ReadAnyFloat64, h1, if_true, hi] at he
        cases he
      | none =>
        simp only [Decoder.ReadAnyFloat64, h1, if_true, hi, Decoder.sscanfFloat] at he
        cases he
    · by_cases hB : tag = ETTNewFloat
      · subst hB
        by_cases h2 : 8 ≤ r.length
        · obtain ⟨arr, hu⟩ := Decoder.readIntoBuf_noShort
            { dec with bufReader := ⟨r, []⟩, cursor := dec.cursor + 1 } r 8 rfl h2
          simp only [Decoder.ReadAnyFloat64, h1, hA, if_false, if_true, hu, Ret.advanced, hdata,
            wireSize_newFloat]
          refine ⟨trivial, ?_, ?_⟩
          · rw [show 1 + 8 = 8 + 1 by rfl, List.drop_succ_cons]
          · simp only [List.length_cons]
            omega
        · have herr := Decoder.readIntoBuf_eof
            { dec with bufReader := ⟨r, []⟩, cursor := dec.cursor + 1 } 8 (by simpa using h2)
          simp only [Decoder.ReadAnyFloat64, h1, hA, if_false, if_true, herr] at he
          cases he
      · simp only [Decoder.ReadAnyFloat64, h1, hA, hB, if_false] at he
        cases he


/-- C17: on a source without short reads, every successful call of a primitive
reader moves the cursor by exactly the number of bytes the decoded term occupies on
the wire (one tag byte, the length field, the payload, the sign byte of a big counted
with the payload; one byte for `ReadVersion`), and exactly that many bytes have been
consumed from the stream; the cursor is 13 after decoding `73 0B "Hello world"` with a
fresh decoder. -/
theorem primitive_reads_advance_by_wire_size (dec : Decoder)
    (hsrc : dec.bufReader.noShortReads) :
    (∀ out, (dec.ReadVersion out).err = none → (dec.ReadVersion out).advanced dec 1) ∧
    (∀ output, (dec.ReadAnyAtom output).err = none →
      (dec.ReadAnyAtom output).advanced dec (wireSize dec.bufReader.data)) ∧
    (∀ output, (dec.ReadAnyString output).err = none →
      (dec.ReadAnyString output).advanced dec (wireSize dec.bufReader.data)) ∧
    (∀ output, (dec.ReadAnyBool output).err = none →
      (dec.ReadAnyBool output).advanced dec (wireSize dec.bufReader.data)) ∧
    (∀ dst, (dec.ReadAnyInt32 dst).err = none →
      (dec.ReadAnyInt32 dst).advanced dec (wireSize dec.bufReader.data)) ∧
    (∀ dst, (dec.ReadAnyInt64 dst).err = none →
      (dec.ReadAnyInt64 dst).advanced dec (wireSize dec.bufReader.data)) ∧
    (∀ dst, (dec.ReadAnyFloat64 dst).err = none →
      (dec.ReadAnyFloat64 dst).advanced dec (wireSize dec.bufReader.data)) ∧
    wireSize ([0x73, 0x0B] ++ goStr "Hello world") = 13 ∧
    ((NewDecoder ⟨[0x73, 0x0B] ++ goStr "Hello world", []⟩).ReadAnyAtom []).dec.cursor = 13 := by
  have hb : dec.bufReader = ⟨dec.bufReader.data, []⟩ := Source.eq_of_noShortReads hsrc rfl
  exact ⟨fun out he => dec.ReadVersion_advanced out he,
    fun output he => dec.ReadAnyAtom_advanced output _ hb he,
    fun output he => dec.ReadAnyString_advanced output _ hb he,
    fun output he => dec.ReadAnyBool_advanced output _ hb he,
    fun dst he => dec.ReadAnyInt32_advanced dst _ hb he,
    fun dst he => dec.ReadAnyInt64_advanced dst _ hb he,
    fun dst he => dec.ReadAnyFloat64_advanced dst _ hb he,
    by decide, by decide⟩

theorem primitive_reads_advance_by_wire_size_witness :
    ((NewDecoder ⟨[0x6E, 0x02, 0x01, 0xE8, 0x03, 0x6A], []⟩).ReadAnyInt64 0).dec.cursor = 5 ∧
    ((NewDecoder ⟨[0x6E, 0x02, 0x01, 0xE8, 0x03, 0x6A], []⟩).ReadAnyInt64 0).dec.bufReader.data
      = [0x6A] ∧
    ((NewDecoder ⟨[0x46, 0x40, 0x09, 0x21, 0xFB, 0x54, 0x44, 0x2D, 0x18], []⟩).ReadAnyFloat64
      0).dec.cursor = 9 ∧
    ((NewDecoder ⟨[0x83], []⟩).ReadVersion 0).dec.cursor = 1 :=
  ⟨((primitive_reads_advance_by_wire_size
      (NewDecoder ⟨[0x6E, 0x02, 0x01, 0xE8, 0x03, 0x6A], []⟩) rfl).2.2.2.2.2.1 0
      (by decide)).1,
   ((primitive_reads_advance_by_wire_size
      (NewDecoder ⟨[0x6E, 0x02, 0x01, 0xE8, 0x03, 0x6A], []⟩) rfl).2.2.2.2.2.1 0
      (by decide)).2.1,
   ((primitive_reads_advance_by_wire_size
      (NewDecoder ⟨[0x46, 0x40, 0x09, 0x21, 0xFB, 0x54, 0x44, 0x2D, 0x18], []⟩)
      rfl).2.2.2.2.2.2.1 0 (by decide)).1,
   ((primitive_reads_advance_by_wire_size (NewDecoder ⟨[0x83], []⟩) rfl).1 0 (by decide)).1⟩

/-! ## Short reads inside a term -/

/-- C5 (the code at the failing input): on the stream `62 00 00 01 00 61 07`, an
INTEGER term with payload `00 00 01 00` followed by two more bytes, read through a
source whose first `Read` delivers 2 bytes, `ReadAnyInt32` returns `16802055` with no
error, not 256: the second `Read` lands at the base of the scratch slice again, so the
word decoded is `01 00 61 07`, and all seven bytes have been consumed. -/
theorem ReadAnyInt32_short_read_misdecodes :
    ((NewDecoder ⟨[0x62, 0x00, 0x00, 0x01, 0x00, 0x61, 0x07], [2]⟩).ReadAnyInt32 0).err = none ∧
    ((NewDecoder ⟨[0x62, 0x00, 0x00, 0x01, 0x00, 0x61, 0x07], [2]⟩).ReadAnyInt32 0).val
      = 16802055 ∧
    ¬ ((NewDecoder ⟨[0x62, 0x00, 0x00, 0x01, 0x00, 0x61, 0x07], [2]⟩).ReadAnyInt32 0).val
      = 256 ∧
    ((NewDecoder ⟨[0x62, 0x00, 0x00, 0x01, 0x00, 0x61, 0x07], [2]⟩).ReadAnyInt32
      0).dec.bufReader.data = [] ∧
    ((NewDecoder ⟨[0x62, 0x00, 0x00, 0x01, 0x00, 0x61, 0x07], []⟩).ReadAnyInt32 0).val
      = 256 := by
  decide

/-- C6 (the code at the failing input): on the stream `6E 02 01 E8 03 10 20`, the
SMALL_BIG term of value `-1000` followed by two more bytes, read through a source
whose first `Read` delivers 1 byte, `ReadAnyInt64` returns `-4099` with no error: the
magnitude decoded is `03 10`, the bytes of the second `Read`. -/
theorem ReadAnyInt64_big_short_read_misdecodes :
    bigValue 0x01 [0xE8, 0x03] = -1000 ∧
    ((NewDecoder ⟨[0x6E, 0x02, 0x01, 0xE8, 0x03, 0x10, 0x20], [1]⟩).ReadAnyInt64 0).err = none ∧
    ((NewDecoder ⟨[0x6E, 0x02, 0x01, 0xE8, 0x03, 0x10, 0x20], [1]⟩).ReadAnyInt64 0).val
      = -4099 ∧
    ¬ ((NewDecoder ⟨[0x6E, 0x02, 0x01, 0xE8, 0x03, 0x10, 0x20], [1]⟩).ReadAnyInt64 0).val
      = -1000 ∧
    ((NewDecoder ⟨[0x6E, 0x02, 0x01, 0xE8, 0x03, 0x10, 0x20], []⟩).ReadAnyInt64 0).val
      = -1000 := by
  decide

/-- C10 (the code at the failing input): on the stream `6C 00 00 00 00 00 00 03 6A`, a
list term whose count on the wire is 0, read through a source whose first `Read`
delivers 3 bytes, `ReadList` takes `00 00 00 03` for the count and invokes the callback
3 times; without the short read it invokes it 0 times. -/
theorem ReadList_short_read_in_count :
    ((NewDecoder ⟨[0x6C, 0x00, 0x00, 0x00, 0x00, 0x00, 0x00, 0x03, 0x6A], [3]⟩).ReadList
      (logCalls (fun (u : Unit) d => (u, none, d))) ((), [])).val.2 = [none, none, none] ∧
    ((NewDecoder ⟨[0x6C, 0x00, 0x00, 0x00, 0x00, 0x00, 0x00, 0x03, 0x6A], [3]⟩).ReadList
      (logCalls (fun (u : Unit) d => (u, none, d))) ((), [])).val.2.length = 3 ∧
    ¬ ((NewDecoder ⟨[0x6C, 0x00, 0x00, 0x00, 0x00, 0x00, 0x00, 0x03, 0x6A], [3]⟩).ReadList
      (logCalls (fun (u : Unit) d => (u, none, d))) ((), [])).val.2.length
      = beUint32 [0x00, 0x00, 0x00, 0x00] ∧
    ((NewDecoder ⟨[0x6C, 0x00, 0x00, 0x00, 0x00, 0x00, 0x00, 0x03, 0x6A], []⟩).ReadList
      (logCalls (fun (u : Unit) d => (u, none, d))) ((), [])).val.2 = [] := by
  decide

/-- With at least `l - n` bytes left, the read loop ends without error, whatever the
read schedule of the source. -/
theorem Decoder.readLoop_ok (fuel : Nat) :
    ∀ (dec : Decoder) (l n : Nat), dec.bufLen = l → l ≤ n + dec.bufReader.data.length →
      (readLoop fuel dec l n).1 = none := by
  induction fuel with
  | zero => intro dec l n _ _; rfl
  | succ fuel ih =>
    intro dec l n hb hle
    by_cases hnl : n < l
    · have hk : dec.bufLen ≠ 0 := by omega
      have hd : dec.bufReader.data ≠ [] := by
        intro h0
        rw [h0] at hle
        simp only [List.length_nil] at hle
        omega
      obtain ⟨hle2, hdrop, _, _⟩ := Source.Read_length_le dec.bufReader dec.bufLen
      rcases hR : dec.bufReader.Read dec.bufLen with ⟨bs, err, s⟩
      rw [hR] at hle2 hdrop
      cases err with
      | some e => simp [Source.Read, hk, hd] at hR
      | none =>
        simp only [Decoder.readLoop, hnl, if_true, hR]
        have hle3 : bs.length ≤ dec.bufReader.data.length := hle2
        have hlen : s.data.length = dec.bufReader.data.length - bs.length := by
          have : s.data = dec.bufReader.data.drop bs.length := hdrop
          rw [this, List.length_drop]
        apply ih
        · exact hb
        · simp only []
          rw [hlen]
          omega
    · simp only [Decoder.readLoop, hnl, if_false]

theorem Decoder.readIntoBuf_ok (dec : Decoder) (l : Nat) (h : l ≤ dec.bufReader.data.length) :
    (dec.readIntoBuf l).err = none := by
  unfold Decoder.readIntoBuf
  have hE := Decoder.readLoop_ok l (dec.resizeBuf l) l 0 (dec.resizeBuf_bufLen l)
    (by rw [Decoder.resizeBuf_bufReader]; omega)
  rcases hL : readLoop l (dec.resizeBuf l) l 0 with ⟨e, d⟩
  rw [hL] at hE
  exact hE

theorem Decoder.readUint32_ok (dec : Decoder) (h : 4 ≤ dec.bufReader.data.length) :
    dec.readUint32.err = none := by
  unfold Decoder.readUint32
  simp only [dec.readIntoBuf_ok 4 h]

theorem lastError_all_none (log : List (Option Err)) (h : ∀ e ∈ log, e = none) :
    lastError log = none := by
  induction log with
  | nil => rfl
  | cons x xs ih =>
    have hx : x = none := h x (List.mem_cons_self _ _)
    subst hx
    rw [lastError_cons_none]
    exact ih (fun e he => h e (List.mem_cons_of_mem _ he))

/-- C14 (amended): `ReadList` returns the end-of-input error when the stream ends
before the tag or inside the four-byte count. Once the tag and the count have been
read it returns the error of the last callback invocation that returned an error, or
no error if none did, also when the stream ends before the tail term that follows the
elements: the skip of the tail reports nothing. The invocations are observed through
the logging callback, which changes nothing else. On `6C 00 00 00 01 61 07` with a
callback calling `ReadAnyInt32` the one invocation succeeds, the stream is exhausted
before the tail, and `ReadList` returns no error. -/
theorem ReadList_end_of_input_reporting {σ : Type} (dec : Decoder)
    (unmarshaler : ListUnmarshaler σ) (st : σ) :
    (dec.bufReader.data = [] → (dec.ReadList unmarshaler st).err = some Err.EOF) ∧
    (∀ tail : List UInt8, dec.bufReader.data = 108 :: tail → tail.length < 4 →
      (dec.ReadList unmarshaler st).err = some Err.EOF) ∧
    (∀ tail : List UInt8, dec.bufReader.data = 108 :: tail → 4 ≤ tail.length →
      (dec.ReadList unmarshaler st).err
        = lastError (dec.ReadList (logCalls unmarshaler) (st, [])).val.2 ∧
      (dec.ReadList (logCalls unmarshaler) (st, [])).val.1 = (dec.ReadList unmarshaler st).val ∧
      (dec.ReadList (logCalls unmarshaler) (st, [])).dec = (dec.ReadList unmarshaler st).dec ∧
      ((∀ e ∈ (dec.ReadList (logCalls unmarshaler) (st, [])).val.2, e = none) →
        (dec.ReadList unmarshaler st).err = none)) ∧
    ((NewDecoder ⟨[0x6C, 0, 0, 0, 1, 0x61, 0x07], []⟩).ReadList
      (logCalls (fun (u : Unit) d => (u, (d.ReadAnyInt32 0).err, (d.ReadAnyInt32 0).dec)))
      ((), [])).val.2 = [none] ∧
    ((NewDecoder ⟨[0x6C, 0, 0, 0, 1, 0x61, 0x07], []⟩).ReadList
      (fun (u : Unit) d => (u, (d.ReadAnyInt32 0).err, (d.ReadAnyInt32 0).dec))
      ()).dec.bufReader.data = [] ∧
    ((NewDecoder ⟨[0x6C, 0, 0, 0, 1, 0x61, 0x07], []⟩).ReadList
      (fun (u : Unit) d => (u, (d.ReadAnyInt32 0).err, (d.ReadAnyInt32 0).dec)) ()).err
      = none := by
  refine ⟨?_, ?_, ?_, by decide, by decide, by decide⟩
  · intro h
    simp only [Decoder.ReadList, dec.readNextTag_nil h]
  · intro tail hdata hlen
    have hb : dec.bufReader = ⟨108 :: tail, dec.bufReader.sched⟩ := by
      cases hs : dec.bufReader
      simp_all
    have h1 := dec.readNextTag_cons 108 tail _ hb
    have h2 := Decoder.readUint32_eof
      { dec with bufReader := ⟨tail, dec.bufReader.sched⟩, cursor := dec.cursor + 1 } hlen
    have hL : (108 : UInt8) = ETTList := rfl
    simp only [Decoder.ReadList, h1]
    simp only [hL, if_true, h2]
  · intro tail hdata hlen
    have hb : dec.bufReader = ⟨108 :: tail, dec.bufReader.sched⟩ := by
      cases hs : dec.bufReader
      simp_all
    have h1 := dec.readNextTag_cons 108 tail _ hb
    have hok := Decoder.readUint32_ok
      { dec with bufReader := ⟨tail, dec.bufReader.sched⟩, cursor := dec.cursor + 1 } hlen
    have hL : (108 : UInt8) = ETTList := rfl
    obtain ⟨tr, _, h3, h4⟩ := Decoder.listLoop_logCalls unmarshaler
      (Decoder.readUint32
        { dec with bufReader := ⟨tail, dec.bufReader.sched⟩, cursor := dec.cursor + 1 }).val
      st [] none
      (Decoder.readUint32
        { dec with bufReader := ⟨tail, dec.bufReader.sched⟩, cursor := dec.cursor + 1 }).dec
    have hlog : (dec.ReadList (logCalls unmarshaler) (st, [])).val.2 = tr := by
      simp only [Decoder.ReadList, h1]
      simp only [hL, if_true, hok, h3, List.nil_append]
    have herr : (dec.ReadList unmarshaler st).err = lastError tr := by
      simp only [Decoder.ReadList, h1]
      simp only [hL, if_true, hok, h4, Option.or_none]
    have hval : (dec.ReadList (logCalls unmarshaler) (st, [])).val.1
        = (dec.ReadList unmarshaler st).val := by
      simp only [Decoder.ReadList, h1]
      simp only [hL, if_true, hok, h3]
    have hdec : (dec.ReadList (logCalls unmarshaler) (st, [])).dec
        = (dec.ReadList unmarshaler st).dec := by
      simp only [Decoder.ReadList, h1]
      simp only [hL, if_true, hok, h3]
    refine ⟨by rw [herr, hlog], hval, hdec, ?_⟩
    intro hall
    rw [herr, ← hlog]
    exact lastError_all_none _ hall

theorem ReadList_end_of_input_reporting_witness :
    ((NewDecoder ⟨[], []⟩).ReadList
      (fun (u : Unit) d => (u, (d.ReadAnyInt32 0).err, (d.ReadAnyInt32 0).dec)) ()).err
      = some Err.EOF ∧
    ((NewDecoder ⟨[0x6C, 0, 0], []⟩).ReadList
      (fun (u : Unit) d => (u, (d.ReadAnyInt32 0).err, (d.ReadAnyInt32 0).dec)) ()).err
      = some Err.EOF ∧
    ((NewDecoder ⟨[0x6C, 0, 0, 0, 2, 0x61, 0x07, 0x61, 0x08], []⟩).ReadList
      (fun (u : Unit) d => (u, (d.ReadAnyInt32 0).err, (d.ReadAnyInt32 0).dec)) ()).err
      = none ∧
    ((NewDecoder ⟨[0x6C, 0, 0, 0, 2, 0x61, 0x07], []⟩).ReadList
      (fun (u : Unit) d => (u, (d.ReadAnyInt32 0).err, (d.ReadAnyInt32 0).dec)) ()).err
      = lastError ((NewDecoder ⟨[0x6C, 0, 0, 0, 2, 0x61, 0x07], []⟩).ReadList
          (logCalls (fun (u : Unit) d => (u, (d.ReadAnyInt32 0).err, (d.ReadAnyInt32 0).dec)))
          ((), [])).val.2 :=
  ⟨(ReadList_end_of_input_reporting (NewDecoder ⟨[], []⟩)
      (fun (u : Unit) d => (u, (d.ReadAnyInt32 0).err, (d.ReadAnyInt32 0).dec)) ()).1 rfl,
   (ReadList_end_of_input_reporting (NewDecoder ⟨[0x6C, 0, 0], []⟩)
      (fun (u : Unit) d => (u, (d.ReadAnyInt32 0).err, (d.ReadAnyInt32 0).dec)) ()).2.1
      [0, 0] rfl (by decide),
   ((ReadList_end_of_input_reporting
      (NewDecoder ⟨[0x6C, 0, 0, 0, 2, 0x61, 0x07, 0x61, 0x08], []⟩)
      (fun (u : Unit) d => (u, (d.ReadAnyInt32 0).err, (d.ReadAnyInt32 0).dec)) ()).2.2.1
      [0, 0, 0, 2, 0x61, 0x07, 0x61, 0x08] rfl (by decide)).2.2.2 (by decide),
   ((ReadList_end_of_input_reporting (NewDecoder ⟨[0x6C, 0, 0, 0, 2, 0x61, 0x07], []⟩)
      (fun (u : Unit) d => (u, (d.ReadAnyInt32 0).err, (d.ReadAnyInt32 0).dec)) ()).2.2.1
      [0, 0, 0, 2, 0x61, 0x07] rfl (by decide)).1⟩

end Goetf
